import Mathlib

/-!
# Volume manager of the blobstore proxy allocator

Shallow embedding of `blobstore/proxy/allocator/volumemgr.go`.

* Go `uint64` values are `Nat`, Go `int64`/`int` values are `Int`; every
  conversion and every arithmetic operation that can wrap is written with the
  explicit conversions `int64` and `uint64` below.
* A `*volume` is an address into `Heap`, the memory holding every volume record
  created so far; a `volumes` set holds addresses, so a record that left the
  pool keeps its fields.
* Locks are not modelled: every method runs as one sequential step.
* `allocNotify` is a non-blocking send on the request channel of the mode; the
  channel is modelled by the request the worker is busy with (`none` when the
  worker waits on the channel) and every attempt is recorded in `notified`.
-/

/-- Conversion of a mathematical integer to a Go `int64` (two's complement wrap). -/
def int64 (x : Int) : Int := (x + 9223372036854775808) % 18446744073709551616 - 9223372036854775808

/-- Conversion of a mathematical integer to a Go `uint64` (wrap modulo 2^64). -/
def uint64 (x : Int) : Nat := (x % 18446744073709551616).toNat

/-- Errors returned by the volume manager; `panic` stands for a goroutine that
panics instead of returning. -/
inductive Error where
  | ErrNoAvaliableVolume
  | codeModeNotExist
  | external (code : Nat)
  | panic
  deriving DecidableEq, Repr

/-- The `volume` record: the fields of `clustermgr.AllocVolumeInfo` the allocator
reads and writes (`Vid`, `Used`, `Free`, all unsigned) and the `deleted` flag. -/
structure volume where
  Vid : Nat
  Used : Nat
  Free : Nat
  deleted : Bool
  deriving DecidableEq, Repr, Inhabited

/-- A Go slice, read as the sequence of its elements. -/
abbrev Slice (α : Type) := List α

/-- A `*volume`: the address of a record in the heap. -/
abbrev Ptr := Nat

/-- The memory behind the `*volume` pointers: every record created so far, the
address of a record being its position. -/
abbrev Heap := List volume

/-- Read through a `*volume`. -/
def deref (h : Heap) (p : Ptr) : volume := h.getD p default

/-- Modelled from the spec: the `volumes` type (VolumeSet) is declared outside the
given sources. It is "an ordered sequence of Volume + aggregate totalFree", the
counter being a signed 64-bit atomic. -/
structure volumes where
  vols : Slice Ptr
  totalFree : Int
  deriving DecidableEq, Repr

/-- Modelled from the spec: `volumes.TotalFree`, an atomic load of the counter. -/
def volumes.TotalFree (s : volumes) : Int := s.totalFree

/-- Modelled from the spec: `volumes.UpdateTotalFree`, an atomic add on the signed
64-bit counter; the source uses its result as the new value of the counter. -/
def volumes.UpdateTotalFree (s : volumes) (fsize : Int) : volumes × Int :=
  ({ s with totalFree := int64 (s.totalFree + fsize) }, int64 (s.totalFree + fsize))

/-- Modelled from the spec: `volumes.Get`, the record of the set carrying `vid`. -/
def volumes.Get (s : volumes) (h : Heap) (vid : Nat) : Option Ptr :=
  s.vols.find? (fun p => (deref h p).Vid == vid)

/-- Modelled from the spec: `volumes.Put` adds the record to the sequence and its
free space to the counter (`totalFree == Σ v.free`). -/
def volumes.Put (s : volumes) (h : Heap) (vol : Ptr) : volumes :=
  { vols := s.vols ++ [vol], totalFree := int64 (s.totalFree + int64 (deref h vol).Free) }

/-- Modelled from the spec: `volumes.Delete` removes the record carrying `vid`,
takes its free space off the counter (the comment of `modifySpace` in the source:
`totalFree -= volInfo.Free`, then the volume is deleted) and reports whether the
vid was found. -/
def volumes.Delete (s : volumes) (h : Heap) (vid : Nat) : volumes × Bool :=
  match s.Get h vid with
  | some p =>
    ({ vols := s.vols.eraseP (fun q => (deref h q).Vid == vid),
       totalFree := int64 (s.totalFree - int64 (deref h p).Free) }, true)
  | none => (s, false)

/-- Modelled from the spec: `volumes.Len`, the number of records of the set. -/
def volumes.Len (s : volumes) : Nat := s.vols.length

/-- Modelled from the spec: `volumes.List`, the sequence of the set. -/
def volumes.List (s : volumes) : Slice Ptr := s.vols

/-- The `modeInfo` struct (ModePool) without its lock. `totalThreshold` is a Go
`uint64`. -/
structure modeInfo where
  current : volumes
  backup : volumes
  totalThreshold : Nat
  deriving DecidableEq, Repr

/-- The method `modeInfo.List`. -/
def modeInfo.List (m : modeInfo) (isBackUp : Bool) : Slice Ptr :=
  if isBackUp then m.backup.List else m.current.List

/-- The method `modeInfo.ListAll`. -/
def modeInfo.ListAll (m : modeInfo) : Slice Ptr := m.current.List ++ m.backup.List

/-- The method `modeInfo.VolumeNum`. -/
def modeInfo.VolumeNum (m : modeInfo) : Nat := m.backup.Len + m.current.Len

/-- The method `modeInfo.Delete`: delete from `current`, from `backup` when
`current` does not hold the vid. -/
def modeInfo.Delete (m : modeInfo) (h : Heap) (vid : Nat) : modeInfo :=
  if (m.current.Delete h vid).2 then { m with current := (m.current.Delete h vid).1 }
  else { m with backup := (m.backup.Delete h vid).1 }

/-- The method `modeInfo.Put`. -/
def modeInfo.Put (m : modeInfo) (h : Heap) (vol : Ptr) (isBackUp : Bool) : modeInfo :=
  if isBackUp then { m with backup := m.backup.Put h vol }
  else { m with current := m.current.Put h vol }

/-- The method `modeInfo.Get`. -/
def modeInfo.Get (m : modeInfo) (h : Heap) (vid : Nat) (isBackup : Bool) : Option Ptr :=
  if isBackup then m.backup.Get h vid else m.current.Get h vid

/-- The method `modeInfo.TotalFree`: the sum of the two counters, in `int64`. -/
def modeInfo.TotalFree (m : modeInfo) : Int :=
  int64 (m.backup.TotalFree + m.current.TotalFree)

/-- The method `modeInfo.needSwitchToBackup`: the updated pool, the flag and the
error of the Go pair `(bool, error)`. -/
def modeInfo.needSwitchToBackup (m : modeInfo) (fSize : Int) : modeInfo × Bool × Option Error :=
  let r := m.current.UpdateTotalFree (int64 (-fSize))
  if r.2 ≤ int64 m.totalThreshold then
    let m2 : modeInfo := { m with current := (r.1.UpdateTotalFree fSize).1 }
    if m2.backup.List.length = 0 then (m2, false, some Error.ErrNoAvaliableVolume)
    else (m2, true, none)
  else ({ m with current := r.1 }, false, none)

/-- The end of `modeInfo.getAvailableList`, from the second test of the counter
on: `nil` when `current` cannot hold `fsize`, else the debit and the list. -/
def modeInfo.debitAndList (m : modeInfo) (fsize : Int) : modeInfo × Slice Ptr :=
  if m.current.TotalFree < fsize then (m, [])
  else ({ m with current := (m.current.UpdateTotalFree (int64 (-fsize))).1 }, m.current.List)

/-- The method `modeInfo.getAvailableList`: the updated pool and the returned
slice (`nil` is the empty list). -/
def modeInfo.getAvailableList (m : modeInfo) (fsize : Int) (switchable : Bool) :
    modeInfo × Slice Ptr :=
  if !switchable then (m, m.List false)
  else if m.current.TotalFree < int64 m.totalThreshold ∨ m.current.TotalFree < fsize then
    modeInfo.debitAndList
      { m with current := m.backup, backup := { vols := [], totalFree := 0 } } fsize
  else modeInfo.debitAndList m fsize

/-- The method `modeInfo.UpdateTotalFree`. -/
def modeInfo.UpdateTotalFree (m : modeInfo) (isBackup : Bool) (free : Int) : modeInfo :=
  if isBackup then { m with backup := (m.backup.UpdateTotalFree free).1 }
  else { m with current := (m.current.UpdateTotalFree free).1 }

/-- One iteration of the loop of `modeInfo.dealDisCards`, on the memory and the
pool. -/
def modeInfo.dealDisCard (st : Heap × modeInfo) (vid : Nat) : Heap × modeInfo :=
  match st.2.current.Get st.1 vid with
  | some vol =>
    if (deref st.1 vol).deleted then st
    else
      let h1 : Heap := st.1.set vol { deref st.1 vol with deleted := true }
      (h1, { st.2 with current := (st.2.current.Delete h1 vid).1 })
  | none => st

/-- The method `modeInfo.dealDisCards`. -/
def modeInfo.dealDisCards (m : modeInfo) (h : Heap) (discards : Slice Nat) : Heap × modeInfo :=
  if discards.length = 0 then (h, m)
  else discards.foldl modeInfo.dealDisCard (h, m)

/-- The `allocArgs` struct: a request to the allocation worker of a mode. -/
structure allocArgs where
  isInit : Bool
  isBackup : Bool
  codeMode : Nat
  count : Int
  deriving DecidableEq, Repr

/-- The worker of `allocVolumeLoop` between two iterations of its inner loop: the
request it serves and the count still to be delivered. -/
structure worker where
  args : allocArgs
  requireCount : Int
  deriving DecidableEq, Repr

/-- The fields of `proxy.AllocVolsArgs`. `Fsize` is a Go `uint64`. -/
structure AllocVolsArgs where
  Fsize : Nat
  CodeMode : Nat
  BidCount : Nat
  Excludes : Slice Nat
  Discards : Slice Nat
  deriving DecidableEq, Repr

/-- The fields of `proxy.DiscardVolsArgs`. -/
structure DiscardVolsArgs where
  CodeMode : Nat
  Discards : Slice Nat
  deriving DecidableEq, Repr

/-- A bid scope returned by `BidMgr.Alloc`. -/
structure BidScope where
  StartBid : Nat
  EndBid : Nat
  deriving DecidableEq, Repr

/-- The `proxy.AllocRet` record. -/
structure AllocRet where
  BidStart : Nat
  BidEnd : Nat
  Vid : Nat
  deriving DecidableEq, Repr

/-- The `volumeMgr` struct with the memory its pointers refer to. The Go maps
`modeInfos` and `allocChs` are association lists read at the first entry of a
key; a channel of `allocChs` is the state of its worker (`none`: waiting on the
channel). `notified` records every send attempted by `allocNotify`, with whether
the worker took it. -/
structure volumeMgr where
  VolumeReserveSize : Int
  DefaultAllocVolsNum : Int
  InitVolumeNum : Int
  heap : Heap
  modeInfos : List (Nat × modeInfo)
  allocChs : List (Nat × Option worker)
  preIdx : Nat
  notified : List (allocArgs × Bool)
  deriving DecidableEq, Repr

/-- Read of a Go map: `none` when the key is absent. -/
def mapGet {β : Type} : List (Nat × β) → Nat → Option β
  | [], _ => none
  | (k, x) :: rest, key => if k = key then some x else mapGet rest key

/-- Write through the pointer stored under a key of a Go map. -/
def mapSet {β : Type} : List (Nat × β) → Nat → β → List (Nat × β)
  | [], _, _ => []
  | (k, x) :: rest, key, y =>
    if k = key then (k, y) :: mapSet rest key y else (k, x) :: mapSet rest key y

/-- The method `volumeMgr.allocNotify`: a non-blocking send of the request; the
flag is true when the mode has no channel and the call panics. -/
def volumeMgr.allocNotify (v : volumeMgr) (mode : Nat) (count : Int) (isBackup : Bool) :
    volumeMgr × Bool :=
  let applyArg : allocArgs := { isInit := false, isBackup := isBackup, codeMode := mode, count := count }
  match mapGet v.allocChs mode with
  | some none =>
    ({ v with allocChs := mapSet v.allocChs mode (some { args := applyArg, requireCount := applyArg.count }),
              notified := v.notified ++ [(applyArg, true)] }, false)
  | some (some _) => ({ v with notified := v.notified ++ [(applyArg, false)] }, false)
  | none => (v, true)

/-- The method `volumeMgr.modifySpace`; `modeInfo` is passed in and handed back. -/
def volumeMgr.modifySpace (v : volumeMgr) (volInfo : Ptr) (m : modeInfo) (args : AllocVolsArgs) :
    volumeMgr × modeInfo × Bool :=
  let vol := deref v.heap volInfo
  if args.Excludes.any (fun id => vol.Vid == id) then (v, m, false)
  else if vol.Free < args.Fsize ∨ vol.deleted = true then (v, m, false)
  else
    let vol1 : volume :=
      { vol with Free := uint64 ((vol.Free : Int) - args.Fsize),
                 Used := uint64 ((vol.Used : Int) + args.Fsize) }
    if vol1.Free < uint64 v.VolumeReserveSize then
      let v1 : volumeMgr := { v with heap := v.heap.set volInfo { vol1 with deleted := true } }
      (v1, m.Delete v1.heap vol1.Vid, true)
    else ({ v with heap := v.heap.set volInfo vol1 }, m, true)

/-- The loop of `volumeMgr.getNextVid`: `i` is the loop variable and `n` the number
of iterations left before `i` reaches `l`. -/
def volumeMgr.getNextVidLoop (vols : Slice Ptr) (args : AllocVolsArgs) :
    Nat → Nat → volumeMgr → modeInfo → volumeMgr × modeInfo × Except Error Nat
  | _, 0, v, m => (v, m, .error Error.ErrNoAvaliableVolume)
  | i, n + 1, v, m =>
    let idx := i % vols.length
    let r := v.modifySpace (vols.getD idx 0) m args
    if r.2.2 then (r.1, r.2.1, .ok (deref r.1.heap (vols.getD idx 0)).Vid)
    else volumeMgr.getNextVidLoop vols args (i + 1) n r.1 r.2.1

/-- The method `volumeMgr.getNextVid`; the modulo by an empty candidate list is a
panic. -/
def volumeMgr.getNextVid (v : volumeMgr) (vols : Slice Ptr) (m : modeInfo) (args : AllocVolsArgs) :
    volumeMgr × modeInfo × Except Error Nat :=
  let v1 : volumeMgr := { v with preIdx := (v.preIdx + 1) % 18446744073709551616 }
  if vols.length = 0 then (v1, m, .error Error.panic)
  else volumeMgr.getNextVidLoop vols args (v1.preIdx % vols.length) vols.length v1 m

/-- A call of `allocNotify` followed by a `return` in `getAvailableVols`: the
panic of `allocNotify` takes the place of the returned values. -/
def volumeMgr.notifyAndReturn (v : volumeMgr) (mode : Nat) (isBackup : Bool)
    (res : Except Error (Slice Ptr)) : volumeMgr × Except Error (Slice Ptr) :=
  if (v.allocNotify mode v.DefaultAllocVolsNum isBackup).2 then
    ((v.allocNotify mode v.DefaultAllocVolsNum isBackup).1, .error Error.panic)
  else ((v.allocNotify mode v.DefaultAllocVolsNum isBackup).1, res)

/-- The end of `volumeMgr.getAvailableVols`, from `len(vols) == 0` on: `g` is what
`getAvailableList` returned, the pool and the candidate list. -/
def volumeMgr.getAvailableVolsList (v : volumeMgr) (args : AllocVolsArgs)
    (g : modeInfo × Slice Ptr) : volumeMgr × Except Error (Slice Ptr) :=
  if g.2.length = 0 then
    volumeMgr.notifyAndReturn { v with modeInfos := mapSet v.modeInfos args.CodeMode g.1 }
      args.CodeMode false (.error Error.ErrNoAvaliableVolume)
  else if (g.1.List true).length = 0 then
    volumeMgr.notifyAndReturn { v with modeInfos := mapSet v.modeInfos args.CodeMode g.1 }
      args.CodeMode true (.ok g.2)
  else ({ v with modeInfos := mapSet v.modeInfos args.CodeMode g.1 }, .ok g.2)

/-- The middle of `volumeMgr.getAvailableVols`, from the test of the error of
`needSwitchToBackup` on: `ns` is what `needSwitchToBackup` returned. -/
def volumeMgr.getAvailableVolsSwitch (v : volumeMgr) (args : AllocVolsArgs) :
    modeInfo × Bool × Option Error → volumeMgr × Except Error (Slice Ptr)
  | (m1, _, some err) =>
    volumeMgr.notifyAndReturn { v with modeInfos := mapSet v.modeInfos args.CodeMode m1 }
      args.CodeMode true (.error err)
  | (m1, needSwitch, none) =>
    v.getAvailableVolsList args (m1.getAvailableList (int64 args.Fsize) needSwitch)

/-- The method `volumeMgr.getAvailableVols`; a mode without a pool is a nil
dereference. -/
def volumeMgr.getAvailableVols (v : volumeMgr) (args : AllocVolsArgs) :
    volumeMgr × Except Error (Slice Ptr) :=
  match mapGet v.modeInfos args.CodeMode with
  | none => (v, .error Error.panic)
  | some info =>
    volumeMgr.getAvailableVolsSwitch
      { v with heap := (info.dealDisCards v.heap args.Discards).1 } args
      ((info.dealDisCards v.heap args.Discards).2.needSwitchToBackup (int64 args.Fsize))

/-- The method `volumeMgr.allocVid`. -/
def volumeMgr.allocVid (v : volumeMgr) (args : AllocVolsArgs) : volumeMgr × Except Error Nat :=
  match mapGet v.modeInfos args.CodeMode with
  | none => (v, .error Error.ErrNoAvaliableVolume)
  | some _ =>
    match v.getAvailableVols args with
    | (v1, .error err) => (v1, .error err)
    | (v1, .ok vols) =>
      match mapGet v1.modeInfos args.CodeMode with
      | none => (v1, .error Error.panic)
      | some info =>
        let r := v1.getNextVid vols info args
        ({ r.1 with modeInfos := mapSet r.1.modeInfos args.CodeMode r.2.1 }, r.2.2)

/-- The method `volumeMgr.Alloc`; `bids` is what `BidMgr.Alloc` answers to this
call. -/
def volumeMgr.Alloc (v : volumeMgr) (args : AllocVolsArgs) (bids : Except Error (Slice BidScope)) :
    volumeMgr × Except Error (Slice AllocRet) :=
  match bids with
  | .error err => (v, .error err)
  | .ok allocBidScopes =>
    match v.allocVid args with
    | (v1, .error err) => (v1, .error err)
    | (v1, .ok vid) =>
      (v1, .ok (allocBidScopes.map
        (fun bidScope => { BidStart := bidScope.StartBid, BidEnd := bidScope.EndBid, Vid := vid })))

/-- The method `volumeMgr.Discard`. -/
def volumeMgr.Discard (v : volumeMgr) (args : DiscardVolsArgs) : volumeMgr × Option Error :=
  match mapGet v.modeInfos args.CodeMode with
  | some info =>
    let d := info.dealDisCards v.heap args.Discards
    ({ v with heap := d.1, modeInfos := mapSet v.modeInfos args.CodeMode d.2 }, none)
  | none => (v, some Error.codeModeNotExist)

/-- The fields of `clustermgr.AllocVolumeInfo` kept by the model. -/
structure AllocVolumeInfo where
  Vid : Nat
  Used : Nat
  Free : Nat
  deriving DecidableEq, Repr

/-- The record `&volume{AllocVolumeInfo: vol}` created for a returned volume. -/
def newVolume (vol : AllocVolumeInfo) : volume :=
  { Vid := vol.Vid, Used := vol.Used, Free := vol.Free, deleted := false }

/-- Whether the loop of `allocVolumeLoop` over the returned volumes puts the
volume at `index` into backup: the guard of the split, else `args.isBackup`. -/
def putIsBackup (initVolumeNum : Int) (allocArgIsInit : Bool) (argsIsBackup : Bool)
    (len : Nat) (index : Nat) : Bool :=
  if allocArgIsInit = true ∧ (len : Int) ≥ int64 (2 * initVolumeNum) ∧ (index : Int) ≥ initVolumeNum
  then true else argsIsBackup

/-- The loop `for index, vol := range volumeRets` of `allocVolumeLoop`: a new
`volume` record is created for each entry and put into the pool of the mode;
`none` when the mode has no pool (nil dereference). -/
def volumeMgr.putVolumeRets (allocArgIsInit : Bool) (argsIsBackup : Bool) (codeMode : Nat)
    (len : Nat) : Nat → Slice AllocVolumeInfo → volumeMgr → Option volumeMgr
  | _, [], v => some v
  | index, vol :: rest, v =>
    match mapGet v.modeInfos codeMode with
    | none => none
    | some info =>
      let allocVolInfo : Ptr := v.heap.length
      let h1 : Heap := v.heap ++ [newVolume vol]
      let info1 := info.Put h1 allocVolInfo
        (putIsBackup v.InitVolumeNum allocArgIsInit argsIsBackup len index)
      volumeMgr.putVolumeRets allocArgIsInit argsIsBackup codeMode len (index + 1) rest
        { v with heap := h1, modeInfos := mapSet v.modeInfos codeMode info1 }

/-- One iteration of the inner loop of `volumeMgr.allocVolumeLoop` for the worker
of `mode`, given what `allocVolume` returns to it; a worker waiting on its channel
does nothing. `none` is a panic. -/
def volumeMgr.allocVolumeLoop (v : volumeMgr) (mode : Nat)
    (volumeRets : Except Error (Slice AllocVolumeInfo)) : Option volumeMgr :=
  match mapGet v.allocChs mode with
  | some (some w) =>
    match volumeRets with
    | .error _ =>
      some { v with allocChs := mapSet v.allocChs mode
                      (some { w with args := { w.args with isInit := false } }) }
    | .ok rets =>
      match volumeMgr.putVolumeRets w.args.isInit w.args.isBackup w.args.codeMode rets.length 0 rets v with
      | none => none
      | some v1 =>
        if (rets.length : Int) < w.requireCount then
          some { v1 with allocChs := mapSet v1.allocChs mode
                            (some { args := { w.args with isInit := false },
                                    requireCount := int64 (w.requireCount - rets.length) }) }
        else some { v1 with allocChs := mapSet v1.allocChs mode none }
  | _ => some v

/-- The pool after a promotion: current is the former backup set and backup is an
empty set. -/
def promoted (m : modeInfo) : modeInfo :=
  { m with current := m.backup, backup := { vols := [], totalFree := 0 } }

/-- The pool after `fsize` is debited from `current.totalFree` (Go `int64`). -/
def debited (m : modeInfo) (fsize : Int) : modeInfo :=
  { m with current := { m.current with totalFree := int64 (m.current.totalFree - fsize) } }

/-- A pool for the examples of the pre-debit: `current.totalFree = 150`, one
volume in backup, threshold 100. -/
def switchPool : modeInfo :=
  { current := { vols := [0], totalFree := 150 }, backup := { vols := [1], totalFree := 1000 },
    totalThreshold := 100 }

/-- The records of a set carry pairwise distinct vids. -/
def vidsDistinct (h : Heap) (s : volumes) : Prop :=
  (s.vols.map (fun p => (deref h p).Vid)).Nodup

/-- The record behind a pointer with its `deleted` flag set. -/
def flagged (h : Heap) (p : Ptr) : volume := { deref h p with deleted := true }

/-- Every record of `current` carrying `vid` has its `deleted` flag set. -/
def allFlagged (h : Heap) (m : modeInfo) (vid : Nat) : Prop :=
  ∀ q ∈ m.current.vols, (deref h q).Vid = vid → (deref h q).deleted = true

/-- The three ways `getAvailableVols` ends, for a mode that has a pool: with a
panic, after an attempt to notify the worker of the mode, or with a candidate list
while backup is not empty and nothing notified. -/
def availableOutcome (v : volumeMgr) (mode : Nat) (r : volumeMgr × Except Error (Slice Ptr)) :
    Prop :=
  r.2 = .error Error.panic ∨
  (∃ b took, r.1.notified =
    v.notified ++ [({ isInit := false, isBackup := b, codeMode := mode,
                      count := v.DefaultAllocVolsNum }, took)]) ∨
  (r.1.notified = v.notified ∧
    ∃ vols info2, r.2 = .ok vols ∧ mapGet r.1.modeInfos mode = some info2 ∧
      info2.backup.vols ≠ [])

/-- A manager whose worker of mode 1 serves the request `args`, with an empty
pool and `InitVolumeNum = 4`. -/
def bootMgr (args : allocArgs) : volumeMgr :=
  { VolumeReserveSize := 10, DefaultAllocVolsNum := 1, InitVolumeNum := 4, heap := [],
    modeInfos := [(1, { current := { vols := [], totalFree := 0 },
                        backup := { vols := [], totalFree := 0 }, totalThreshold := 100 })],
    allocChs := [(1, some { args := args, requireCount := args.count })],
    preIdx := 0, notified := [] }

/-- A batch of `n` volumes with vids `0 .. n - 1`, each with 1000 bytes free. -/
def batch (n : Nat) : Slice AllocVolumeInfo :=
  (List.range n).map (fun i => { Vid := i, Used := 0, Free := 1000 })

/-- The memory of the scenario "backup promotion": the volume of current (vid
`vc`) has `free = threshold + 1`, the volume of backup (vid `vb`) has
`free = 10 × threshold`. -/
def promotionHeap (thr vc vb uc ub : Nat) : Heap :=
  [{ Vid := vc, Used := uc, Free := thr + 1, deleted := false },
   { Vid := vb, Used := ub, Free := 10 * thr, deleted := false }]

/-- The pool of the scenario "backup promotion", the counters equal to the free
space of the volumes. -/
def promotionPool (thr : Nat) : modeInfo :=
  { current := { vols := [0], totalFree := (thr : Int) + 1 },
    backup := { vols := [1], totalFree := 10 * (thr : Int) },
    totalThreshold := thr }

/-- The request of the scenario "backup promotion": `fsize = threshold + 1`, no
discards. -/
def promotionArgs (thr bc : Nat) (ex : Slice Nat) : AllocVolsArgs :=
  { Fsize := thr + 1, CodeMode := 1, BidCount := bc, Excludes := ex, Discards := [] }

/-- The pool of the scenario after the pre-debit went through without promotion. -/
def debitedPool (thr : Nat) : modeInfo :=
  { promotionPool thr with current := { vols := [0], totalFree := 0 } }

/-- The records returned by `Alloc` for the bid scopes and the selected vid. -/
def allocRets (scopes : Slice BidScope) (vid : Nat) : Slice AllocRet :=
  scopes.map (fun bidScope =>
    { BidStart := bidScope.StartBid, BidEnd := bidScope.EndBid, Vid := vid })

/-- A step of the manager seen from outside: an `Alloc` call with the answer of
the bid allocator, a `Discard` call, or an iteration of the allocation worker of a
mode with the answer of the cluster manager (pool replenishment). -/
inductive Event where
  | alloc (args : AllocVolsArgs) (bids : Except Error (Slice BidScope))
  | discard (args : DiscardVolsArgs)
  | replenish (mode : Nat) (volumeRets : Except Error (Slice AllocVolumeInfo))

/-- The manager after one step; a worker that panics leaves the state as it is. -/
def step (v : volumeMgr) : Event → volumeMgr
  | .alloc args bids => (v.Alloc args bids).1
  | .discard args => (v.Discard args).1
  | .replenish mode volumeRets => (v.allocVolumeLoop mode volumeRets).getD v

/-- The manager after a sequence of steps. -/
def run (v : volumeMgr) (events : List Event) : volumeMgr := events.foldl step v

/-- The step is a replenishment in which the cluster manager delivers a volume
with vid `w`. -/
def delivers (w : Nat) : Event → Prop
  | .replenish _ (.ok volumeRets) => ∃ vol ∈ volumeRets, vol.Vid = w
  | _ => False

/-- The pointer is held by a set (current or backup) of some pool of the manager. -/
def inPool (v : volumeMgr) (q : Ptr) : Prop :=
  ∃ entry ∈ v.modeInfos, q ∈ entry.2.current.vols ∨ q ∈ entry.2.backup.vols

/-- Every record with vid `w` held by a pool has its `deleted` flag set. -/
def vidRetired (v : volumeMgr) (w : Nat) : Prop :=
  ∀ q, inPool v q → (deref v.heap q).Vid = w → (deref v.heap q).deleted = true

/-- From memory `h` to memory `h1` no record takes the vid `w` and no record with
vid `w` loses its `deleted` flag. -/
def heapKeeps (w : Nat) (h h1 : Heap) : Prop :=
  ∀ q, (deref h1 q).Vid = w →
    (deref h q).Vid = w ∧ ((deref h q).deleted = true → (deref h1 q).deleted = true)

/-- From manager `v` to manager `v1` the memory keeps the records of vid `w` and the
pools gain no record with vid `w`. -/
def poolWithin (w : Nat) (v v1 : volumeMgr) : Prop :=
  heapKeeps w v.heap v1.heap ∧ ∀ q, inPool v1 q → inPool v q ∨ (deref v1.heap q).Vid ≠ w

/-- Sum of `Free` over the records of a set. -/
def sumFree (h : Heap) (s : volumes) : Int :=
  (s.vols.map (fun p => ((deref h p).Free : Int))).sum

/-- Every pointer of the two sets of a pool refers to a record of the memory. -/
def modeInfo.validPtrs (m : modeInfo) (h : Heap) : Prop :=
  ∀ p, (p ∈ m.current.vols ∨ p ∈ m.backup.vols) → p < h.length

/-- The values of a Go `int64`. -/
def isInt64 (x : Int) : Prop := -9223372036854775808 ≤ x ∧ x < 9223372036854775808

instance (x : Int) : Decidable (isInt64 x) := by unfold isInt64; infer_instance

/-- A manager with one mode (`1`), an idle worker and the given pool. -/
def mkMgr (reserve : Int) (h : Heap) (m : modeInfo) (preIdx : Nat) : volumeMgr :=
  { VolumeReserveSize := reserve, DefaultAllocVolsNum := 1, InitVolumeNum := 4, heap := h,
    modeInfos := [(1, m)], allocChs := [(1, none)], preIdx := preIdx, notified := [] }

/-- The pool of the scenario "excludes honored": `current = [v1, v2]`, both
healthy. -/
def twoVolPool : modeInfo :=
  { current := { vols := [0, 1], totalFree := 2000 }, backup := { vols := [2], totalFree := 1000 },
    totalThreshold := 100 }

/-- The memory of `twoVolPool`: vids 11, 12 and 13. -/
def twoVolHeap : Heap :=
  [{ Vid := 11, Used := 0, Free := 1000, deleted := false },
   { Vid := 12, Used := 0, Free := 1000, deleted := false },
   { Vid := 13, Used := 0, Free := 1000, deleted := false }]

/-- A manager over `twoVolPool` whose worker of mode `1` is serving a request for
one volume of current. -/
def redeliverMgr : volumeMgr :=
  { VolumeReserveSize := 10, DefaultAllocVolsNum := 1, InitVolumeNum := 4, heap := twoVolHeap,
    modeInfos := [(1, twoVolPool)],
    allocChs := [(1, some { args := { isInit := false, isBackup := false, codeMode := 1, count := 1 },
                            requireCount := 1 })],
    preIdx := 0, notified := [] }

/-- A `Discard` of vid 11 followed by a replenishment in which the cluster manager
delivers a volume with vid `vid`. -/
def redeliverEvents (vid : Nat) : List Event :=
  [.discard { CodeMode := 1, Discards := [11] },
   .replenish 1 (.ok [{ Vid := vid, Used := 0, Free := 500 }])]

/-!
# Service controller of the blobstore access layer

Shallow embedding of `blobstore/access/controller/service.go`.

* A `*hostItem` is an address into `mem`, the memory holding every host item
  created so far; the roster of a service and the `allServices` map hold
  addresses.
* The clock is an argument: `now` is the reading of `time.Now()` during the call,
  in nanoseconds since the Unix epoch. `punishTimeUnix` and `lastModifyTime` are
  Unix seconds, as in the source.
* `rand.Intn` and `rand.Shuffle` are arguments: the values drawn, and the swaps
  requested.
* Locks are not modelled: every method runs as one sequential step;
  `serviceLocks` has the keys of `serviceHosts`.
-/

/-- Conversion of a mathematical integer to a Go `uint32`. -/
def uint32 (x : Int) : Nat := (x % 4294967296).toNat

/-- Errors of the service controller, named after their messages (`not found host
of`, `no any host of`, `no available host of`); `external` is an error of the
cluster manager client, `base` the wrapping `errors.Base(err, "get disk info",
diskID)`, and `panic` stands for a call that panics instead of returning. -/
inductive ServiceError where
  | notFoundHost (name : String)
  | noAnyHost (name : String)
  | noAvailableHost (name : String)
  | external (code : Nat)
  | base (err : ServiceError) (diskID : Nat)
  | panic
  deriving DecidableEq, Repr

/-- The `hostItem` struct. `failedTimes` is a Go `uint32`, the two times are Go
`int64` Unix seconds. -/
structure hostItem where
  host : String
  idc : String
  punishTimeUnix : Int
  lastModifyTime : Int
  failedTimes : Nat
  deriving DecidableEq, Repr, Inhabited

/-- The record a `*hostItem` refers to. -/
def derefItem (mem : Slice hostItem) (p : Ptr) : hostItem := mem.getD p default

/-- The value of `time.Since(time.Unix(unixSec, 0))` at the instant `now`
(nanoseconds): the difference as a `time.Duration`, which `Time.Sub` clamps to the
range of `int64`. -/
def timeSince (now : Int) (unixSec : Int) : Int :=
  max (-9223372036854775808) (min 9223372036854775807 (now - unixSec * 1000000000))

/-- The method `hostItem.isPunish` at the instant `now`. -/
def hostItem.isPunish (h : hostItem) (now : Int) : Bool :=
  decide (timeSince now h.punishTimeUnix < 0)

/-- The fields of `ServiceConfig`. `ServicePunishThreshold` is a Go `uint32`. -/
structure ServiceConfig where
  ClusterID : Nat
  IDC : String
  ReloadSec : Int
  ServicePunishThreshold : Nat
  ServicePunishValidIntervalS : Int
  deriving DecidableEq, Repr

/-- The `serviceControllerImpl` struct with the memory its pointers refer to.
`allServices` (a `sync.Map`) and `serviceHosts` (a Go map of `*atomic.Value`) are
association lists read at the first entry of a key; an `atomic.Value` never
stored to is `none`. -/
structure serviceControllerImpl where
  mem : Slice hostItem
  allServices : Slice (String × Ptr)
  serviceHosts : Slice (String × Option (Slice Ptr))
  config : ServiceConfig
  deriving DecidableEq, Repr

/-- Read of a map with string keys: `none` when the key is absent. -/
def strGet {β : Type} : List (String × β) → String → Option β
  | [], _ => none
  | (k, x) :: rest, key => if k = key then some x else strGet rest key

/-- Write through the pointer stored under a key of a Go map (`Store` on the
`*atomic.Value` of a service). -/
def strSet {β : Type} : List (String × β) → String → β → List (String × β)
  | [], _, _ => []
  | (k, x) :: rest, key, y =>
    if k = key then (k, y) :: strSet rest key y else (k, x) :: strSet rest key y

/-- The method `sync.Map.Store`: the value of the key is replaced, a new key is
added. -/
def strStore {β : Type} : List (String × β) → String → β → List (String × β)
  | [], key, y => [(key, y)]
  | (k, x) :: rest, key, y =>
    if k = key then (k, y) :: rest else (k, x) :: strStore rest key y

/-- The loop of `GetServiceHost` from the label `RETRY` on: `fuel` bounds the
number of passes, `k` counts the draws of `rand.Intn` (the `k`-th draw on a list of
length `n` is `rand k % n`), `serviceList` is the local slice. The double check
`v == item` re-reads the same slot of the same local slice, so the entry is
removed. `none` when the passes are used up. -/
def serviceControllerImpl.GetServiceHostLoop (name : String) (now : Int) (rand : Nat → Nat) :
    Nat → Nat → Slice Ptr → serviceControllerImpl →
      Option (serviceControllerImpl × Except ServiceError String)
  | 0, _, _, _ => none
  | fuel + 1, k, serviceList, s =>
    if serviceList.length = 0 then some (s, .error (.noAnyHost name))
    else
      let idx := rand k % serviceList.length
      let item := serviceList.getD idx 0
      if (derefItem s.mem item).isPunish now = false then
        some (s, .ok (derefItem s.mem item).host)
      else
        let serviceList1 := serviceList.eraseIdx idx
        serviceControllerImpl.GetServiceHostLoop name now rand fuel (k + 1) serviceList1
          { s with serviceHosts := strSet s.serviceHosts name (some serviceList1) }

/-- The method `GetServiceHost`; a name without an `*atomic.Value` is a nil
dereference. The loop is given one pass more than the roster has entries. -/
def serviceControllerImpl.GetServiceHost (s : serviceControllerImpl) (name : String) (now : Int)
    (rand : Nat → Nat) : Option (serviceControllerImpl × Except ServiceError String) :=
  match strGet s.serviceHosts name with
  | none => some (s, .error .panic)
  | some none => some (s, .error (.notFoundHost name))
  | some (some serviceList) =>
    serviceControllerImpl.GetServiceHostLoop name now rand (serviceList.length + 1) 0 serviceList s

/-- The closure handed to `rand.Shuffle`: `hosts[i], hosts[j] = hosts[j], hosts[i]`;
`rand.Shuffle` only passes indexes below the length. -/
def swapHosts (hosts : Slice String) (i j : Nat) : Slice String :=
  if i < hosts.length ∧ j < hosts.length then
    (hosts.set i (hosts.getD j "")).set j (hosts.getD i "")
  else hosts

/-- The loop `for _, item := range serviceList` of `GetServiceHosts`. -/
def collectHosts (mem : Slice hostItem) (now : Int) (serviceList : Slice Ptr) : Slice String :=
  serviceList.foldl
    (fun hosts item =>
      if (derefItem mem item).isPunish now = false then hosts ++ [(derefItem mem item).host]
      else hosts) []

/-- The method `GetServiceHosts`; `swaps` are the calls `rand.Shuffle` makes to the
closure. -/
def serviceControllerImpl.GetServiceHosts (s : serviceControllerImpl) (name : String) (now : Int)
    (swaps : Slice (Nat × Nat)) : serviceControllerImpl × Except ServiceError (Slice String) :=
  match strGet s.serviceHosts name with
  | none => (s, .error .panic)
  | some none => (s, .error (.notFoundHost name))
  | some (some serviceList) =>
    if serviceList.length = 0 then (s, .error (.noAnyHost name))
    else if (collectHosts s.mem now serviceList).length = 0 then
      (s, .error (.noAvailableHost name))
    else
      (s, .ok (swaps.foldl (fun hosts ij => swapHosts hosts ij.1 ij.2)
        (collectHosts s.mem now serviceList)))

/-- The `HostIDC` struct. -/
structure HostIDC where
  Host : String
  IDC : String
  Punished : Bool
  deriving DecidableEq, Repr

/-- The fields of `blobnode.DiskInfo` read by `GetDiskHost`. `DiskID` is a Go
`uint32`. -/
structure DiskInfo where
  DiskID : Nat
  Host : String
  Idc : String
  deriving DecidableEq, Repr

/-- Modelled from the spec: a disk is keyed "by disk-id under a reserved
pseudo-service prefix"; `proto.DiskID.ToString` is declared outside the given
sources and taken to give the decimal digits of the id. -/
def DiskID.ToString (diskID : Nat) : String := toString diskID

/-- The method `GetDiskHost`; `diskInfo` is what `cmClient.DiskInfo` answers when it
is called. -/
def serviceControllerImpl.GetDiskHost (s : serviceControllerImpl) (diskID : Nat) (now : Int)
    (diskInfo : Except ServiceError DiskInfo) :
    serviceControllerImpl × Except ServiceError HostIDC :=
  match strGet s.allServices ("diskhost" ++ DiskID.ToString diskID) with
  | some v =>
    (s, .ok { Host := (derefItem s.mem v).host, IDC := (derefItem s.mem v).idc,
              Punished := (derefItem s.mem v).isPunish now })
  | none =>
    match diskInfo with
    | .error err => (s, .error (.base err diskID))
    | .ok info =>
      let item : hostItem :=
        { host := info.Host, idc := info.Idc, punishTimeUnix := 0, lastModifyTime := 0,
          failedTimes := 0 }
      ({ s with mem := s.mem ++ [item],
                allServices := strStore s.allServices ("diskhost" ++ DiskID.ToString info.DiskID)
                  s.mem.length },
        .ok { Host := item.host, IDC := item.idc, Punished := item.isPunish now })

/-- The method `PunishService`: `none` is the panic of a pair absent from
`allServices`. The new `punishTimeUnix` is
`time.Now().Add(time.Duration(punishTimeSec)*time.Second).Unix()`. -/
def serviceControllerImpl.PunishService (s : serviceControllerImpl) (service host : String)
    (punishTimeSec : Int) (now : Int) : Option serviceControllerImpl :=
  match strGet s.allServices (service ++ host) with
  | none => none
  | some item =>
    some { s with mem := (s.mem.set item
      { derefItem s.mem item with
        punishTimeUnix := (now + int64 (punishTimeSec * 1000000000)) / 1000000000 }) }

/-- The method `PunishDisk`. -/
def serviceControllerImpl.PunishDisk (s : serviceControllerImpl) (diskID : Nat)
    (punishTimeSec : Int) (now : Int) : Option serviceControllerImpl :=
  s.PunishService "diskhost" (DiskID.ToString diskID) punishTimeSec now

/-- The store `atomic.StoreInt64(&item.lastModifyTime, time.Now().Unix())`. -/
def storeLastModifyTime (s : serviceControllerImpl) (item : Ptr) (now : Int) :
    serviceControllerImpl :=
  { s with mem := (s.mem.set item { derefItem s.mem item with lastModifyTime := now / 1000000000 }) }

/-- The add `atomic.AddUint32(&item.failedTimes, delta)`. -/
def addFailedTimes (s : serviceControllerImpl) (item : Ptr) (delta : Nat) : serviceControllerImpl :=
  { s with mem := (s.mem.set item
      { derefItem s.mem item with
        failedTimes := uint32 ((derefItem s.mem item).failedTimes + delta) }) }

/-- The method `PunishServiceWithThreshold`: `none` is the panic of a pair absent
from `allServices`. -/
def serviceControllerImpl.PunishServiceWithThreshold (s : serviceControllerImpl)
    (service host : String) (punishTimeSec : Int) (now : Int) : Option serviceControllerImpl :=
  match strGet s.allServices (service ++ host) with
  | none => none
  | some item =>
    let new := uint32 ((derefItem s.mem item).failedTimes + 1)
    let s1 := addFailedTimes s item 1
    if new ≥ s.config.ServicePunishThreshold then
      if timeSince now (derefItem s1.mem item).lastModifyTime <
          int64 (s.config.ServicePunishValidIntervalS * 1000000000) then
        s1.PunishService service host punishTimeSec now
      else
        some (storeLastModifyTime (addFailedTimes s1 item (uint32 (-((new : Int) - 1)))) item now)
    else some (storeLastModifyTime s1 item now)

/-- The method `PunishDiskWithThreshold`. -/
def serviceControllerImpl.PunishDiskWithThreshold (s : serviceControllerImpl) (diskID : Nat)
    (punishTimeSec : Int) (now : Int) : Option serviceControllerImpl :=
  s.PunishServiceWithThreshold "diskhost" (DiskID.ToString diskID) punishTimeSec now

/-- The host item created by `&hostItem\x7bidc: ..., host: ...\x7d`. -/
def newHostItem (host idc : String) : hostItem :=
  { host := host, idc := idc, punishTimeUnix := 0, lastModifyTime := 0, failedTimes := 0 }

/-- A controller of the service `proxy` with the roster `[hA, hB]`, both entries
as created by a refresh. -/
def rosterAB : serviceControllerImpl :=
  { mem := [newHostItem "hA" "z0", newHostItem "hB" "z0"],
    allServices := [("proxyhA", 0), ("proxyhB", 1)],
    serviceHosts := [("proxy", some [0, 1])],
    config := { ClusterID := 1, IDC := "z0", ReloadSec := 10, ServicePunishThreshold := 3,
                ServicePunishValidIntervalS := 30 } }

/-- The controller `rosterAB` after `PunishService(proxy, hA, 60)` at the instant
100.9 s: `hA` is punished until the Unix second 160. -/
def rosterABPunished : serviceControllerImpl :=
  { rosterAB with
    mem := [{ newHostItem "hA" "z0" with punishTimeUnix := 160 }, newHostItem "hB" "z0"] }

/-- A sequence of `PunishServiceWithThreshold` calls on one pair, one call at each
of the given instants; `none` when a call panics. -/
def punishCalls (service host : String) (punishTimeSec : Int) :
    List Int → serviceControllerImpl → Option serviceControllerImpl
  | [], s => some s
  | now :: rest, s =>
    match s.PunishServiceWithThreshold service host punishTimeSec now with
    | none => none
    | some s1 => punishCalls service host punishTimeSec rest s1

/-- The controller `rosterAB` configured with the punish threshold `thr`. -/
def rosterABThreshold (thr : Nat) : serviceControllerImpl :=
  { rosterAB with config := { rosterAB.config with ServicePunishThreshold := thr } }

/-- The controller `rosterAB` whose entry `hA` has failed twice, the last time at
the Unix second 100. -/
def rosterABStreak : serviceControllerImpl :=
  { rosterAB with
    mem := [{ newHostItem "hA" "z0" with failedTimes := 2, lastModifyTime := 100 },
            newHostItem "hB" "z0"] }

/-- The fields of `clustermgr.ServiceNode` read by `load`. -/
structure ServiceNode where
  Host : String
  Idc : String
  deriving DecidableEq, Repr

/-- Modelled from the spec: the name of the one service whose roster the
controller keeps (the proxies); the constant `proto.ServiceNameProxy` is declared
outside the given sources. -/
def ServiceNameProxy : String := "PROXY"

/-- The loop `for _, node := range service.Nodes` of `load`: the host items built
for the nodes of the idc, in the order of the nodes. -/
def loadHostItems (idc : String) (nodes : Slice ServiceNode) : Slice hostItem :=
  nodes.foldl
    (fun hostItems node =>
      if node.Idc ≠ idc then hostItems
      else hostItems ++ [({ host := node.Host, idc := node.Idc, punishTimeUnix := 0,
                            lastModifyTime := 0, failedTimes := 0 } : hostItem)]) []

/-- The loop `for _, item := range hostItems` of `load`: the item at address
`base + i` is stored under `serviceName + item.host`. -/
def storeHostItems (serviceName : String) :
    Slice hostItem → Nat → Slice (String × Ptr) → Slice (String × Ptr)
  | [], _, allServices => allServices
  | item :: rest, base, allServices =>
    storeHostItems serviceName rest (base + 1) (strStore allServices (serviceName ++ item.host) base)

/-- The method `load`; `service` is what `cmClient.GetService` answers. The result
is the controller and the returned error; `none` is the nil dereference of a
controller without the `*atomic.Value` of the proxy service. -/
def serviceControllerImpl.load (s : serviceControllerImpl) (idc : String)
    (service : Except ServiceError (Slice ServiceNode)) :
    Option (serviceControllerImpl × Option ServiceError) :=
  match service with
  | .error err => some (s, some err)
  | .ok nodes =>
    if (loadHostItems idc nodes).length > 0 then
      match strGet s.serviceHosts ServiceNameProxy with
      | none => none
      | some _ =>
        some ({ s with
                mem := s.mem ++ loadHostItems idc nodes,
                allServices :=
                  storeHostItems ServiceNameProxy (loadHostItems idc nodes) s.mem.length s.allServices,
                serviceHosts :=
                  strSet s.serviceHosts ServiceNameProxy
                    (some (List.range' s.mem.length (loadHostItems idc nodes).length)) },
              none)
    else some (s, none)

/-- A controller of the proxy service with the roster `[hA, hB]` of the idc `z0`,
as a refresh leaves it. -/
def proxyAB : serviceControllerImpl :=
  { mem := [newHostItem "hA" "z0", newHostItem "hB" "z0"],
    allServices := [("PROXYhA", 0), ("PROXYhB", 1)],
    serviceHosts := [("PROXY", some [0, 1])],
    config := { ClusterID := 1, IDC := "z0", ReloadSec := 10, ServicePunishThreshold := 3,
                ServicePunishValidIntervalS := 30 } }

/-- The manager after `atomic.AddUint64(&v.preIdx, uint64(1))`. -/
def advancePreIdx (v : volumeMgr) : volumeMgr :=
  { v with preIdx := (v.preIdx + 1) % 18446744073709551616 }

/-- The candidate visited at step `j` of the walk of `getNextVid`: the walk starts
at `curIdx = preIdx % len(vols)`, the counter being advanced, and step `j` reads
`vols[(curIdx + j) % len(vols)]`. -/
def walkAt (v : volumeMgr) (vols : Slice Ptr) (j : Nat) : Ptr :=
  vols.getD (((advancePreIdx v).preIdx % vols.length + j) % vols.length) 0


/-! ## Requests of the allocation workers; a pool with a re-delivered vid -/

/-- The request `initModeInfo` sends to the worker of `mode`: `isInit` is set,
`isBackup` is left at its zero value, and the count is `InitVolumeNum`. -/
def initModeInfo.applyArg (v : volumeMgr) (mode : Nat) : allocArgs :=
  { isInit := true, isBackup := false, codeMode := mode, count := v.InitVolumeNum }

/-- A request as this code builds it: `initModeInfo` sets `isInit` and leaves
`isBackup` false, `allocNotify` sets `isBackup` and leaves `isInit` false, and the
worker only ever clears `isInit`; so `isInit` and `isBackup` are never both set. -/
def allocArgs.built (a : allocArgs) : Prop := a.isInit = true → a.isBackup = false

/-- Every request a worker of the manager is serving is one this code builds. -/
def volumeMgr.requestsBuilt (v : volumeMgr) : Prop :=
  ∀ entry ∈ v.allocChs, ∀ w, entry.2 = some w → w.args.built

/-- The manager `redeliverMgr` after one replenishment in which the cluster manager
delivers a volume with vid 12, a vid `current` already holds: `current` then holds
the records 0, 1 and 3, and the records 1 and 3 both carry vid 12. -/
def duplicateVidMgr : volumeMgr :=
  run redeliverMgr [.replenish 1 (.ok [{ Vid := 12, Used := 0, Free := 500 }])]

/-- The pool of mode 1 of `duplicateVidMgr`. -/
def duplicateVidPool : modeInfo :=
  { current := { vols := [0, 1, 3], totalFree := 2500 }, backup := { vols := [2], totalFree := 1000 },
    totalThreshold := 100 }

/-! ## Lemmas on memory and on `modifySpace` -/

theorem deref_set_vid (h : Heap) (p : Ptr) (x : volume) (hx : x.Vid = (deref h p).Vid) :
    (deref (h.set p x) p).Vid = (deref h p).Vid := by
  unfold deref at *
  by_cases hp : p < h.length
  · rw [List.getD_eq_getElem _ _ (by simpa using hp)]
    simp [hx, List.getD_eq_getElem _ _ hp]
  · have hp2 : h.length ≤ p := Nat.le_of_not_lt hp
    rw [List.getD_eq_default _ _ (by simpa using hp2), List.getD_eq_default _ _ hp2]

/-- When `modifySpace` succeeds, the vid of the volume is not excluded and is the
vid read through the pointer afterwards. -/
theorem modifySpace_true (v : volumeMgr) (p : Ptr) (m : modeInfo) (args : AllocVolsArgs)
    (h : (v.modifySpace p m args).2.2 = true) :
    (deref v.heap p).Vid ∉ args.Excludes ∧
    (deref v.heap p).deleted = false ∧
    (deref (v.modifySpace p m args).1.heap p).Vid = (deref v.heap p).Vid := by
  unfold volumeMgr.modifySpace at h ⊢
  simp only at h ⊢
  split at h
  · simp at h
  · rename_i hex
    split at h
    · simp at h
    · rename_i hfd
      refine ⟨?_, ?_, ?_⟩
      · intro hmem
        apply hex
        simp only [List.any_eq_true, beq_iff_eq]
        exact ⟨_, hmem, rfl⟩
      · simpa using (not_or.mp hfd).2
      · rw [if_neg hex, if_neg hfd]
        split
        · exact deref_set_vid _ _ _ rfl
        · exact deref_set_vid _ _ _ rfl

/-- A successful walk of `getNextVid` returns a vid outside `args.Excludes`. -/
theorem getNextVidLoop_not_excluded (vols : Slice Ptr) (args : AllocVolsArgs) (n : Nat) :
    ∀ (i : Nat) (v : volumeMgr) (m : modeInfo) (v1 : volumeMgr) (m1 : modeInfo) (vid : Nat),
      volumeMgr.getNextVidLoop vols args i n v m = (v1, m1, .ok vid) → vid ∉ args.Excludes := by
  induction n with
  | zero =>
    intro i v m v1 m1 vid h
    simp [volumeMgr.getNextVidLoop] at h
  | succ n ih =>
    intro i v m v1 m1 vid h
    unfold volumeMgr.getNextVidLoop at h
    simp only at h
    split at h
    · rename_i hs
      have hm := modifySpace_true v _ m args hs
      simp only [Prod.mk.injEq, Except.ok.injEq] at h
      rw [← h.2.2, hm.2.2]
      exact hm.1
    · exact ih _ _ _ _ _ _ h

theorem allocVid_not_excluded (v : volumeMgr) (args : AllocVolsArgs) (v1 : volumeMgr) (vid : Nat)
    (h : v.allocVid args = (v1, .ok vid)) : vid ∉ args.Excludes := by
  unfold volumeMgr.allocVid at h
  split at h
  · simp at h
  · split at h
    · simp at h
    · split at h
      · simp at h
      · simp only [Prod.mk.injEq] at h
        unfold volumeMgr.getNextVid at h
        simp only at h
        split at h
        · simp at h
        · exact getNextVidLoop_not_excluded _ _ _ _ _ _ _ _ _ (Prod.ext rfl (Prod.ext rfl h.2))

/-- C1: whenever `Alloc` succeeds, the vid carried by every returned record is not
a member of the `Excludes` list of the request. -/
theorem alloc_never_returns_excluded (v : volumeMgr) (args : AllocVolsArgs)
    (bids : Except Error (Slice BidScope)) (v1 : volumeMgr) (rets : Slice AllocRet)
    (h : v.Alloc args bids = (v1, .ok rets)) :
    ∀ r ∈ rets, r.Vid ∉ args.Excludes := by
  unfold volumeMgr.Alloc at h
  split at h
  · simp at h
  · split at h
    · simp at h
    · rename_i v2 vid hv
      simp only [Prod.mk.injEq, Except.ok.injEq] at h
      intro r hr
      rw [← h.2] at hr
      simp only [List.mem_map] at hr
      obtain ⟨b, _, rfl⟩ := hr
      exact allocVid_not_excluded v args v2 vid hv

/-- Scenario "excludes honored": with `current = [v1, v2]` and `excludes = [v1]`
the call returns `v2`, and with `excludes = [v2]` it returns `v1`. -/
theorem alloc_never_returns_excluded_witness :
    ((mkMgr 10 twoVolHeap twoVolPool 0).Alloc
        { Fsize := 10, CodeMode := 1, BidCount := 1, Excludes := [11], Discards := [] }
        (.ok [{ StartBid := 1, EndBid := 5 }])).2
      = .ok [{ BidStart := 1, BidEnd := 5, Vid := 12 }] ∧
    ((mkMgr 10 twoVolHeap twoVolPool 0).Alloc
        { Fsize := 10, CodeMode := 1, BidCount := 1, Excludes := [12], Discards := [] }
        (.ok [{ StartBid := 1, EndBid := 5 }])).2
      = .ok [{ BidStart := 1, BidEnd := 5, Vid := 11 }] ∧
    ∀ r ∈ [({ BidStart := 1, BidEnd := 5, Vid := 12 } : AllocRet)], r.Vid ∉ [11] :=
  ⟨rfl, rfl,
   alloc_never_returns_excluded (mkMgr 10 twoVolHeap twoVolPool 0)
     { Fsize := 10, CodeMode := 1, BidCount := 1, Excludes := [11], Discards := [] }
     (.ok [{ StartBid := 1, EndBid := 5 }]) _ _ rfl⟩

/-! ## `needSwitchToBackup` and `getAvailableList` -/

theorem int64_sub_wrap (T f : Int) : int64 (T + int64 (-f)) = int64 (T - f) := by
  unfold int64; omega

theorem int64_undo (T f : Int) (hT : isInt64 T) : int64 (int64 (T - f) + f) = T := by
  unfold isInt64 at hT
  unfold int64; omega

/-- C5: `needSwitchToBackup(fSize)` with `t = current.totalFree - fSize` (Go `int64`
arithmetic, the threshold read as the code reads it, `int64(totalThreshold)`):
if `t > threshold` it returns `(false, nil)` and leaves `current.totalFree = t`;
if `t ≤ threshold` it leaves the pool as it was before the call and returns
`(true, nil)` when backup holds a volume, `ErrNoAvaliableVolume` when backup is
empty; in every case backup and the two volume lists are unchanged. -/
theorem needSwitchToBackup_spec (m : modeInfo) (fSize : Int) (hT : isInt64 m.current.totalFree) :
    (int64 (m.current.totalFree - fSize) > int64 m.totalThreshold →
      m.needSwitchToBackup fSize =
        ({ m with current := { m.current with totalFree := int64 (m.current.totalFree - fSize) } },
          false, none)) ∧
    (int64 (m.current.totalFree - fSize) ≤ int64 m.totalThreshold →
      (m.needSwitchToBackup fSize).1 = m ∧
      (m.backup.vols ≠ [] → (m.needSwitchToBackup fSize).2 = (true, none)) ∧
      (m.backup.vols = [] →
        (m.needSwitchToBackup fSize).2 = (false, some Error.ErrNoAvaliableVolume))) ∧
    (m.needSwitchToBackup fSize).1.backup = m.backup ∧
    (m.needSwitchToBackup fSize).1.current.vols = m.current.vols ∧
    (m.needSwitchToBackup fSize).1.totalThreshold = m.totalThreshold := by
  have e1 := int64_sub_wrap m.current.totalFree fSize
  have e2 := int64_undo m.current.totalFree fSize hT
  have hm : ({ m with current := { m.current with totalFree := m.current.totalFree } } : modeInfo) = m := rfl
  unfold modeInfo.needSwitchToBackup
  simp only [volumes.UpdateTotalFree, volumes.List, e1, e2]
  refine ⟨?_, ?_, ?_, ?_, ?_⟩
  · intro hgt
    rw [if_neg (not_le.mpr hgt)]
  · intro hle
    rw [if_pos hle]
    refine ⟨?_, ?_, ?_⟩
    · split <;> rfl
    · intro hne
      rw [if_neg (by simpa using hne)]
    · intro he
      rw [if_pos (by simp [he])]
  · split
    · split <;> rfl
    · rfl
  · split
    · split <;> rfl
    · rfl
  · split
    · split <;> rfl
    · rfl

theorem needSwitchToBackup_spec_witness :
    isInt64 switchPool.current.totalFree ∧
    switchPool.needSwitchToBackup 50 = (switchPool, true, none) ∧
    switchPool.needSwitchToBackup 49 =
      ({ switchPool with current := { vols := [0], totalFree := 101 } }, false, none) ∧
    (int64 (switchPool.current.totalFree - 49) > int64 switchPool.totalThreshold →
      switchPool.needSwitchToBackup 49 =
        ({ switchPool with current :=
            { switchPool.current with totalFree := int64 (switchPool.current.totalFree - 49) } },
          false, none)) :=
  ⟨by decide, by decide, by decide, (needSwitchToBackup_spec switchPool 49 (by decide)).1⟩

/-- C6: `getAvailableList(fsize, true)` promotes exactly when
`current.totalFree < max(threshold, fsize)` (the threshold read as the code reads
it, `int64(totalThreshold)`): after a promotion current is the former backup set
and backup is an empty set; then, if `current.totalFree < fsize` it returns an
empty list without debiting, otherwise it debits `fsize` from `current.totalFree`
and returns the list of current. `getAvailableList(fsize, false)` returns the list
of current and changes nothing. -/
theorem getAvailableList_spec (m : modeInfo) (fsize : Int) :
    (m.current.totalFree < max (int64 m.totalThreshold) fsize →
      m.getAvailableList fsize true =
        if (promoted m).current.totalFree < fsize then (promoted m, [])
        else (debited (promoted m) fsize, (promoted m).current.vols)) ∧
    (¬ m.current.totalFree < max (int64 m.totalThreshold) fsize →
      m.getAvailableList fsize true =
        if m.current.totalFree < fsize then (m, [])
        else (debited m fsize, m.current.vols)) ∧
    m.getAvailableList fsize false = (m, m.current.vols) := by
  refine ⟨?_, ?_, rfl⟩
  · intro hp
    have hp2 := lt_max_iff.mp hp
    unfold modeInfo.getAvailableList
    rw [if_neg (by decide), show m.current.TotalFree = m.current.totalFree from rfl, if_pos hp2]
    unfold modeInfo.debitAndList volumes.TotalFree volumes.UpdateTotalFree volumes.List
      promoted debited
    simp only [int64_sub_wrap]
  · intro hp
    have hp2 : ¬ (m.current.totalFree < int64 m.totalThreshold ∨ m.current.totalFree < fsize) :=
      fun hh => hp (lt_max_iff.mpr hh)
    unfold modeInfo.getAvailableList
    rw [if_neg (by decide), show m.current.TotalFree = m.current.totalFree from rfl, if_neg hp2]
    unfold modeInfo.debitAndList volumes.TotalFree volumes.UpdateTotalFree volumes.List debited
    simp only [int64_sub_wrap]

/-! ## The counter `totalFree` against the sum of `Free` -/

/-- C3 (failing input): the pool starts with `totalFree` equal to the sum of `Free`
in both sets; an `Alloc` whose walk finds every candidate excluded fails with
`ErrNoAvaliableVolume`, and the pre-debit of `needSwitchToBackup` is not given
back: `current.totalFree` is 1990 while the volumes of current still hold 2000. -/
theorem alloc_failed_walk_keeps_predebit :
    sumFree twoVolHeap twoVolPool.current = twoVolPool.current.totalFree ∧
    sumFree twoVolHeap twoVolPool.backup = twoVolPool.backup.totalFree ∧
    ((mkMgr 10 twoVolHeap twoVolPool 0).Alloc
        { Fsize := 10, CodeMode := 1, BidCount := 1, Excludes := [11, 12], Discards := [] }
        (.ok [{ StartBid := 1, EndBid := 5 }])).2 = .error Error.ErrNoAvaliableVolume ∧
    ((mkMgr 10 twoVolHeap twoVolPool 0).Alloc
        { Fsize := 10, CodeMode := 1, BidCount := 1, Excludes := [11, 12], Discards := [] }
        (.ok [{ StartBid := 1, EndBid := 5 }])).1 =
      mkMgr 10 twoVolHeap { twoVolPool with current := { vols := [0, 1], totalFree := 1990 } } 1 ∧
    sumFree twoVolHeap { vols := [0, 1], totalFree := 1990 } = 2000 := by
  refine ⟨by decide, by decide, rfl, by decide, by decide⟩

/-! ## `dealDisCards` and `Discard` -/

theorem deref_set (h : Heap) (p q : Ptr) (x : volume) :
    deref (h.set p x) q = if p = q ∧ p < h.length then x else deref h q := by
  unfold deref
  simp only [List.getD_eq_getElem?_getD, List.getElem?_set]
  by_cases hpq : p = q
  · subst hpq
    by_cases hl : p < h.length
    · simp [hl]
    · have hn : h[p]? = none := List.getElem?_eq_none (Nat.le_of_not_lt hl)
      simp [hl, hn]
  · simp [hpq]

theorem deref_set_flagged_vid (h : Heap) (p q : Ptr) :
    (deref (h.set p (flagged h p)) q).Vid = (deref h q).Vid := by
  rw [deref_set]
  split
  · rename_i hc
    rw [← hc.1]; rfl
  · rfl

theorem deref_set_flagged_deleted (h : Heap) (p q : Ptr) (hd : (deref h q).deleted = true) :
    (deref (h.set p (flagged h p)) q).deleted = true := by
  rw [deref_set]
  split
  · rfl
  · exact hd

theorem deref_set_flagged_self (h : Heap) (p : Ptr) (hp : p < h.length) :
    (deref (h.set p (flagged h p)) p).deleted = true := by
  rw [deref_set, if_pos ⟨rfl, hp⟩]; rfl

theorem dealDisCard_noop (h : Heap) (m : modeInfo) (vid : Nat)
    (hq : ∀ p, m.current.Get h vid = some p → (deref h p).deleted = true) :
    modeInfo.dealDisCard (h, m) vid = (h, m) := by
  unfold modeInfo.dealDisCard
  cases hg : m.current.Get h vid with
  | none => simp [hg]
  | some p => simp [hg, hq p hg]

theorem dealDisCard_hit (h : Heap) (m : modeInfo) (vid : Nat) (p : Ptr)
    (hget : m.current.Get h vid = some p) (hd : (deref h p).deleted = false) :
    ∃ tf, modeInfo.dealDisCard (h, m) vid =
      (h.set p (flagged h p),
        { m with current :=
            { vols := m.current.vols.eraseP (fun q => (deref h q).Vid == vid), totalFree := tf } }) := by
  have hpred : (fun q => (deref (h.set p (flagged h p)) q).Vid == vid)
      = (fun q => (deref h q).Vid == vid) := by
    funext q; rw [deref_set_flagged_vid]
  have hget2 : volumes.Get m.current (h.set p (flagged h p)) vid = some p := by
    unfold volumes.Get at hget ⊢
    rw [hpred]; exact hget
  refine ⟨int64 (m.current.totalFree - int64 (deref (h.set p (flagged h p)) p).Free), ?_⟩
  unfold modeInfo.dealDisCard
  simp only [hget, hd, Bool.false_eq_true, if_false]
  unfold volumes.Delete
  have hget3 : volumes.Get m.current (h.set p { deref h p with deleted := true }) vid = some p := hget2
  rw [hget3]
  simp only
  have hpred2 : (fun q => (deref (h.set p { deref h p with deleted := true }) q).Vid == vid)
      = (fun q => (deref h q).Vid == vid) := hpred
  rw [hpred2]
  rfl

theorem dealDisCard_cases (h : Heap) (m : modeInfo) (vid : Nat) :
    (modeInfo.dealDisCard (h, m) vid = (h, m) ∧
      ∀ p, m.current.Get h vid = some p → (deref h p).deleted = true) ∨
    (∃ p tf, m.current.Get h vid = some p ∧ (deref h p).deleted = false ∧
      modeInfo.dealDisCard (h, m) vid =
        (h.set p (flagged h p),
          { m with current :=
              { vols := m.current.vols.eraseP (fun q => (deref h q).Vid == vid),
                totalFree := tf } })) := by
  cases hg : m.current.Get h vid with
  | none =>
    left
    exact ⟨dealDisCard_noop h m vid (by simp [hg]), by simp⟩
  | some p =>
    cases hd : (deref h p).deleted with
    | true =>
      left
      refine ⟨dealDisCard_noop h m vid ?_, ?_⟩
      · intro q hq; rw [hg] at hq; cases hq; exact hd
      · intro q hq; cases hq; exact hd
    | false =>
      right
      obtain ⟨tf, htf⟩ := dealDisCard_hit h m vid p hg hd
      exact ⟨p, tf, rfl, hd, htf⟩

theorem eraseP_no_vid (f : Ptr → Nat) (vid : Nat) :
    ∀ l : List Ptr, (l.map f).Nodup → ∀ q ∈ l.eraseP (fun q => f q == vid), f q ≠ vid := by
  intro l
  induction l with
  | nil => intro _ q hq; simp at hq
  | cons a l ih =>
    intro hnd q hq
    rw [List.map_cons, List.nodup_cons] at hnd
    by_cases ha : f a = vid
    · rw [List.eraseP_cons_of_pos (by simpa using ha)] at hq
      intro hqv
      apply hnd.1
      rw [ha, ← hqv]
      exact List.mem_map_of_mem f hq
    · rw [List.eraseP_cons_of_neg (by simpa using ha)] at hq
      rcases List.mem_cons.mp hq with rfl | hq2
      · exact ha
      · exact ih hnd.2 q hq2

theorem map_vid_set_flagged (h : Heap) (p : Ptr) (l : List Ptr) :
    l.map (fun q => (deref (h.set p (flagged h p)) q).Vid) = l.map (fun q => (deref h q).Vid) := by
  apply List.map_congr_left
  intro q _
  exact deref_set_flagged_vid h p q

theorem dealDisCard_distinct (h : Heap) (m : modeInfo) (vid : Nat)
    (hd : vidsDistinct h m.current) :
    vidsDistinct (modeInfo.dealDisCard (h, m) vid).1 (modeInfo.dealDisCard (h, m) vid).2.current := by
  rcases dealDisCard_cases h m vid with ⟨he, _⟩ | ⟨p, tf, _, _, he⟩
  · rw [he]; exact hd
  · rw [he]
    unfold vidsDistinct at hd ⊢
    simp only
    rw [map_vid_set_flagged]
    exact List.Nodup.sublist (List.Sublist.map _ (List.eraseP_sublist _)) hd

theorem dealDisCard_allFlagged (h : Heap) (m : modeInfo) (vid w : Nat)
    (hw : allFlagged h m w) :
    allFlagged (modeInfo.dealDisCard (h, m) vid).1 (modeInfo.dealDisCard (h, m) vid).2 w := by
  rcases dealDisCard_cases h m vid with ⟨he, _⟩ | ⟨p, tf, _, _, he⟩
  · rw [he]; exact hw
  · rw [he]
    intro q hq hv
    simp only at hq hv ⊢
    rw [deref_set_flagged_vid] at hv
    exact deref_set_flagged_deleted h p q (hw q (List.mem_of_mem_eraseP hq) hv)

theorem dealDisCard_flags (h : Heap) (m : modeInfo) (vid : Nat)
    (hd : vidsDistinct h m.current) :
    allFlagged (modeInfo.dealDisCard (h, m) vid).1 (modeInfo.dealDisCard (h, m) vid).2 vid := by
  rcases dealDisCard_cases h m vid with ⟨he, hall⟩ | ⟨p, tf, _, _, he⟩
  · rw [he]
    intro q hq hv
    cases hg : m.current.Get h vid with
    | none =>
      unfold volumes.Get at hg
      rw [List.find?_eq_none] at hg
      exact absurd (by simpa using hv) (hg q hq)
    | some p =>
      have hp := hall p hg
      unfold volumes.Get at hg
      have hpm := List.mem_of_find?_eq_some hg
      have hpv : (deref h p).Vid = vid := by simpa using List.find?_some hg
      have : q = p := List.inj_on_of_nodup_map hd hq hpm (by rw [hv, hpv])
      rw [this]; exact hp
  · rw [he]
    intro q hq hv
    simp only at hq hv
    rw [deref_set_flagged_vid] at hv
    exact absurd hv (eraseP_no_vid (fun q => (deref h q).Vid) vid _ hd q hq)

theorem foldl_dealDisCard_flags (ds : List Nat) :
    ∀ (h : Heap) (m : modeInfo), vidsDistinct h m.current →
      ∀ vid ∈ ds, allFlagged (ds.foldl modeInfo.dealDisCard (h, m)).1
        (ds.foldl modeInfo.dealDisCard (h, m)).2 vid := by
  have keep : ∀ (ds : List Nat) (h : Heap) (m : modeInfo) (w : Nat), allFlagged h m w →
      allFlagged (ds.foldl modeInfo.dealDisCard (h, m)).1
        (ds.foldl modeInfo.dealDisCard (h, m)).2 w := by
    intro ds
    induction ds with
    | nil => intro h m w hw; exact hw
    | cons d ds ih =>
      intro h m w hw
      rw [List.foldl_cons]
      exact ih _ _ w (dealDisCard_allFlagged h m d w hw)
  induction ds with
  | nil => intro h m _ vid hv; simp at hv
  | cons d ds ih =>
    intro h m hd vid hv
    rw [List.foldl_cons]
    rcases List.mem_cons.mp hv with rfl | hv2
    · exact keep ds _ _ vid (dealDisCard_flags h m vid hd)
    · exact ih _ _ (dealDisCard_distinct h m d hd) vid hv2

theorem foldl_dealDisCard_noop (ds : List Nat) (h : Heap) (m : modeInfo)
    (hall : ∀ vid ∈ ds, allFlagged h m vid) :
    ds.foldl modeInfo.dealDisCard (h, m) = (h, m) := by
  induction ds with
  | nil => rfl
  | cons d ds ih =>
    rw [List.foldl_cons, dealDisCard_noop h m d]
    · exact ih (fun vid hv => hall vid (List.mem_cons_of_mem _ hv))
    · intro p hp
      unfold volumes.Get at hp
      exact hall d (List.mem_cons_self _ _) p (List.mem_of_find?_eq_some hp)
        (by simpa using List.find?_some hp)

theorem dealDisCards_idem (h : Heap) (m : modeInfo) (ds : Slice Nat)
    (hd : vidsDistinct h m.current) :
    (m.dealDisCards h ds).2.dealDisCards (m.dealDisCards h ds).1 ds = m.dealDisCards h ds := by
  unfold modeInfo.dealDisCards
  by_cases hl : ds.length = 0
  · simp [hl]
  · simp only [hl, if_false]
    exact foldl_dealDisCard_noop ds _ _ (foldl_dealDisCard_flags ds h m hd)

theorem mapGet_mapSet {β : Type} (ms : List (Nat × β)) (k : Nat) (x y : β)
    (hk : mapGet ms k = some x) : mapGet (mapSet ms k y) k = some y := by
  induction ms with
  | nil => simp [mapGet] at hk
  | cons a ms ih =>
    obtain ⟨k1, x1⟩ := a
    unfold mapSet
    by_cases hk1 : k1 = k
    · simp [hk1, mapGet]
    · simp only [hk1, if_false, mapGet] at hk ⊢
      exact ih hk

theorem mapSet_mapSet {β : Type} (ms : List (Nat × β)) (k : Nat) (x y : β) :
    mapSet (mapSet ms k x) k y = mapSet ms k y := by
  induction ms with
  | nil => rfl
  | cons a ms ih =>
    obtain ⟨k1, x1⟩ := a
    by_cases hk1 : k1 = k
    · simp [mapSet, hk1, ih]
    · simp [mapSet, hk1, ih]

/-- C9 (amended): for a known code mode whose current set holds at most one record
per vid, running `Discard(codeMode, vids)` twice in a row leaves the same state
(the two sets, every field of every volume record, both counters, and everything
else in the manager) as running it once. -/
theorem discard_idempotent (v : volumeMgr) (args : DiscardVolsArgs) (info : modeInfo)
    (hmode : mapGet v.modeInfos args.CodeMode = some info)
    (hd : vidsDistinct v.heap info.current) :
    (v.Discard args).1.Discard args = v.Discard args := by
  unfold volumeMgr.Discard
  simp only [hmode]
  rw [mapGet_mapSet _ _ _ _ hmode]
  simp only [mapSet_mapSet, dealDisCards_idem v.heap info args.Discards hd]

theorem discard_idempotent_witness :
    ((mkMgr 10 twoVolHeap twoVolPool 0).Discard { CodeMode := 1, Discards := [11, 13] }).1 =
      mkMgr 10
        [{ Vid := 11, Used := 0, Free := 1000, deleted := true },
         { Vid := 12, Used := 0, Free := 1000, deleted := false },
         { Vid := 13, Used := 0, Free := 1000, deleted := false }]
        { twoVolPool with current := { vols := [1], totalFree := 1000 } } 0 ∧
    ((mkMgr 10 twoVolHeap twoVolPool 0).Discard { CodeMode := 1, Discards := [11, 13] }).1.Discard
        { CodeMode := 1, Discards := [11, 13] } =
      (mkMgr 10 twoVolHeap twoVolPool 0).Discard { CodeMode := 1, Discards := [11, 13] } :=
  ⟨by decide,
   discard_idempotent (mkMgr 10 twoVolHeap twoVolPool 0) { CodeMode := 1, Discards := [11, 13] }
     twoVolPool rfl (by unfold vidsDistinct; decide)⟩

/-- The state of one record during `dealDisCards`: still held by `current` and not
flagged (the vids of `current` being distinct), or flagged and out of `current`. -/
theorem dealDisCard_done (h : Heap) (m : modeInfo) (d : Nat) (p : Ptr)
    (hdel : (deref h p).deleted = true) (hout : p ∉ m.current.vols) :
    (deref (modeInfo.dealDisCard (h, m) d).1 p).deleted = true ∧
    p ∉ (modeInfo.dealDisCard (h, m) d).2.current.vols := by
  rcases dealDisCard_cases h m d with ⟨he, _⟩ | ⟨q, tf, _, _, he⟩
  · rw [he]; exact ⟨hdel, hout⟩
  · rw [he]
    exact ⟨deref_set_flagged_deleted h q p hdel, fun hm => hout (List.mem_of_mem_eraseP hm)⟩

theorem dealDisCard_frame (h : Heap) (m : modeInfo) (d : Nat) (p : Ptr) :
    (deref (modeInfo.dealDisCard (h, m) d).1 p).Vid = (deref h p).Vid ∧
    (modeInfo.dealDisCard (h, m) d).1.length = h.length ∧
    (modeInfo.dealDisCard (h, m) d).2.backup = m.backup := by
  rcases dealDisCard_cases h m d with ⟨he, _⟩ | ⟨q, tf, _, _, he⟩
  · rw [he]; exact ⟨rfl, rfl, rfl⟩
  · rw [he]
    exact ⟨deref_set_flagged_vid h q p, List.length_set _ _ _, rfl⟩

theorem dealDisCard_own (h : Heap) (m : modeInfo) (p : Ptr)
    (hp : p ∈ m.current.vols) (hlen : p < h.length) (hnd : vidsDistinct h m.current)
    (hlive : (deref h p).deleted = false) :
    (deref (modeInfo.dealDisCard (h, m) (deref h p).Vid).1 p).deleted = true ∧
    p ∉ (modeInfo.dealDisCard (h, m) (deref h p).Vid).2.current.vols := by
  rcases dealDisCard_cases h m (deref h p).Vid with ⟨_, hall⟩ | ⟨q, tf, hg, _, he⟩
  · exfalso
    cases hg : m.current.Get h (deref h p).Vid with
    | none =>
      unfold volumes.Get at hg
      rw [List.find?_eq_none] at hg
      exact hg p hp (by simp)
    | some q =>
      have hq := hall q hg
      unfold volumes.Get at hg
      have hqv : (deref h q).Vid = (deref h p).Vid := by simpa using List.find?_some hg
      have : q = p := List.inj_on_of_nodup_map hnd (List.mem_of_find?_eq_some hg) hp hqv
      rw [this, hlive] at hq
      exact Bool.noConfusion hq
  · unfold volumes.Get at hg
    have hqv : (deref h q).Vid = (deref h p).Vid := by simpa using List.find?_some hg
    have hqp : q = p := List.inj_on_of_nodup_map hnd (List.mem_of_find?_eq_some hg) hp hqv
    rw [he]
    subst hqp
    refine ⟨deref_set_flagged_self h q hlen, ?_⟩
    intro hm
    exact eraseP_no_vid (fun r => (deref h r).Vid) (deref h q).Vid _ hnd q hm rfl

theorem dealDisCard_other (h : Heap) (m : modeInfo) (d : Nat) (p : Ptr)
    (hp : p ∈ m.current.vols) (hne : d ≠ (deref h p).Vid) :
    p ∈ (modeInfo.dealDisCard (h, m) d).2.current.vols ∧
    (deref (modeInfo.dealDisCard (h, m) d).1 p).deleted = (deref h p).deleted := by
  rcases dealDisCard_cases h m d with ⟨he, _⟩ | ⟨q, tf, hg, _, he⟩
  · rw [he]; exact ⟨hp, rfl⟩
  · unfold volumes.Get at hg
    have hqv : (deref h q).Vid = d := by simpa using List.find?_some hg
    have hqp : q ≠ p := by
      intro hqp; rw [hqp] at hqv; exact hne hqv.symm
    rw [he]
    refine ⟨?_, ?_⟩
    · exact (List.mem_eraseP_of_neg (by simpa using Ne.symm hne)).mpr hp
    · rw [deref_set, if_neg (fun hc => hqp hc.1)]

theorem foldl_dealDisCard_done (ds : List Nat) (p : Ptr) :
    ∀ (h : Heap) (m : modeInfo), (deref h p).deleted = true → p ∉ m.current.vols →
      (deref (ds.foldl modeInfo.dealDisCard (h, m)).1 p).deleted = true ∧
      p ∉ (ds.foldl modeInfo.dealDisCard (h, m)).2.current.vols := by
  induction ds with
  | nil => intro h m hd ho; exact ⟨hd, ho⟩
  | cons d ds ih =>
    intro h m hd ho
    rw [List.foldl_cons]
    have hs := dealDisCard_done h m d p hd ho
    exact ih _ _ hs.1 hs.2

theorem foldl_dealDisCard_backup (ds : List Nat) :
    ∀ (h : Heap) (m : modeInfo),
      (ds.foldl modeInfo.dealDisCard (h, m)).2.backup = m.backup := by
  induction ds with
  | nil => intro h m; rfl
  | cons d ds ih =>
    intro h m
    rw [List.foldl_cons, ih, (dealDisCard_frame h m d 0).2.2]

theorem foldl_dealDisCard_own (ds : List Nat) (p : Ptr) :
    ∀ (h : Heap) (m : modeInfo), (deref h p).Vid ∈ ds → p ∈ m.current.vols → p < h.length →
      vidsDistinct h m.current → (deref h p).deleted = false →
      (deref (ds.foldl modeInfo.dealDisCard (h, m)).1 p).deleted = true ∧
      p ∉ (ds.foldl modeInfo.dealDisCard (h, m)).2.current.vols := by
  induction ds with
  | nil => intro h m hv; simp at hv
  | cons d ds ih =>
    intro h m hv hp hlen hnd hlive
    rw [List.foldl_cons]
    by_cases hd : d = (deref h p).Vid
    · rw [hd]
      have hs := dealDisCard_own h m p hp hlen hnd hlive
      exact foldl_dealDisCard_done ds p _ _ hs.1 hs.2
    · have hv2 : (deref h p).Vid ∈ ds := by
        rcases List.mem_cons.mp hv with he | hin
        · exact absurd he.symm hd
        · exact hin
      have ho := dealDisCard_other h m d p hp hd
      have hf := dealDisCard_frame h m d p
      exact ih (modeInfo.dealDisCard (h, m) d).1 (modeInfo.dealDisCard (h, m) d).2
        (by rw [hf.1]; exact hv2) ho.1 (by rw [hf.2.1]; exact hlen)
        (dealDisCard_distinct h m d hnd) (by rw [ho.2]; exact hlive)

/-- C10 (counterexample): vid 13 is in the `Discard` request and held by the pool
of the mode, in backup; after `Discard` its record still has `deleted = false`
(the call changes nothing). -/
theorem discard_leaves_backup_volume :
    mapGet (mkMgr 10 twoVolHeap twoVolPool 0).modeInfos 1 = some twoVolPool ∧
    2 ∈ twoVolPool.backup.vols ∧ (deref twoVolHeap 2).Vid = 13 ∧
    (deref ((mkMgr 10 twoVolHeap twoVolPool 0).Discard
        { CodeMode := 1, Discards := [13] }).1.heap 2).deleted = false ∧
    (mkMgr 10 twoVolHeap twoVolPool 0).Discard { CodeMode := 1, Discards := [13] } =
      (mkMgr 10 twoVolHeap twoVolPool 0, none) := by
  refine ⟨rfl, by decide, rfl, rfl, by decide⟩

/-- C10 (amended): for a known code mode and every vid of the `Discard` request
that current holds in a record not yet flagged (current holding at most one
record per vid), after `Discard` that record has `deleted = true` and is not a
member of current; backup is left as it was. -/
theorem discard_flags_current_volume (v : volumeMgr) (args : DiscardVolsArgs) (info : modeInfo)
    (p : Ptr) (hmode : mapGet v.modeInfos args.CodeMode = some info)
    (hvid : (deref v.heap p).Vid ∈ args.Discards) (hp : p ∈ info.current.vols)
    (hlen : p < v.heap.length) (hnd : vidsDistinct v.heap info.current)
    (hlive : (deref v.heap p).deleted = false) :
    ∃ info1, mapGet (v.Discard args).1.modeInfos args.CodeMode = some info1 ∧
      (deref (v.Discard args).1.heap p).deleted = true ∧
      p ∉ info1.current.vols ∧ info1.backup = info.backup := by
  have hne : ¬ args.Discards.length = 0 := by
    intro h0
    rw [List.length_eq_zero] at h0
    rw [h0] at hvid
    simp at hvid
  have hown := foldl_dealDisCard_own args.Discards p v.heap info hvid hp hlen hnd hlive
  have hb := foldl_dealDisCard_backup args.Discards v.heap info
  unfold volumeMgr.Discard
  simp only [hmode, modeInfo.dealDisCards, hne, if_false]
  exact ⟨_, mapGet_mapSet _ _ _ _ hmode, hown.1, hown.2, hb⟩

theorem discard_flags_current_volume_witness :
    (deref twoVolHeap 0).Vid = 11 ∧
    ∃ info1, mapGet ((mkMgr 10 twoVolHeap twoVolPool 0).Discard
        { CodeMode := 1, Discards := [13, 11] }).1.modeInfos 1 = some info1 ∧
      (deref ((mkMgr 10 twoVolHeap twoVolPool 0).Discard
        { CodeMode := 1, Discards := [13, 11] }).1.heap 0).deleted = true ∧
      0 ∉ info1.current.vols ∧ info1.backup = twoVolPool.backup :=
  ⟨rfl,
   discard_flags_current_volume (mkMgr 10 twoVolHeap twoVolPool 0)
     { CodeMode := 1, Discards := [13, 11] } twoVolPool 0 rfl (by decide) (by decide) (by decide)
     (by unfold vidsDistinct; decide) rfl⟩

/-! ## Replenishment notifications -/

theorem allocNotify_sent (v : volumeMgr) (mode : Nat) (count : Int) (b : Bool)
    (hn : (v.allocNotify mode count b).2 = false) :
    (∃ took, (v.allocNotify mode count b).1.notified =
      v.notified ++ [({ isInit := false, isBackup := b, codeMode := mode, count := count }, took)]) ∧
    (v.allocNotify mode count b).1.modeInfos = v.modeInfos ∧
    (v.allocNotify mode count b).1.heap = v.heap := by
  unfold volumeMgr.allocNotify at hn ⊢
  split
  · exact ⟨⟨true, rfl⟩, rfl, rfl⟩
  · exact ⟨⟨false, rfl⟩, rfl, rfl⟩
  · rename_i hnone
    simp [hnone] at hn

theorem modifySpace_notified (v : volumeMgr) (p : Ptr) (m : modeInfo) (args : AllocVolsArgs) :
    (v.modifySpace p m args).1.notified = v.notified := by
  unfold volumeMgr.modifySpace
  simp only
  split
  · rfl
  · split
    · rfl
    · split <;> rfl

theorem getNextVidLoop_notified (vols : Slice Ptr) (args : AllocVolsArgs) (n : Nat) :
    ∀ (i : Nat) (v : volumeMgr) (m : modeInfo),
      (volumeMgr.getNextVidLoop vols args i n v m).1.notified = v.notified := by
  induction n with
  | zero => intro i v m; rfl
  | succ n ih =>
    intro i v m
    unfold volumeMgr.getNextVidLoop
    simp only
    split
    · exact modifySpace_notified _ _ _ _
    · rw [ih, modifySpace_notified]

theorem getNextVid_notified (v : volumeMgr) (vols : Slice Ptr) (m : modeInfo)
    (args : AllocVolsArgs) : (v.getNextVid vols m args).1.notified = v.notified := by
  unfold volumeMgr.getNextVid
  simp only
  split
  · rfl
  · rw [getNextVidLoop_notified]

theorem getAvailableVols_eq (v : volumeMgr) (args : AllocVolsArgs) (info : modeInfo)
    (hmode : mapGet v.modeInfos args.CodeMode = some info) :
    v.getAvailableVols args =
      volumeMgr.getAvailableVolsSwitch
        { v with heap := (info.dealDisCards v.heap args.Discards).1 } args
        ((info.dealDisCards v.heap args.Discards).2.needSwitchToBackup (int64 args.Fsize)) := by
  unfold volumeMgr.getAvailableVols
  rw [hmode]

theorem notifyAndReturn_cases (v : volumeMgr) (mode : Nat) (b : Bool)
    (res : Except Error (Slice Ptr)) :
    (v.notifyAndReturn mode b res).2 = .error Error.panic ∨
    ((v.notifyAndReturn mode b res).2 = res ∧
      (∃ took, (v.notifyAndReturn mode b res).1.notified =
        v.notified ++ [({ isInit := false, isBackup := b, codeMode := mode,
                          count := v.DefaultAllocVolsNum }, took)]) ∧
      (v.notifyAndReturn mode b res).1.modeInfos = v.modeInfos ∧
      (v.notifyAndReturn mode b res).1.heap = v.heap) := by
  unfold volumeMgr.notifyAndReturn
  by_cases hn : (v.allocNotify mode v.DefaultAllocVolsNum b).2 = true
  · left; rw [if_pos hn]
  · right
    rw [if_neg hn]
    have hs := allocNotify_sent v mode v.DefaultAllocVolsNum b (by simpa using hn)
    exact ⟨rfl, hs.1, hs.2.1, hs.2.2⟩

theorem getAvailableVolsList_outcome (v : volumeMgr) (args : AllocVolsArgs)
    (g : modeInfo × Slice Ptr) (info : modeInfo)
    (hmode : mapGet v.modeInfos args.CodeMode = some info) :
    availableOutcome v args.CodeMode (v.getAvailableVolsList args g) := by
  unfold volumeMgr.getAvailableVolsList availableOutcome
  by_cases h0 : g.2.length = 0
  · rw [if_pos h0]
    rcases notifyAndReturn_cases { v with modeInfos := mapSet v.modeInfos args.CodeMode g.1 }
      args.CodeMode false (.error Error.ErrNoAvaliableVolume) with hp | ⟨_, ⟨took, ht⟩, _, _⟩
    · left; exact hp
    · right; left; exact ⟨false, took, ht⟩
  · rw [if_neg h0]
    by_cases hb : (g.1.List true).length = 0
    · rw [if_pos hb]
      rcases notifyAndReturn_cases { v with modeInfos := mapSet v.modeInfos args.CodeMode g.1 }
        args.CodeMode true (.ok g.2) with hp | ⟨_, ⟨took, ht⟩, _, _⟩
      · left; exact hp
      · right; left; exact ⟨true, took, ht⟩
    · rw [if_neg hb]
      right; right
      refine ⟨rfl, g.2, g.1, rfl, mapGet_mapSet _ _ _ _ hmode, ?_⟩
      intro he
      apply hb
      simp [modeInfo.List, volumes.List, he]

theorem getAvailableVolsSwitch_outcome (v : volumeMgr) (args : AllocVolsArgs)
    (ns : modeInfo × Bool × Option Error) (info : modeInfo)
    (hmode : mapGet v.modeInfos args.CodeMode = some info) :
    availableOutcome v args.CodeMode (v.getAvailableVolsSwitch args ns) := by
  obtain ⟨m1, flag, oe⟩ := ns
  cases oe with
  | none => exact getAvailableVolsList_outcome v args _ info hmode
  | some err =>
    show availableOutcome v args.CodeMode
      (volumeMgr.notifyAndReturn { v with modeInfos := mapSet v.modeInfos args.CodeMode m1 }
        args.CodeMode true (.error err))
    unfold availableOutcome
    rcases notifyAndReturn_cases { v with modeInfos := mapSet v.modeInfos args.CodeMode m1 }
      args.CodeMode true (.error err) with hp | ⟨_, ⟨took, ht⟩, _, _⟩
    · left; exact hp
    · right; left; exact ⟨true, took, ht⟩

theorem getAvailableVols_outcome (v : volumeMgr) (args : AllocVolsArgs) (info : modeInfo)
    (hmode : mapGet v.modeInfos args.CodeMode = some info) :
    availableOutcome v args.CodeMode (v.getAvailableVols args) := by
  rw [getAvailableVols_eq v args info hmode]
  exact getAvailableVolsSwitch_outcome
    { v with heap := (info.dealDisCards v.heap args.Discards).1 } args _ info hmode

theorem allocVid_eq (v : volumeMgr) (args : AllocVolsArgs) (info : modeInfo)
    (hmode : mapGet v.modeInfos args.CodeMode = some info) :
    v.allocVid args =
      match v.getAvailableVols args with
      | (v1, .error err) => (v1, .error err)
      | (v1, .ok vols) =>
        match mapGet v1.modeInfos args.CodeMode with
        | none => (v1, .error Error.panic)
        | some info1 =>
          ({ (v1.getNextVid vols info1 args).1 with
               modeInfos := mapSet (v1.getNextVid vols info1 args).1.modeInfos args.CodeMode
                 (v1.getNextVid vols info1 args).2.1 },
            (v1.getNextVid vols info1 args).2.2) := by
  unfold volumeMgr.allocVid
  rw [hmode]

theorem alloc_ok_eq (v : volumeMgr) (args : AllocVolsArgs) (scopes : Slice BidScope) :
    v.Alloc args (.ok scopes) =
      match v.allocVid args with
      | (v1, .error err) => (v1, .error err)
      | (v1, .ok vid) =>
        (v1, .ok (scopes.map
          (fun bidScope => { BidStart := bidScope.StartBid, BidEnd := bidScope.EndBid, Vid := vid }))) := by
  rfl

/-- C7 (counterexample): the mode is known and backup is not empty; every candidate
of the walk is excluded, so `Alloc` fails with `ErrNoAvaliableVolume`, and no
notification was attempted during the call (`notified` is still empty). -/
theorem alloc_no_volume_without_notify :
    mapGet (mkMgr 10 twoVolHeap twoVolPool 5).modeInfos 1 = some twoVolPool ∧
    (mkMgr 10 twoVolHeap twoVolPool 5).notified = [] ∧
    ((mkMgr 10 twoVolHeap twoVolPool 5).Alloc
        { Fsize := 20, CodeMode := 1, BidCount := 1, Excludes := [12, 11], Discards := [] }
        (.ok [{ StartBid := 1, EndBid := 5 }])).2 = .error Error.ErrNoAvaliableVolume ∧
    ((mkMgr 10 twoVolHeap twoVolPool 5).Alloc
        { Fsize := 20, CodeMode := 1, BidCount := 1, Excludes := [12, 11], Discards := [] }
        (.ok [{ StartBid := 1, EndBid := 5 }])).1.notified = [] := by
  refine ⟨rfl, rfl, rfl, by decide⟩

/-- C7 (amended): for a request whose code mode has a pool and whose bids were
allocated, if `Alloc` fails with `ErrNoAvaliableVolume` then either a notification
for the code mode of the request was attempted during the call (one entry added
to `notified`), or the failure arose in the walk over the candidates: the
candidate list had been returned with backup not empty and nothing was notified. -/
theorem alloc_no_volume_notified (v : volumeMgr) (args : AllocVolsArgs)
    (scopes : Slice BidScope) (v1 : volumeMgr) (info : modeInfo)
    (hmode : mapGet v.modeInfos args.CodeMode = some info)
    (h : v.Alloc args (.ok scopes) = (v1, .error Error.ErrNoAvaliableVolume)) :
    (∃ b took, v1.notified =
      v.notified ++ [({ isInit := false, isBackup := b, codeMode := args.CodeMode,
                        count := v.DefaultAllocVolsNum }, took)]) ∨
    (v1.notified = v.notified ∧
      ∃ vols info2, (v.getAvailableVols args).2 = .ok vols ∧
        mapGet (v.getAvailableVols args).1.modeInfos args.CodeMode = some info2 ∧
        info2.backup.vols ≠ []) := by
  have hout := getAvailableVols_outcome v args info hmode
  unfold availableOutcome at hout
  rw [alloc_ok_eq] at h
  have hv : v.allocVid args = (v1, .error Error.ErrNoAvaliableVolume) := by
    cases ha : v.allocVid args with
    | mk v2 r =>
      rw [ha] at h
      cases r with
      | error e =>
        simp only [Prod.mk.injEq, Except.error.injEq] at h
        rw [h.1, h.2]
      | ok vid => simp at h
  rw [allocVid_eq v args info hmode] at hv
  cases hg : v.getAvailableVols args with
  | mk v2 r =>
    rw [hg] at hv hout
    cases r with
    | error e =>
      simp only [Prod.mk.injEq, Except.error.injEq] at hv
      rcases hout with hp | hn | ⟨_, vols, info2, hr, _⟩
      · simp only [Except.error.injEq] at hp
        rw [hv.2] at hp
        exact Error.noConfusion hp
      · left; rw [← hv.1]; exact hn
      · simp at hr
    | ok vols =>
      simp only at hv
      cases hm2 : mapGet v2.modeInfos args.CodeMode with
      | none =>
        rw [hm2] at hv
        simp at hv
      | some info1 =>
        rw [hm2] at hv
        simp only [Prod.mk.injEq] at hv
        have hnot : v1.notified = v2.notified := by
          rw [← hv.1]
          exact getNextVid_notified v2 vols info1 args
        rcases hout with hp | hn | ⟨hsame, vols2, info2, hr, hi2, hb⟩
        · simp at hp
        · left; rw [hnot]; exact hn
        · right
          exact ⟨by rw [hnot]; exact hsame, vols2, info2, hr, hm2.symm.trans hi2, hb⟩

theorem alloc_no_volume_notified_witness :
    ((mkMgr 10 twoVolHeap { twoVolPool with backup := { vols := [], totalFree := 0 } } 0).Alloc
        { Fsize := 1950, CodeMode := 1, BidCount := 1, Excludes := [], Discards := [] }
        (.ok [{ StartBid := 1, EndBid := 5 }])).2 = .error Error.ErrNoAvaliableVolume ∧
    ((∃ b took,
        ((mkMgr 10 twoVolHeap { twoVolPool with backup := { vols := [], totalFree := 0 } } 0).Alloc
          { Fsize := 1950, CodeMode := 1, BidCount := 1, Excludes := [], Discards := [] }
          (.ok [{ StartBid := 1, EndBid := 5 }])).1.notified =
          [] ++ [({ isInit := false, isBackup := b, codeMode := 1, count := 1 }, took)]) ∨
      (((mkMgr 10 twoVolHeap { twoVolPool with backup := { vols := [], totalFree := 0 } } 0).Alloc
          { Fsize := 1950, CodeMode := 1, BidCount := 1, Excludes := [], Discards := [] }
          (.ok [{ StartBid := 1, EndBid := 5 }])).1.notified = [] ∧
        ∃ vols info2,
          ((mkMgr 10 twoVolHeap { twoVolPool with backup := { vols := [], totalFree := 0 } } 0).getAvailableVols
            { Fsize := 1950, CodeMode := 1, BidCount := 1, Excludes := [], Discards := [] }).2
            = .ok vols ∧
          mapGet ((mkMgr 10 twoVolHeap
              { twoVolPool with backup := { vols := [], totalFree := 0 } } 0).getAvailableVols
            { Fsize := 1950, CodeMode := 1, BidCount := 1, Excludes := [], Discards := [] }).1.modeInfos
            1 = some info2 ∧
          info2.backup.vols ≠ [])) :=
  ⟨rfl,
   alloc_no_volume_notified
     (mkMgr 10 twoVolHeap { twoVolPool with backup := { vols := [], totalFree := 0 } } 0)
     { Fsize := 1950, CodeMode := 1, BidCount := 1, Excludes := [], Discards := [] }
     [{ StartBid := 1, EndBid := 5 }] _ _ rfl rfl⟩

/-! ## Putting a returned batch into the pool -/

theorem int64_of_isInt64 (x : Int) (hx : isInt64 x) : int64 x = x := by
  unfold isInt64 at hx
  unfold int64; omega

theorem putVolumeRets_prefix (isInit isBackup : Bool) (mode n : Nat) :
    ∀ (rets : Slice AllocVolumeInfo) (idx c : Nat) (v : volumeMgr) (info : modeInfo),
      mapGet v.modeInfos mode = some info →
      (∀ j, idx ≤ j → j < idx + rets.length →
        putIsBackup v.InitVolumeNum isInit isBackup n j = decide (idx + c ≤ j)) →
      c ≤ rets.length →
      ∃ v1 info1, volumeMgr.putVolumeRets isInit isBackup mode n idx rets v = some v1 ∧
        mapGet v1.modeInfos mode = some info1 ∧
        v1.heap = v.heap ++ rets.map newVolume ∧
        v1.allocChs = v.allocChs ∧
        info1.current.vols = info.current.vols ++ List.range' v.heap.length c ∧
        info1.backup.vols = info.backup.vols ++ List.range' (v.heap.length + c) (rets.length - c) := by
  intro rets
  induction rets with
  | nil =>
    intro idx c v info hmode _ hc
    have hc0 : c = 0 := Nat.le_zero.mp hc
    subst hc0
    exact ⟨v, info, rfl, hmode, by simp, rfl, by simp, by simp⟩
  | cons vol rest ih =>
    intro idx c v info hmode hroute hc
    have hr0 := hroute idx (Nat.le_refl _) (by simp)
    unfold volumeMgr.putVolumeRets
    simp only [hmode]
    cases c with
    | zero =>
      have hr1 : putIsBackup v.InitVolumeNum isInit isBackup n idx = true := by
        rw [hr0]; simp
      rw [hr1]
      obtain ⟨v1, info1, h1, h2, h3, h4, h5, h6⟩ :=
        ih (idx + 1) 0
          { v with heap := v.heap ++ [newVolume vol],
                   modeInfos := mapSet v.modeInfos mode
                     (info.Put (v.heap ++ [newVolume vol]) v.heap.length true) }
          (info.Put (v.heap ++ [newVolume vol]) v.heap.length true)
          (mapGet_mapSet _ _ _ _ hmode)
          (by
            intro j hj1 hj2
            have := hroute j (by omega) (by simp only [List.length_cons]; omega)
            simp only at this ⊢
            rw [this]
            simp only [decide_eq_decide]
            omega)
          (Nat.zero_le _)
      refine ⟨v1, info1, h1, h2, ?_, h4, ?_, ?_⟩
      · rw [h3]; simp
      · rw [h5]; simp [modeInfo.Put]
      · rw [h6]
        simp [modeInfo.Put, volumes.Put, List.range'_succ]
    | succ c =>
      have hr1 : putIsBackup v.InitVolumeNum isInit isBackup n idx = false := by
        rw [hr0]; simp
      rw [hr1]
      obtain ⟨v1, info1, h1, h2, h3, h4, h5, h6⟩ :=
        ih (idx + 1) c
          { v with heap := v.heap ++ [newVolume vol],
                   modeInfos := mapSet v.modeInfos mode
                     (info.Put (v.heap ++ [newVolume vol]) v.heap.length false) }
          (info.Put (v.heap ++ [newVolume vol]) v.heap.length false)
          (mapGet_mapSet _ _ _ _ hmode)
          (by
            intro j hj1 hj2
            have := hroute j (by omega) (by simp only [List.length_cons]; omega)
            simp only at this ⊢
            rw [this]
            simp only [decide_eq_decide]
            omega)
          (by simp only [List.length_cons] at hc; omega)
      refine ⟨v1, info1, h1, h2, ?_, h4, ?_, ?_⟩
      · rw [h3]; simp
      · rw [h5]
        simp only [modeInfo.Put, volumes.Put, Bool.false_eq_true, if_false, List.length_append,
          List.length_singleton, List.append_assoc, List.singleton_append]
        rw [List.range'_succ]
      · rw [h6]
        have e1 : v.heap.length + 1 + c = v.heap.length + (c + 1) := by omega
        simp [modeInfo.Put, e1]

/-! ## The scenario "backup promotion" -/

theorem needSwitchToBackup_switch (m : modeInfo) (fSize : Int)
    (hT : isInt64 m.current.totalFree)
    (hle : int64 (m.current.totalFree - fSize) ≤ int64 m.totalThreshold)
    (hb : m.backup.vols ≠ []) :
    m.needSwitchToBackup fSize = (m, true, none) := by
  unfold modeInfo.needSwitchToBackup
  simp only [volumes.UpdateTotalFree, volumes.List, int64_sub_wrap, int64_undo _ _ hT]
  rw [if_pos hle, if_neg (by simpa using hb)]

theorem getAvailableList_stay (m : modeInfo) (fsize : Int)
    (h1 : ¬ m.current.totalFree < int64 m.totalThreshold)
    (h2 : ¬ m.current.totalFree < fsize) :
    m.getAvailableList fsize true =
      ({ m with current := { m.current with totalFree := int64 (m.current.totalFree - fsize) } },
        m.current.vols) := by
  unfold modeInfo.getAvailableList
  rw [if_neg (by decide), show m.current.TotalFree = m.current.totalFree from rfl,
    if_neg (fun h => h.elim h1 h2)]
  unfold modeInfo.debitAndList
  rw [show m.current.TotalFree = m.current.totalFree from rfl, if_neg h2]
  simp only [volumes.UpdateTotalFree, volumes.List, int64_sub_wrap]

theorem promotion_needSwitch (thr : Nat) (hthr : 10 * thr < 9223372036854775808) :
    (promotionPool thr).needSwitchToBackup ((thr : Int) + 1) = (promotionPool thr, true, none) := by
  have hT : (promotionPool thr).current.totalFree = (thr : Int) + 1 := rfl
  have hth : (promotionPool thr).totalThreshold = thr := rfl
  have hb : (promotionPool thr).backup.vols = [1] := rfl
  apply needSwitchToBackup_switch
  · rw [hT]; unfold isInt64; omega
  · rw [hT, hth]; unfold int64; omega
  · rw [hb]; simp

theorem promotion_list (thr : Nat) (hthr : 10 * thr < 9223372036854775808) :
    (promotionPool thr).getAvailableList ((thr : Int) + 1) true =
      ({ promotionPool thr with current := { vols := [0], totalFree := 0 } }, [0]) := by
  have hT : (promotionPool thr).current.totalFree = (thr : Int) + 1 := rfl
  have hth : (promotionPool thr).totalThreshold = thr := rfl
  have h0 : int64 ((thr : Int) + 1 - ((thr : Int) + 1)) = 0 := by
    unfold int64; omega
  rw [getAvailableList_stay]
  · rw [hT, h0]; rfl
  · rw [hT, hth]; unfold int64; omega
  · rw [hT]; omega

theorem promotion_getAvailableVols (thr vc vb uc ub : Nat) (reserve : Int) (preIdx bc : Nat)
    (ex : Slice Nat) (hthr : 10 * thr < 9223372036854775808) :
    (mkMgr reserve (promotionHeap thr vc vb uc ub) (promotionPool thr) preIdx).getAvailableVols
        (promotionArgs thr bc ex) =
      (mkMgr reserve (promotionHeap thr vc vb uc ub) (debitedPool thr) preIdx, .ok [0]) := by
  have hF : int64 ((thr + 1 : Nat) : Int) = (thr : Int) + 1 := by
    unfold int64; omega
  have hE := getAvailableVols_eq
    (mkMgr reserve (promotionHeap thr vc vb uc ub) (promotionPool thr) preIdx)
    (promotionArgs thr bc ex) (promotionPool thr) rfl
  rw [hE]
  have hd : (promotionPool thr).dealDisCards
      (mkMgr reserve (promotionHeap thr vc vb uc ub) (promotionPool thr) preIdx).heap
      (promotionArgs thr bc ex).Discards =
      (promotionHeap thr vc vb uc ub, promotionPool thr) := rfl
  have hfs : (promotionArgs thr bc ex).Fsize = thr + 1 := rfl
  simp only [hd, hfs, hF]
  rw [promotion_needSwitch thr hthr]
  show volumeMgr.getAvailableVolsList _ _
    ((promotionPool thr).getAvailableList (int64 (((promotionArgs thr bc ex).Fsize : Nat) : Int)) true) = _
  rw [hfs, hF, promotion_list thr hthr]
  rfl

theorem modifySpace_false (v : volumeMgr) (p : Ptr) (m : modeInfo) (args : AllocVolsArgs)
    (h : (v.modifySpace p m args).2.2 = false) : v.modifySpace p m args = (v, m, false) := by
  unfold volumeMgr.modifySpace at h ⊢
  simp only at h ⊢
  split
  · rfl
  · split
    · rfl
    · rename_i hex hfd
      rw [if_neg hex, if_neg hfd] at h
      split at h <;> simp at h

theorem modifySpace_succeeds (v : volumeMgr) (p : Ptr) (m : modeInfo) (args : AllocVolsArgs)
    (hex : (deref v.heap p).Vid ∉ args.Excludes) (hfree : args.Fsize ≤ (deref v.heap p).Free)
    (hlive : (deref v.heap p).deleted = false) : (v.modifySpace p m args).2.2 = true := by
  unfold volumeMgr.modifySpace
  simp only
  rw [if_neg (by
    simp only [List.any_eq_true, beq_iff_eq, not_exists, not_and]
    intro id hid heq
    exact hex (heq ▸ hid))]
  rw [if_neg (by
    intro hc
    rcases hc with hc | hc
    · omega
    · rw [hlive] at hc; exact Bool.noConfusion hc)]
  split <;> rfl

theorem volumes_Delete_found (s : volumes) (h : Heap) (p : Ptr) (hp : p ∈ s.vols) :
    (s.Delete h (deref h p).Vid).2 = true ∧
    (s.Delete h (deref h p).Vid).1.vols.Sublist s.vols := by
  unfold volumes.Delete
  cases hg : s.Get h (deref h p).Vid with
  | none =>
    unfold volumes.Get at hg
    rw [List.find?_eq_none] at hg
    exact absurd (by simp) (hg p hp)
  | some q => exact ⟨rfl, List.eraseP_sublist _⟩

theorem modeInfo_Delete_found (m : modeInfo) (h : Heap) (p : Ptr) (hp : p ∈ m.current.vols) :
    (m.Delete h (deref h p).Vid).backup = m.backup ∧
    (m.Delete h (deref h p).Vid).totalThreshold = m.totalThreshold ∧
    (m.Delete h (deref h p).Vid).current.vols.Sublist m.current.vols := by
  have hf := volumes_Delete_found m.current h p hp
  unfold modeInfo.Delete
  rw [if_pos hf.1]
  exact ⟨rfl, rfl, hf.2⟩

/-- What `modifySpace` leaves alone when the volume is a record of current: backup,
the threshold, the maps and counters of the manager; current only loses records. -/
theorem modifySpace_frame (v : volumeMgr) (p : Ptr) (m : modeInfo) (args : AllocVolsArgs)
    (hp : p ∈ m.current.vols) :
    (v.modifySpace p m args).2.1.backup = m.backup ∧
    (v.modifySpace p m args).2.1.totalThreshold = m.totalThreshold ∧
    (v.modifySpace p m args).2.1.current.vols.Sublist m.current.vols ∧
    (v.modifySpace p m args).1.modeInfos = v.modeInfos ∧
    (v.modifySpace p m args).1.allocChs = v.allocChs ∧
    (v.modifySpace p m args).1.preIdx = v.preIdx := by
  unfold volumeMgr.modifySpace
  simp only
  split
  · exact ⟨rfl, rfl, List.Sublist.refl _, rfl, rfl, rfl⟩
  · split
    · exact ⟨rfl, rfl, List.Sublist.refl _, rfl, rfl, rfl⟩
    · split
      · have hv : (deref (v.heap.set p
            { Vid := (deref v.heap p).Vid,
              Used := uint64 (((deref v.heap p).Used : Int) + args.Fsize),
              Free := uint64 (((deref v.heap p).Free : Int) - args.Fsize),
              deleted := true }) p).Vid = (deref v.heap p).Vid :=
          deref_set_vid _ _ _ rfl
        have hf := modeInfo_Delete_found m (v.heap.set p
            { Vid := (deref v.heap p).Vid,
              Used := uint64 (((deref v.heap p).Used : Int) + args.Fsize),
              Free := uint64 (((deref v.heap p).Free : Int) - args.Fsize),
              deleted := true }) p hp
        rw [hv] at hf
        exact ⟨hf.1, hf.2.1, hf.2.2, rfl, rfl, rfl⟩
      · exact ⟨rfl, rfl, List.Sublist.refl _, rfl, rfl, rfl⟩

theorem getD_mem_of_pos (vols : Slice Ptr) (i : Nat) (hne : vols ≠ []) :
    vols.getD (i % vols.length) 0 ∈ vols := by
  have hlen : 0 < vols.length := List.length_pos.mpr hne
  have hi : i % vols.length < vols.length := Nat.mod_lt _ hlen
  rw [List.getD_eq_getElem _ _ hi]
  exact List.getElem_mem _

theorem getNextVidLoop_frame (vols : Slice Ptr) (args : AllocVolsArgs) (hne : vols ≠ [])
    (n : Nat) :
    ∀ (i : Nat) (v : volumeMgr) (m : modeInfo), (∀ p ∈ vols, p ∈ m.current.vols) →
      (volumeMgr.getNextVidLoop vols args i n v m).2.1.backup = m.backup ∧
      (volumeMgr.getNextVidLoop vols args i n v m).2.1.totalThreshold = m.totalThreshold ∧
      (volumeMgr.getNextVidLoop vols args i n v m).2.1.current.vols.Sublist m.current.vols ∧
      (volumeMgr.getNextVidLoop vols args i n v m).1.modeInfos = v.modeInfos ∧
      (volumeMgr.getNextVidLoop vols args i n v m).1.allocChs = v.allocChs := by
  induction n with
  | zero => intro i v m _; exact ⟨rfl, rfl, List.Sublist.refl _, rfl, rfl⟩
  | succ n ih =>
    intro i v m hsub
    have hp := hsub _ (getD_mem_of_pos vols i hne)
    have hf := modifySpace_frame v (vols.getD (i % vols.length) 0) m args hp
    unfold volumeMgr.getNextVidLoop
    simp only
    by_cases hs : (v.modifySpace (vols.getD (i % vols.length) 0) m args).2.2 = true
    · rw [if_pos hs]
      exact ⟨hf.1, hf.2.1, hf.2.2.1, hf.2.2.2.1, hf.2.2.2.2.1⟩
    · rw [if_neg hs]
      have hfalse := modifySpace_false v _ m args (Bool.eq_false_iff.mpr hs)
      rw [hfalse]
      exact ih (i + 1) v m hsub

theorem getNextVid_frame (v : volumeMgr) (vols : Slice Ptr) (m : modeInfo)
    (args : AllocVolsArgs) (hne : vols ≠ []) (hsub : ∀ p ∈ vols, p ∈ m.current.vols) :
    (v.getNextVid vols m args).2.1.backup = m.backup ∧
    (v.getNextVid vols m args).2.1.totalThreshold = m.totalThreshold ∧
    (v.getNextVid vols m args).2.1.current.vols.Sublist m.current.vols ∧
    (v.getNextVid vols m args).1.modeInfos = v.modeInfos ∧
    (v.getNextVid vols m args).1.allocChs = v.allocChs := by
  unfold volumeMgr.getNextVid
  simp only
  rw [if_neg (by simpa using hne)]
  exact getNextVidLoop_frame vols args hne _ _ _ m hsub

theorem getNextVid_single (v : volumeMgr) (p : Ptr) (m : modeInfo) (args : AllocVolsArgs)
    (hp : p = 0)
    (hs : ∀ v2 : volumeMgr, v2.heap = v.heap → v2.VolumeReserveSize = v.VolumeReserveSize →
      (v2.modifySpace p m args).2.2 = true) :
    (v.getNextVid [p] m args).2.2 = .ok (deref v.heap p).Vid := by
  subst hp
  unfold volumeMgr.getNextVid
  simp only [List.length_singleton, Nat.mod_one]
  rw [if_neg (by decide)]
  unfold volumeMgr.getNextVidLoop
  simp only [List.length_singleton, Nat.mod_one, List.getD_cons_zero]
  have h2 := hs { v with preIdx := (v.preIdx + 1) % 18446744073709551616 } rfl rfl
  rw [if_pos h2]
  have h3 := modifySpace_true { v with preIdx := (v.preIdx + 1) % 18446744073709551616 } 0 m args h2
  simp only
  rw [h3.2.2]

theorem alloc_fst (v : volumeMgr) (args : AllocVolsArgs) (scopes : Slice BidScope) :
    (v.Alloc args (.ok scopes)).1 = (v.allocVid args).1 := by
  rw [alloc_ok_eq]
  cases ha : v.allocVid args with
  | mk v2 r => cases r <;> rfl

theorem alloc_snd_ok (v : volumeMgr) (args : AllocVolsArgs) (scopes : Slice BidScope) (vid : Nat)
    (h : (v.allocVid args).2 = .ok vid) :
    (v.Alloc args (.ok scopes)).2 = .ok (allocRets scopes vid) := by
  rw [alloc_ok_eq]
  cases ha : v.allocVid args with
  | mk v2 r =>
    rw [ha] at h
    simp only at h
    rw [h]
    rfl

/-- C4 (counterexample): threshold 10, current holds one volume (vid 21) with
`free = 11`, backup one volume (vid 22) with `free = 100`; `Alloc` with
`fsize = 11` returns vid 21 from current, and after the call backup still holds
its volume, current does not contain it, and nothing was notified. -/
theorem promotion_scenario_serves_current :
    ((mkMgr 10 (promotionHeap 10 21 22 0 0) (promotionPool 10) 0).Alloc
        { Fsize := 11, CodeMode := 1, BidCount := 1, Excludes := [], Discards := [] }
        (.ok [{ StartBid := 1, EndBid := 5 }])).2 =
      .ok [{ BidStart := 1, BidEnd := 5, Vid := 21 }] ∧
    mapGet ((mkMgr 10 (promotionHeap 10 21 22 0 0) (promotionPool 10) 0).Alloc
        { Fsize := 11, CodeMode := 1, BidCount := 1, Excludes := [], Discards := [] }
        (.ok [{ StartBid := 1, EndBid := 5 }])).1.modeInfos 1 =
      some { current := { vols := [], totalFree := 0 }, backup := { vols := [1], totalFree := 100 },
             totalThreshold := 10 } ∧
    ((mkMgr 10 (promotionHeap 10 21 22 0 0) (promotionPool 10) 0).Alloc
        { Fsize := 11, CodeMode := 1, BidCount := 1, Excludes := [], Discards := [] }
        (.ok [{ StartBid := 1, EndBid := 5 }])).1.notified = [] := by
  refine ⟨rfl, by decide, by decide⟩

/-- C4 (amended): for every threshold (with `10 × threshold` an `int64`), when
current holds exactly one volume with `free = threshold + 1` and backup exactly one
volume with `free = 10 × threshold`, an `Alloc` with `fsize = threshold + 1` and no
discards does not promote the backup (`current.totalFree = fsize` is not below
`max(threshold, fsize)`): after the call backup is as before and still holds its
volume, current does not contain that volume, no replenishment request has been
emitted, and the call returns the vid of the volume of current unless that vid is
excluded. -/
theorem promotion_scenario_no_promotion (thr vc vb uc ub : Nat) (reserve : Int)
    (preIdx bc : Nat) (ex : Slice Nat) (scopes : Slice BidScope)
    (hthr : 10 * thr < 9223372036854775808) :
    ∃ info1,
      mapGet ((mkMgr reserve (promotionHeap thr vc vb uc ub) (promotionPool thr) preIdx).Alloc
          (promotionArgs thr bc ex) (.ok scopes)).1.modeInfos 1 = some info1 ∧
      info1.backup = (promotionPool thr).backup ∧
      1 ∉ info1.current.vols ∧
      ((mkMgr reserve (promotionHeap thr vc vb uc ub) (promotionPool thr) preIdx).Alloc
          (promotionArgs thr bc ex) (.ok scopes)).1.notified = [] ∧
      (vc ∉ ex →
        ((mkMgr reserve (promotionHeap thr vc vb uc ub) (promotionPool thr) preIdx).Alloc
          (promotionArgs thr bc ex) (.ok scopes)).2 = .ok (allocRets scopes vc)) := by
  have hav : (mkMgr reserve (promotionHeap thr vc vb uc ub) (promotionPool thr) preIdx).allocVid
      (promotionArgs thr bc ex) =
      ({ ((mkMgr reserve (promotionHeap thr vc vb uc ub) (debitedPool thr) preIdx).getNextVid
            [0] (debitedPool thr) (promotionArgs thr bc ex)).1 with
          modeInfos := mapSet
            ((mkMgr reserve (promotionHeap thr vc vb uc ub) (debitedPool thr) preIdx).getNextVid
              [0] (debitedPool thr) (promotionArgs thr bc ex)).1.modeInfos
            1
            ((mkMgr reserve (promotionHeap thr vc vb uc ub) (debitedPool thr) preIdx).getNextVid
              [0] (debitedPool thr) (promotionArgs thr bc ex)).2.1 },
        ((mkMgr reserve (promotionHeap thr vc vb uc ub) (debitedPool thr) preIdx).getNextVid
            [0] (debitedPool thr) (promotionArgs thr bc ex)).2.2) := by
    rw [allocVid_eq (mkMgr reserve (promotionHeap thr vc vb uc ub) (promotionPool thr) preIdx)
        (promotionArgs thr bc ex) (promotionPool thr) rfl,
      promotion_getAvailableVols thr vc vb uc ub reserve preIdx bc ex hthr]
    rfl
  have hfr := getNextVid_frame
    (mkMgr reserve (promotionHeap thr vc vb uc ub) (debitedPool thr) preIdx)
    [0] (debitedPool thr) (promotionArgs thr bc ex)
    (by simp) (by intro p hp; exact hp)
  have hno := getNextVid_notified
    (mkMgr reserve (promotionHeap thr vc vb uc ub) (debitedPool thr) preIdx)
    [0] (debitedPool thr) (promotionArgs thr bc ex)
  refine ⟨_, ?_, hfr.1, ?_, ?_, ?_⟩
  · rw [alloc_fst, hav]
    simp only
    rw [hfr.2.2.2.1]
    exact mapGet_mapSet _ _ _ _ rfl
  · intro h1
    have := hfr.2.2.1.subset h1
    simp [debitedPool] at this
  · rw [alloc_fst, hav]
    exact hno
  · intro hvc
    have hres := getNextVid_single
      (mkMgr reserve (promotionHeap thr vc vb uc ub) (debitedPool thr) preIdx) 0
      (debitedPool thr) (promotionArgs thr bc ex) rfl
      (fun v2 h2 _ => modifySpace_succeeds v2 0 _ _
        (by rw [h2]; exact hvc) (by rw [h2]; exact Nat.le_refl _) (by rw [h2]; rfl))
    have h2 := alloc_snd_ok
      (mkMgr reserve (promotionHeap thr vc vb uc ub) (promotionPool thr) preIdx)
      (promotionArgs thr bc ex) scopes vc (by rw [hav]; exact hres)
    exact h2

theorem promotion_scenario_no_promotion_witness :
    ∃ info1,
      mapGet ((mkMgr 0 (promotionHeap 10 21 22 0 0) (promotionPool 10) 7).Alloc
          (promotionArgs 10 1 []) (.ok [{ StartBid := 1, EndBid := 5 }])).1.modeInfos 1
        = some info1 ∧
      info1.backup = (promotionPool 10).backup ∧
      1 ∉ info1.current.vols ∧
      ((mkMgr 0 (promotionHeap 10 21 22 0 0) (promotionPool 10) 7).Alloc
          (promotionArgs 10 1 []) (.ok [{ StartBid := 1, EndBid := 5 }])).1.notified = [] ∧
      (21 ∉ ([] : Slice Nat) →
        ((mkMgr 0 (promotionHeap 10 21 22 0 0) (promotionPool 10) 7).Alloc
          (promotionArgs 10 1 []) (.ok [{ StartBid := 1, EndBid := 5 }])).2 =
          .ok (allocRets [{ StartBid := 1, EndBid := 5 }] 21)) :=
  promotion_scenario_no_promotion 10 21 22 0 0 0 7 1 [] [{ StartBid := 1, EndBid := 5 }] (by decide)

/-! ## A deleted volume is not allocated again -/

theorem mem_mapSet {β : Type} (ms : List (Nat × β)) (k : Nat) (x : β) (e : Nat × β)
    (he : e ∈ mapSet ms k x) : e ∈ ms ∨ e = (k, x) := by
  induction ms with
  | nil => simp [mapSet] at he
  | cons a ms ih =>
    obtain ⟨k1, x1⟩ := a
    unfold mapSet at he
    by_cases hk : k1 = k
    · rw [if_pos hk] at he
      rcases List.mem_cons.mp he with h1 | h2
      · right; rw [h1, hk]
      · rcases ih h2 with h3 | h3
        · left; exact List.mem_cons_of_mem _ h3
        · right; exact h3
    · rw [if_neg hk] at he
      rcases List.mem_cons.mp he with h1 | h2
      · left; rw [h1]; exact List.mem_cons_self _ _
      · rcases ih h2 with h3 | h3
        · left; exact List.mem_cons_of_mem _ h3
        · right; exact h3

theorem mapGet_mem {β : Type} (ms : List (Nat × β)) (k : Nat) (x : β)
    (h : mapGet ms k = some x) : (k, x) ∈ ms := by
  induction ms with
  | nil => simp [mapGet] at h
  | cons a ms ih =>
    obtain ⟨k1, x1⟩ := a
    unfold mapGet at h
    by_cases hk : k1 = k
    · rw [if_pos hk] at h
      simp only [Option.some.injEq] at h
      rw [hk, h]; exact List.mem_cons_self _ _
    · rw [if_neg hk] at h
      exact List.mem_cons_of_mem _ (ih h)

theorem heapKeeps_refl (w : Nat) (h : Heap) : heapKeeps w h h :=
  fun _ hq => ⟨hq, fun hd => hd⟩

theorem heapKeeps_trans (w : Nat) (h1 h2 h3 : Heap) (h12 : heapKeeps w h1 h2)
    (h23 : heapKeeps w h2 h3) : heapKeeps w h1 h3 := by
  intro q hq
  have a := h23 q hq
  have b := h12 q a.1
  exact ⟨b.1, fun hd => a.2 (b.2 hd)⟩

theorem poolWithin_refl (w : Nat) (v : volumeMgr) : poolWithin w v v :=
  ⟨heapKeeps_refl w v.heap, fun _ hq => Or.inl hq⟩

theorem poolWithin_trans (w : Nat) (v1 v2 v3 : volumeMgr) (h12 : poolWithin w v1 v2)
    (h23 : poolWithin w v2 v3) : poolWithin w v1 v3 := by
  refine ⟨heapKeeps_trans w _ _ _ h12.1 h23.1, ?_⟩
  intro q hq
  rcases h23.2 q hq with h | h
  · rcases h12.2 q h with h2 | h2
    · left; exact h2
    · right
      intro hc
      exact h2 (h23.1 q hc).1
  · right; exact h

theorem vidRetired_of_poolWithin (w : Nat) (v v1 : volumeMgr) (hr : vidRetired v w)
    (hp : poolWithin w v v1) : vidRetired v1 w := by
  intro q hq hv
  rcases hp.2 q hq with h | h
  · have a := hp.1 q hv
    exact a.2 (hr q h a.1)
  · exact absurd hv h

/-- Writing back under the key of a pool a pool whose sets hold only pointers of
the pool read there adds no pointer to the pools of the manager. -/
theorem inPool_mapSet (v v1 : volumeMgr) (k : Nat) (info x : modeInfo)
    (hmode : mapGet v.modeInfos k = some info)
    (hv1 : v1.modeInfos = mapSet v.modeInfos k x)
    (hcur : ∀ q ∈ x.current.vols, q ∈ info.current.vols ∨ q ∈ info.backup.vols)
    (hbak : ∀ q ∈ x.backup.vols, q ∈ info.current.vols ∨ q ∈ info.backup.vols) (q : Ptr)
    (hq : inPool v1 q) : inPool v q := by
  obtain ⟨e, he, hin⟩ := hq
  rw [hv1] at he
  rcases mem_mapSet _ _ _ _ he with h1 | h1
  · exact ⟨e, h1, hin⟩
  · refine ⟨(k, info), mapGet_mem _ _ _ hmode, ?_⟩
    rw [h1] at hin
    rcases hin with h2 | h2
    · exact hcur q h2
    · exact hbak q h2

theorem heapKeeps_set_flagged (w : Nat) (h : Heap) (p : Ptr) :
    heapKeeps w h (h.set p (flagged h p)) := by
  intro q hq
  rw [deref_set_flagged_vid] at hq
  exact ⟨hq, fun hd => deref_set_flagged_deleted h p q hd⟩

theorem dealDisCard_keeps (w : Nat) (h : Heap) (m : modeInfo) (d : Nat) :
    heapKeeps w h (modeInfo.dealDisCard (h, m) d).1 ∧
    (∀ q ∈ (modeInfo.dealDisCard (h, m) d).2.current.vols, q ∈ m.current.vols) ∧
    (modeInfo.dealDisCard (h, m) d).2.backup = m.backup ∧
    (modeInfo.dealDisCard (h, m) d).2.totalThreshold = m.totalThreshold := by
  rcases dealDisCard_cases h m d with ⟨he, _⟩ | ⟨p, tf, _, _, he⟩
  · rw [he]; exact ⟨heapKeeps_refl w h, fun _ hq => hq, rfl, rfl⟩
  · rw [he]
    exact ⟨heapKeeps_set_flagged w h p, fun q hq => List.mem_of_mem_eraseP hq, rfl, rfl⟩

theorem foldl_dealDisCard_keeps (w : Nat) (ds : List Nat) :
    ∀ (h : Heap) (m : modeInfo),
      heapKeeps w h (ds.foldl modeInfo.dealDisCard (h, m)).1 ∧
      (∀ q ∈ (ds.foldl modeInfo.dealDisCard (h, m)).2.current.vols, q ∈ m.current.vols) ∧
      (ds.foldl modeInfo.dealDisCard (h, m)).2.backup = m.backup ∧
      (ds.foldl modeInfo.dealDisCard (h, m)).2.totalThreshold = m.totalThreshold := by
  induction ds with
  | nil => intro h m; exact ⟨heapKeeps_refl w h, fun _ hq => hq, rfl, rfl⟩
  | cons d ds ih =>
    intro h m
    rw [List.foldl_cons]
    have a := dealDisCard_keeps w h m d
    have b := ih (modeInfo.dealDisCard (h, m) d).1 (modeInfo.dealDisCard (h, m) d).2
    exact ⟨heapKeeps_trans w _ _ _ a.1 b.1, fun q hq => a.2.1 q (b.2.1 q hq),
      b.2.2.1.trans a.2.2.1, b.2.2.2.trans a.2.2.2⟩

theorem dealDisCards_keeps (w : Nat) (m : modeInfo) (h : Heap) (ds : Slice Nat) :
    heapKeeps w h (m.dealDisCards h ds).1 ∧
    (∀ q ∈ (m.dealDisCards h ds).2.current.vols, q ∈ m.current.vols) ∧
    (m.dealDisCards h ds).2.backup = m.backup ∧
    (m.dealDisCards h ds).2.totalThreshold = m.totalThreshold := by
  unfold modeInfo.dealDisCards
  by_cases hl : ds.length = 0
  · rw [if_pos hl]; exact ⟨heapKeeps_refl w h, fun _ hq => hq, rfl, rfl⟩
  · rw [if_neg hl]; exact foldl_dealDisCard_keeps w ds h m

theorem discard_poolWithin (w : Nat) (v : volumeMgr) (args : DiscardVolsArgs) :
    poolWithin w v (v.Discard args).1 := by
  unfold volumeMgr.Discard
  cases hm : mapGet v.modeInfos args.CodeMode with
  | none => exact poolWithin_refl w v
  | some info =>
    have hk := dealDisCards_keeps w info v.heap args.Discards
    refine ⟨hk.1, ?_⟩
    intro q hq
    left
    exact inPool_mapSet v _ args.CodeMode info _ hm rfl (fun q hq => Or.inl (hk.2.1 q hq))
      (fun q hq => Or.inr (by rw [hk.2.2.1] at hq; exact hq)) q hq

theorem needSwitchToBackup_cases (m : modeInfo) (fSize : Int) :
    ∃ tf flag err, m.needSwitchToBackup fSize =
      ({ m with current := { m.current with totalFree := tf } }, flag, err) := by
  by_cases h1 : int64 (m.current.totalFree + int64 (-fSize)) ≤ int64 m.totalThreshold
  · by_cases h2 : m.backup.vols.length = 0
    · refine ⟨int64 (int64 (m.current.totalFree + int64 (-fSize)) + fSize), false,
        some Error.ErrNoAvaliableVolume, ?_⟩
      unfold modeInfo.needSwitchToBackup
      simp only [volumes.UpdateTotalFree, volumes.List]
      rw [if_pos h1, if_pos h2]
    · refine ⟨int64 (int64 (m.current.totalFree + int64 (-fSize)) + fSize), true, none, ?_⟩
      unfold modeInfo.needSwitchToBackup
      simp only [volumes.UpdateTotalFree, volumes.List]
      rw [if_pos h1, if_neg h2]
  · refine ⟨int64 (m.current.totalFree + int64 (-fSize)), false, none, ?_⟩
    unfold modeInfo.needSwitchToBackup
    simp only [volumes.UpdateTotalFree, volumes.List]
    rw [if_neg h1]

theorem needSwitchToBackup_vols (m : modeInfo) (fSize : Int) :
    (m.needSwitchToBackup fSize).1.current.vols = m.current.vols ∧
    (m.needSwitchToBackup fSize).1.backup = m.backup := by
  obtain ⟨tf, flag, err, he⟩ := needSwitchToBackup_cases m fSize
  rw [he]
  exact ⟨rfl, rfl⟩

theorem debitAndList_vols (m : modeInfo) (fsize : Int) :
    (m.debitAndList fsize).1.current.vols = m.current.vols ∧
    (m.debitAndList fsize).1.backup = m.backup ∧
    (∀ p ∈ (m.debitAndList fsize).2, p ∈ m.current.vols) := by
  unfold modeInfo.debitAndList
  split
  · exact ⟨rfl, rfl, fun p hp => by simp at hp⟩
  · exact ⟨rfl, rfl, fun p hp => hp⟩

theorem getAvailableList_vols (m : modeInfo) (fsize : Int) (switchable : Bool) :
    (∀ q ∈ (m.getAvailableList fsize switchable).1.current.vols,
      q ∈ m.current.vols ∨ q ∈ m.backup.vols) ∧
    (∀ q ∈ (m.getAvailableList fsize switchable).1.backup.vols,
      q ∈ m.current.vols ∨ q ∈ m.backup.vols) ∧
    (∀ p ∈ (m.getAvailableList fsize switchable).2,
      p ∈ (m.getAvailableList fsize switchable).1.current.vols) := by
  unfold modeInfo.getAvailableList
  split
  · exact ⟨fun q hq => Or.inl hq, fun q hq => Or.inr hq, fun p hp => hp⟩
  · split
    · have hd := debitAndList_vols
        { m with current := m.backup, backup := { vols := [], totalFree := 0 } } fsize
      refine ⟨?_, ?_, ?_⟩
      · intro q hq; rw [hd.1] at hq; exact Or.inr hq
      · intro q hq; rw [hd.2.1] at hq; simp at hq
      · intro p hp; rw [hd.1]; exact hd.2.2 p hp
    · have hd := debitAndList_vols m fsize
      refine ⟨?_, ?_, ?_⟩
      · intro q hq; rw [hd.1] at hq; exact Or.inl hq
      · intro q hq; rw [hd.2.1] at hq; exact Or.inr hq
      · intro p hp; rw [hd.1]; exact hd.2.2 p hp

theorem allocNotify_state (v : volumeMgr) (mode : Nat) (count : Int) (b : Bool) :
    (v.allocNotify mode count b).1.heap = v.heap ∧
    (v.allocNotify mode count b).1.modeInfos = v.modeInfos := by
  unfold volumeMgr.allocNotify
  split <;> exact ⟨rfl, rfl⟩

theorem notifyAndReturn_state (v : volumeMgr) (mode : Nat) (b : Bool)
    (res : Except Error (Slice Ptr)) :
    (v.notifyAndReturn mode b res).1.heap = v.heap ∧
    (v.notifyAndReturn mode b res).1.modeInfos = v.modeInfos ∧
    (∀ vols, (v.notifyAndReturn mode b res).2 = .ok vols → res = .ok vols) := by
  have hs := allocNotify_state v mode v.DefaultAllocVolsNum b
  unfold volumeMgr.notifyAndReturn
  split
  · exact ⟨hs.1, hs.2, fun vols hv => by simp at hv⟩
  · exact ⟨hs.1, hs.2, fun vols hv => hv⟩

theorem getAvailableVolsList_state (v : volumeMgr) (args : AllocVolsArgs)
    (g : modeInfo × Slice Ptr) :
    (v.getAvailableVolsList args g).1.heap = v.heap ∧
    (v.getAvailableVolsList args g).1.modeInfos = mapSet v.modeInfos args.CodeMode g.1 ∧
    (∀ vols, (v.getAvailableVolsList args g).2 = .ok vols → vols = g.2 ∧ vols ≠ []) := by
  unfold volumeMgr.getAvailableVolsList
  by_cases h0 : g.2.length = 0
  · rw [if_pos h0]
    have hs := notifyAndReturn_state { v with modeInfos := mapSet v.modeInfos args.CodeMode g.1 }
      args.CodeMode false (.error Error.ErrNoAvaliableVolume)
    exact ⟨hs.1, hs.2.1, fun vols hv => by have := hs.2.2 vols hv; simp at this⟩
  · rw [if_neg h0]
    have hne : g.2 ≠ [] := fun he => h0 (by rw [he]; rfl)
    by_cases hb : (g.1.List true).length = 0
    · rw [if_pos hb]
      have hs := notifyAndReturn_state { v with modeInfos := mapSet v.modeInfos args.CodeMode g.1 }
        args.CodeMode true (.ok g.2)
      refine ⟨hs.1, hs.2.1, fun vols hv => ?_⟩
      have := hs.2.2 vols hv
      simp only [Except.ok.injEq] at this
      rw [← this]; exact ⟨rfl, hne⟩
    · rw [if_neg hb]
      refine ⟨rfl, rfl, fun vols hv => ?_⟩
      simp only [Except.ok.injEq] at hv
      rw [← hv]; exact ⟨rfl, hne⟩

/-- The state `getAvailableVolsSwitch` leaves: the memory untouched and, under the
key of the mode, a pool whose sets hold only pointers of the pool returned by
`needSwitchToBackup`; a returned candidate list is not empty and made of records
of the current set of that pool. -/
theorem getAvailableVolsSwitch_state (v : volumeMgr) (args : AllocVolsArgs)
    (ns : modeInfo × Bool × Option Error) :
    (v.getAvailableVolsSwitch args ns).1.heap = v.heap ∧
    ∃ x, (v.getAvailableVolsSwitch args ns).1.modeInfos = mapSet v.modeInfos args.CodeMode x ∧
      (∀ q ∈ x.current.vols, q ∈ ns.1.current.vols ∨ q ∈ ns.1.backup.vols) ∧
      (∀ q ∈ x.backup.vols, q ∈ ns.1.current.vols ∨ q ∈ ns.1.backup.vols) ∧
      (∀ vols, (v.getAvailableVolsSwitch args ns).2 = .ok vols →
        vols ≠ [] ∧ ∀ p ∈ vols, p ∈ x.current.vols) := by
  obtain ⟨m1, flag, oe⟩ := ns
  cases oe with
  | some err =>
    have hs := notifyAndReturn_state { v with modeInfos := mapSet v.modeInfos args.CodeMode m1 }
      args.CodeMode true (.error err)
    refine ⟨hs.1, m1, hs.2.1, fun q hq => Or.inl hq, fun q hq => Or.inr hq, fun vols hv => ?_⟩
    have := hs.2.2 vols hv
    simp at this
  | none =>
    have hs := getAvailableVolsList_state v args (m1.getAvailableList (int64 args.Fsize) flag)
    have hg := getAvailableList_vols m1 (int64 args.Fsize) flag
    refine ⟨hs.1, (m1.getAvailableList (int64 args.Fsize) flag).1, hs.2.1, hg.1, hg.2.1,
      fun vols hv => ?_⟩
    have h2 := hs.2.2 vols hv
    refine ⟨h2.2, fun p hp => ?_⟩
    rw [h2.1] at hp
    exact hg.2.2 p hp

theorem getAvailableVols_pool (w : Nat) (v : volumeMgr) (args : AllocVolsArgs) (info : modeInfo)
    (hmode : mapGet v.modeInfos args.CodeMode = some info) :
    poolWithin w v (v.getAvailableVols args).1 ∧
    (∀ vols, (v.getAvailableVols args).2 = .ok vols →
      vols ≠ [] ∧ ∃ info1, mapGet (v.getAvailableVols args).1.modeInfos args.CodeMode = some info1 ∧
        ∀ p ∈ vols, p ∈ info1.current.vols) := by
  rw [getAvailableVols_eq v args info hmode]
  have hk := dealDisCards_keeps w info v.heap args.Discards
  have hn := needSwitchToBackup_vols (info.dealDisCards v.heap args.Discards).2 (int64 args.Fsize)
  obtain ⟨hheap, x, hx, hcur, hbak, hok⟩ := getAvailableVolsSwitch_state
    { v with heap := (info.dealDisCards v.heap args.Discards).1 } args
    ((info.dealDisCards v.heap args.Discards).2.needSwitchToBackup (int64 args.Fsize))
  have hsub : ∀ q, (q ∈ ((info.dealDisCards v.heap args.Discards).2.needSwitchToBackup
        (int64 args.Fsize)).1.current.vols ∨
      q ∈ ((info.dealDisCards v.heap args.Discards).2.needSwitchToBackup
        (int64 args.Fsize)).1.backup.vols) → q ∈ info.current.vols ∨ q ∈ info.backup.vols := by
    intro q hq
    rw [hn.1, hn.2, hk.2.2.1] at hq
    rcases hq with h1 | h1
    · exact Or.inl (hk.2.1 q h1)
    · exact Or.inr h1
  refine ⟨⟨?_, ?_⟩, ?_⟩
  · rw [hheap]; exact hk.1
  · intro q hq
    left
    exact inPool_mapSet v _ args.CodeMode info x hmode hx
      (fun q hq => hsub q (hcur q hq)) (fun q hq => hsub q (hbak q hq)) q hq
  · intro vols hv
    have h2 := hok vols hv
    refine ⟨h2.1, x, ?_, h2.2⟩
    rw [hx]
    exact mapGet_mapSet _ _ _ _ hmode

theorem heapKeeps_set (w : Nat) (h : Heap) (p : Ptr) (x : volume)
    (hv : x.Vid = (deref h p).Vid) (hd : (deref h p).deleted = true → x.deleted = true) :
    heapKeeps w h (h.set p x) := by
  intro q hq
  rw [deref_set] at hq ⊢
  by_cases hc : p = q ∧ p < h.length
  · rw [if_pos hc] at hq ⊢
    rw [← hc.1]
    exact ⟨hv ▸ hq, hd⟩
  · rw [if_neg hc] at hq ⊢
    exact ⟨hq, fun h1 => h1⟩

theorem volumes_Delete_sub (s : volumes) (h : Heap) (vid : Nat) :
    (s.Delete h vid).1.vols.Sublist s.vols := by
  unfold volumes.Delete
  cases s.Get h vid with
  | none => exact List.Sublist.refl _
  | some q => exact List.eraseP_sublist _

theorem modeInfo_Delete_sub (m : modeInfo) (h : Heap) (vid : Nat) :
    (m.Delete h vid).current.vols.Sublist m.current.vols ∧
    (m.Delete h vid).backup.vols.Sublist m.backup.vols := by
  unfold modeInfo.Delete
  by_cases hf : (m.current.Delete h vid).2 = true
  · rw [if_pos hf]
    exact ⟨volumes_Delete_sub _ _ _, List.Sublist.refl _⟩
  · rw [if_neg hf]
    exact ⟨List.Sublist.refl _, volumes_Delete_sub _ _ _⟩

/-- What `modifySpace` keeps, whatever the volume: the records of vid `w` in memory,
the maps of the manager, and sets that only lose records. -/
theorem modifySpace_keeps (w : Nat) (v : volumeMgr) (p : Ptr) (m : modeInfo)
    (args : AllocVolsArgs) :
    heapKeeps w v.heap (v.modifySpace p m args).1.heap ∧
    (v.modifySpace p m args).1.modeInfos = v.modeInfos ∧
    (v.modifySpace p m args).2.1.current.vols.Sublist m.current.vols ∧
    (v.modifySpace p m args).2.1.backup.vols.Sublist m.backup.vols := by
  unfold volumeMgr.modifySpace
  simp only
  split
  · exact ⟨heapKeeps_refl w _, rfl, List.Sublist.refl _, List.Sublist.refl _⟩
  · split
    · exact ⟨heapKeeps_refl w _, rfl, List.Sublist.refl _, List.Sublist.refl _⟩
    · rename_i hex hfd
      have hlive : (deref v.heap p).deleted = true → False := fun h1 => hfd (Or.inr h1)
      split
      · have hs := modeInfo_Delete_sub m (v.heap.set p
            { Vid := (deref v.heap p).Vid,
              Used := uint64 (((deref v.heap p).Used : Int) + args.Fsize),
              Free := uint64 (((deref v.heap p).Free : Int) - args.Fsize),
              deleted := true }) (deref v.heap p).Vid
        exact ⟨heapKeeps_set w _ _ _ rfl (fun _ => rfl), rfl, hs.1, hs.2⟩
      · exact ⟨heapKeeps_set w _ _ _ rfl (fun h1 => (hlive h1).elim), rfl,
          List.Sublist.refl _, List.Sublist.refl _⟩

theorem getNextVidLoop_keeps (w : Nat) (vols : Slice Ptr) (args : AllocVolsArgs) (n : Nat) :
    ∀ (i : Nat) (v : volumeMgr) (m : modeInfo),
      heapKeeps w v.heap (volumeMgr.getNextVidLoop vols args i n v m).1.heap ∧
      (volumeMgr.getNextVidLoop vols args i n v m).1.modeInfos = v.modeInfos ∧
      (volumeMgr.getNextVidLoop vols args i n v m).2.1.current.vols.Sublist m.current.vols ∧
      (volumeMgr.getNextVidLoop vols args i n v m).2.1.backup.vols.Sublist m.backup.vols := by
  induction n with
  | zero =>
    intro i v m
    exact ⟨heapKeeps_refl w _, rfl, List.Sublist.refl _, List.Sublist.refl _⟩
  | succ n ih =>
    intro i v m
    have hk := modifySpace_keeps w v (vols.getD (i % vols.length) 0) m args
    unfold volumeMgr.getNextVidLoop
    simp only
    by_cases hs : (v.modifySpace (vols.getD (i % vols.length) 0) m args).2.2 = true
    · rw [if_pos hs]
      exact hk
    · rw [if_neg hs]
      have hfalse := modifySpace_false v _ m args (Bool.eq_false_iff.mpr hs)
      rw [hfalse]
      exact ih (i + 1) v m

/-- A successful walk selected a candidate whose record, in the memory the walk
started from, carries the returned vid and is not flagged deleted. -/
theorem getNextVidLoop_ok (vols : Slice Ptr) (args : AllocVolsArgs) (hne : vols ≠ []) (n : Nat) :
    ∀ (i : Nat) (v : volumeMgr) (m : modeInfo) (vid : Nat),
      (volumeMgr.getNextVidLoop vols args i n v m).2.2 = .ok vid →
      ∃ p ∈ vols, (deref v.heap p).Vid = vid ∧ (deref v.heap p).deleted = false := by
  induction n with
  | zero =>
    intro i v m vid h
    simp [volumeMgr.getNextVidLoop] at h
  | succ n ih =>
    intro i v m vid h
    unfold volumeMgr.getNextVidLoop at h
    simp only at h
    by_cases hs : (v.modifySpace (vols.getD (i % vols.length) 0) m args).2.2 = true
    · rw [if_pos hs] at h
      have ht := modifySpace_true v _ m args hs
      simp only [Except.ok.injEq] at h
      refine ⟨_, getD_mem_of_pos vols i hne, ?_, ht.2.1⟩
      rw [← ht.2.2]; exact h
    · rw [if_neg hs] at h
      have hfalse := modifySpace_false v _ m args (Bool.eq_false_iff.mpr hs)
      rw [hfalse] at h
      exact ih (i + 1) v m vid h

theorem getNextVid_keeps (w : Nat) (v : volumeMgr) (vols : Slice Ptr) (m : modeInfo)
    (args : AllocVolsArgs) :
    heapKeeps w v.heap (v.getNextVid vols m args).1.heap ∧
    (v.getNextVid vols m args).1.modeInfos = v.modeInfos ∧
    (v.getNextVid vols m args).2.1.current.vols.Sublist m.current.vols ∧
    (v.getNextVid vols m args).2.1.backup.vols.Sublist m.backup.vols := by
  unfold volumeMgr.getNextVid
  simp only
  split
  · exact ⟨heapKeeps_refl w _, rfl, List.Sublist.refl _, List.Sublist.refl _⟩
  · exact getNextVidLoop_keeps w vols args _ _ _ m

theorem getNextVid_ok (v : volumeMgr) (vols : Slice Ptr) (m : modeInfo) (args : AllocVolsArgs)
    (vid : Nat) (h : (v.getNextVid vols m args).2.2 = .ok vid) :
    ∃ p ∈ vols, (deref v.heap p).Vid = vid ∧ (deref v.heap p).deleted = false := by
  unfold volumeMgr.getNextVid at h
  simp only at h
  by_cases hl : vols.length = 0
  · rw [if_pos hl] at h; simp at h
  · rw [if_neg hl] at h
    have hne : vols ≠ [] := fun he => hl (by rw [he]; rfl)
    have h2 := getNextVidLoop_ok vols args hne _ _ _ m vid h
    exact h2

/-- A manager whose memory and pools are those of `v1` is within `v` when `v1` is. -/
theorem poolWithin_congr (w : Nat) (v v1 v2 : volumeMgr) (hp : poolWithin w v v1)
    (hh : v2.heap = v1.heap) (hm : v2.modeInfos = v1.modeInfos) : poolWithin w v v2 := by
  refine ⟨?_, ?_⟩
  · rw [hh]; exact hp.1
  · intro q hq
    have hq1 : inPool v1 q := by
      obtain ⟨e, he, hin⟩ := hq
      exact ⟨e, hm ▸ he, hin⟩
    rw [hh]
    exact hp.2 q hq1

/-- Vid selection keeps the pools within the pools before the call, and when every
pool record with vid `w` is flagged deleted it does not select `w`. -/
theorem allocVid_retired (w : Nat) (v : volumeMgr) (args : AllocVolsArgs)
    (hr : vidRetired v w) :
    poolWithin w v (v.allocVid args).1 ∧ ∀ vid, (v.allocVid args).2 = .ok vid → vid ≠ w := by
  cases hmode : mapGet v.modeInfos args.CodeMode with
  | none =>
    have he : v.allocVid args = (v, .error Error.ErrNoAvaliableVolume) := by
      unfold volumeMgr.allocVid
      rw [hmode]
    rw [he]
    exact ⟨poolWithin_refl w v, fun vid h => by simp at h⟩
  | some info =>
    rw [allocVid_eq v args info hmode]
    have hg := getAvailableVols_pool w v args info hmode
    generalize v.getAvailableVols args = g at hg
    obtain ⟨v1, res⟩ := g
    cases res with
    | error err =>
      exact ⟨hg.1, fun vid h => by simp at h⟩
    | ok vols =>
      obtain ⟨hne, info1, hinfo1, hsub⟩ := hg.2 vols rfl
      have hinfo1b : mapGet v1.modeInfos args.CodeMode = some info1 := hinfo1
      show poolWithin w v (match mapGet v1.modeInfos args.CodeMode with
          | none => (v1, Except.error Error.panic)
          | some info1 =>
            ({ (v1.getNextVid vols info1 args).1 with
                 modeInfos := mapSet (v1.getNextVid vols info1 args).1.modeInfos args.CodeMode
                   (v1.getNextVid vols info1 args).2.1 },
              (v1.getNextVid vols info1 args).2.2)).1 ∧
        ∀ vid, (match mapGet v1.modeInfos args.CodeMode with
          | none => (v1, Except.error Error.panic)
          | some info1 =>
            ({ (v1.getNextVid vols info1 args).1 with
                 modeInfos := mapSet (v1.getNextVid vols info1 args).1.modeInfos args.CodeMode
                   (v1.getNextVid vols info1 args).2.1 },
              (v1.getNextVid vols info1 args).2.2)).2 = .ok vid → vid ≠ w
      rw [hinfo1b]
      have hk := getNextVid_keeps w v1 vols info1 args
      have hr1 : vidRetired v1 w := vidRetired_of_poolWithin w v v1 hr hg.1
      refine ⟨poolWithin_trans w v v1 _ hg.1 ⟨hk.1, ?_⟩, ?_⟩
      · intro q hq
        left
        refine inPool_mapSet v1 _ args.CodeMode info1 (v1.getNextVid vols info1 args).2.1
          hinfo1b ?_ (fun q hq => Or.inl (hk.2.2.1.subset hq))
          (fun q hq => Or.inr (hk.2.2.2.subset hq)) q hq
        show mapSet (v1.getNextVid vols info1 args).1.modeInfos args.CodeMode _ = _
        rw [hk.2.1]
      · intro vid h
        obtain ⟨p, hp, hvid, hdel⟩ := getNextVid_ok v1 vols info1 args vid h
        intro hw
        have hin : inPool v1 p :=
          ⟨(args.CodeMode, info1), mapGet_mem _ _ _ hinfo1b, Or.inl (hsub p hp)⟩
        have hd := hr1 p hin (hvid.trans hw)
        rw [hdel] at hd
        exact Bool.noConfusion hd

/-- The same for `Alloc`: no returned record carries `w`. -/
theorem alloc_retired (w : Nat) (v : volumeMgr) (args : AllocVolsArgs)
    (bids : Except Error (Slice BidScope)) (hr : vidRetired v w) :
    poolWithin w v (v.Alloc args bids).1 ∧
    ∀ rets, (v.Alloc args bids).2 = .ok rets → ∀ r ∈ rets, r.Vid ≠ w := by
  have ha := allocVid_retired w v args hr
  unfold volumeMgr.Alloc
  cases bids with
  | error err => exact ⟨poolWithin_refl w v, fun rets h => by simp at h⟩
  | ok scopes =>
    generalize v.allocVid args = g at ha
    obtain ⟨v1, res⟩ := g
    cases res with
    | error err => exact ⟨ha.1, fun rets h => by simp at h⟩
    | ok vid =>
      refine ⟨ha.1, ?_⟩
      intro rets h r hrm
      simp only [Except.ok.injEq] at h
      rw [← h] at hrm
      obtain ⟨s, _, hs⟩ := List.mem_map.mp hrm
      rw [← hs]
      exact ha.2 vid rfl

theorem deref_append (h : Heap) (x : volume) (q : Ptr) :
    deref (h ++ [x]) q = if q = h.length then x else deref h q := by
  unfold deref
  by_cases hq : q = h.length
  · rw [if_pos hq, hq]
    simp [List.getD]
  · rw [if_neg hq]
    rcases Nat.lt_or_gt_of_ne hq with h1 | h1
    · simp [List.getD, List.getElem?_append_left h1]
    · have h2 : (h ++ [x]).length ≤ q := by simp; omega
      have h3 : h.length ≤ q := by omega
      simp [List.getD, List.getElem?_eq_none h2, List.getElem?_eq_none h3]

theorem heapKeeps_append (w : Nat) (h : Heap) (x : volume) (hx : x.Vid ≠ w) :
    heapKeeps w h (h ++ [x]) := by
  intro q hq
  rw [deref_append] at hq ⊢
  by_cases hc : q = h.length
  · rw [if_pos hc] at hq
    exact absurd hq hx
  · rw [if_neg hc] at hq ⊢
    exact ⟨hq, fun h1 => h1⟩

theorem modeInfo_Put_mem (m : modeInfo) (h : Heap) (p : Ptr) (b : Bool) (q : Ptr)
    (hq : q ∈ (m.Put h p b).current.vols ∨ q ∈ (m.Put h p b).backup.vols) :
    (q ∈ m.current.vols ∨ q ∈ m.backup.vols) ∨ q = p := by
  unfold modeInfo.Put at hq
  cases b with
  | true =>
    simp only [if_true, volumes.Put, List.mem_append, List.mem_singleton] at hq
    tauto
  | false =>
    simp only [Bool.false_eq_true, if_false, volumes.Put, List.mem_append,
      List.mem_singleton] at hq
    tauto

/-- Putting the delivered volumes, none of which has vid `w`, keeps the pools within
the pools before. -/
theorem putVolumeRets_poolWithin (w : Nat) (isInit isBackup : Bool) (codeMode len : Nat) :
    ∀ (rets : Slice AllocVolumeInfo) (index : Nat) (v v1 : volumeMgr),
      (∀ vol ∈ rets, vol.Vid ≠ w) →
      volumeMgr.putVolumeRets isInit isBackup codeMode len index rets v = some v1 →
      poolWithin w v v1 := by
  intro rets
  induction rets with
  | nil =>
    intro index v v1 _ h
    simp only [volumeMgr.putVolumeRets, Option.some.injEq] at h
    rw [← h]
    exact poolWithin_refl w v
  | cons vol rest ih =>
    intro index v v1 hno h
    unfold volumeMgr.putVolumeRets at h
    cases hm : mapGet v.modeInfos codeMode with
    | none => rw [hm] at h; simp at h
    | some info =>
      rw [hm] at h
      simp only at h
      have hrest := ih (index + 1) _ v1 (fun x hx => hno x (List.mem_cons_of_mem _ hx)) h
      refine poolWithin_trans w v _ v1 ⟨?_, ?_⟩ hrest
      · exact heapKeeps_append w v.heap (newVolume vol) (hno vol (List.mem_cons_self _ _))
      · intro q hq
        obtain ⟨e, he, hin⟩ := hq
        rcases mem_mapSet _ _ _ _ he with h1 | h1
        · exact Or.inl ⟨e, h1, hin⟩
        · rw [h1] at hin
          rcases modeInfo_Put_mem _ _ _ _ q hin with h2 | h2
          · exact Or.inl ⟨(codeMode, info), mapGet_mem _ _ _ hm, h2⟩
          · right
            show (deref (v.heap ++ [newVolume vol]) q).Vid ≠ w
            rw [deref_append, if_pos h2]
            exact hno vol (List.mem_cons_self _ _)

/-- A replenishment that delivers no volume with vid `w` keeps the pools within the
pools before. -/
theorem allocVolumeLoop_poolWithin (w : Nat) (v : volumeMgr) (mode : Nat)
    (volumeRets : Except Error (Slice AllocVolumeInfo))
    (hno : ¬ delivers w (.replenish mode volumeRets)) :
    poolWithin w v ((v.allocVolumeLoop mode volumeRets).getD v) := by
  unfold volumeMgr.allocVolumeLoop
  cases hch : mapGet v.allocChs mode with
  | none => exact poolWithin_refl w v
  | some ch =>
    cases ch with
    | none => exact poolWithin_refl w v
    | some wk =>
      cases volumeRets with
      | error err => exact poolWithin_congr w v v _ (poolWithin_refl w v) rfl rfl
      | ok rets =>
        have hno1 : ∀ vol ∈ rets, vol.Vid ≠ w := by
          intro vol hv hw
          exact hno ⟨vol, hv, hw⟩
        simp only
        cases hp : volumeMgr.putVolumeRets wk.args.isInit wk.args.isBackup wk.args.codeMode
            rets.length 0 rets v with
        | none => exact poolWithin_refl w v
        | some v1 =>
          have h1 := putVolumeRets_poolWithin w _ _ _ _ rets 0 v v1 hno1 hp
          simp only
          split
          · exact poolWithin_congr w v v1 _ h1 rfl rfl
          · exact poolWithin_congr w v v1 _ h1 rfl rfl

theorem step_poolWithin (w : Nat) (v : volumeMgr) (e : Event) (hr : vidRetired v w)
    (hno : ¬ delivers w e) : poolWithin w v (step v e) := by
  cases e with
  | alloc args bids => exact (alloc_retired w v args bids hr).1
  | discard args => exact discard_poolWithin w v args
  | replenish mode volumeRets => exact allocVolumeLoop_poolWithin w v mode volumeRets hno

theorem run_retired (w : Nat) (events : List Event) :
    ∀ (v : volumeMgr), vidRetired v w → (∀ e ∈ events, ¬ delivers w e) →
      vidRetired (run v events) w := by
  induction events with
  | nil => intro v hr _; exact hr
  | cons e rest ih =>
    intro v hr hno
    have h1 := step_poolWithin w v e hr (hno e (List.mem_cons_self _ _))
    exact ih (step v e) (vidRetired_of_poolWithin w v _ hr h1)
      (fun x hx => hno x (List.mem_cons_of_mem _ hx))

/-- C2 (counterexample): in `redeliverMgr` the record of vid 11 is flagged deleted
by a `Discard`; the next replenishment delivers a volume with vid 11 and the
following `Alloc` returns vid 11. -/
theorem retired_vid_redelivered :
    (deref redeliverMgr.heap 0).Vid = 11 ∧
    (deref (run redeliverMgr [.discard { CodeMode := 1, Discards := [11] }]).heap 0).deleted = true ∧
    (deref (run redeliverMgr (redeliverEvents 11)).heap 0).deleted = true ∧
    ((run redeliverMgr (redeliverEvents 11)).Alloc
        { Fsize := 10, CodeMode := 1, BidCount := 1, Excludes := [], Discards := [] }
        (.ok [{ StartBid := 1, EndBid := 5 }])).2 =
      .ok [{ BidStart := 1, BidEnd := 5, Vid := 11 }] := by
  refine ⟨by decide, by decide, by decide, rfl⟩

/-- C2 (amended): for every vid `w`, every manager in which every pool record with
vid `w` has its `deleted` flag set, and every sequence of `Alloc`, `Discard` and
replenishment steps in which no replenishment delivers a volume with vid `w`, an
`Alloc` after the sequence returns no record carrying `w`. -/
theorem retired_vid_never_allocated (w : Nat) (v : volumeMgr) (events : List Event)
    (args : AllocVolsArgs) (bids : Except Error (Slice BidScope))
    (hr : vidRetired v w) (hno : ∀ e ∈ events, ¬ delivers w e)
    (rets : Slice AllocRet) (hok : ((run v events).Alloc args bids).2 = .ok rets) :
    ∀ r ∈ rets, r.Vid ≠ w :=
  (alloc_retired w (run v events) args bids (run_retired w events v hr hno)).2 rets hok

theorem retired_vid_never_allocated_witness :
    vidRetired (run redeliverMgr [.discard { CodeMode := 1, Discards := [11] }]) 11 ∧
    (∀ e ∈ redeliverEvents 14, ¬ delivers 11 e) ∧
    ((run (run redeliverMgr [.discard { CodeMode := 1, Discards := [11] }])
        (redeliverEvents 14)).Alloc
        { Fsize := 10, CodeMode := 1, BidCount := 1, Excludes := [], Discards := [] }
        (.ok [{ StartBid := 1, EndBid := 5 }])).2 =
      .ok [{ BidStart := 1, BidEnd := 5, Vid := 14 }] ∧
    ∀ r ∈ [({ BidStart := 1, BidEnd := 5, Vid := 14 } : AllocRet)], r.Vid ≠ 11 := by
  have hr : vidRetired (run redeliverMgr [.discard { CodeMode := 1, Discards := [11] }]) 11 := by
    intro q hq hv
    obtain ⟨e, he, hin⟩ := hq
    have hm : (run redeliverMgr [.discard { CodeMode := 1, Discards := [11] }]).modeInfos =
        [(1, { current := { vols := [1], totalFree := 1000 },
               backup := { vols := [2], totalFree := 1000 }, totalThreshold := 100 })] := by
      decide
    rw [hm] at he
    simp only [List.mem_singleton] at he
    subst he
    simp only [List.mem_singleton] at hin
    rcases hin with h1 | h1
    · subst h1; revert hv; decide
    · subst h1; revert hv; decide
  have hno : ∀ e ∈ redeliverEvents 14, ¬ delivers 11 e := by
    intro e he
    simp only [redeliverEvents, List.mem_cons, List.mem_singleton, List.not_mem_nil,
      or_false] at he
    rcases he with h1 | h1
    · subst h1; exact fun h => h
    · subst h1
      rintro ⟨vol, hv, hw⟩
      simp only [List.mem_singleton] at hv
      subst hv
      exact absurd hw (by decide)
  exact ⟨hr, hno, rfl,
    retired_vid_never_allocated 11 _ (redeliverEvents 14)
      { Fsize := 10, CodeMode := 1, BidCount := 1, Excludes := [], Discards := [] }
      (.ok [{ StartBid := 1, EndBid := 5 }]) hr hno _ rfl⟩

/-! ## The records returned by `Alloc`, unknown modes, and `preIdx` -/

/-- C11: a successful `Alloc` got bid scopes from the bid allocator and a vid from
vid selection and returns one record per scope, in the order of the scopes, the
i-th record carrying the bounds of the i-th scope and that vid; when the bid
allocator fails, `Alloc` returns its error and the manager, with every pool and
`preIdx`, is as before the call. -/
theorem alloc_records_follow_bid_scopes (v : volumeMgr) (args : AllocVolsArgs)
    (bids : Except Error (Slice BidScope)) :
    (∀ err, bids = .error err → v.Alloc args bids = (v, .error err)) ∧
    (∀ rets, (v.Alloc args bids).2 = .ok rets →
      ∃ (scopes : Slice BidScope) (vid : Nat), bids = .ok scopes ∧ (v.allocVid args).2 = .ok vid ∧
        (v.Alloc args bids).1 = (v.allocVid args).1 ∧
        rets.length = scopes.length ∧
        (∀ (i : Nat) (s : BidScope), scopes[i]? = some s →
          rets[i]? = some ({ BidStart := s.StartBid, BidEnd := s.EndBid, Vid := vid } : AllocRet)) ∧
        ∀ r ∈ rets, r.Vid = vid) := by
  cases bids with
  | error err =>
    refine ⟨fun e h => ?_, fun rets h => ?_⟩
    · cases h; rfl
    · simp [volumeMgr.Alloc] at h
  | ok scopes =>
    refine ⟨fun e h => (by cases h), fun rets h => ?_⟩
    rw [alloc_ok_eq] at h ⊢
    generalize v.allocVid args = g at h ⊢
    obtain ⟨v1, res⟩ := g
    cases res with
    | error err => simp at h
    | ok vid =>
      simp only [Except.ok.injEq] at h
      refine ⟨scopes, vid, rfl, rfl, rfl, ?_, ?_, ?_⟩
      · rw [← h, List.length_map]
      · intro i s hs
        rw [← h, List.getElem?_map, hs]
        rfl
      · intro r hr
        rw [← h] at hr
        obtain ⟨s, _, hs⟩ := List.mem_map.mp hr
        rw [← hs]

theorem alloc_records_follow_bid_scopes_witness :
    ((mkMgr 10 twoVolHeap twoVolPool 0).Alloc
        { Fsize := 10, CodeMode := 1, BidCount := 2, Excludes := [], Discards := [] }
        (.ok [{ StartBid := 1, EndBid := 5 }, { StartBid := 9, EndBid := 12 }])).2 =
      .ok [{ BidStart := 1, BidEnd := 5, Vid := 12 }, { BidStart := 9, BidEnd := 12, Vid := 12 }] ∧
    ∃ (scopes : Slice BidScope) (vid : Nat),
      (.ok [{ StartBid := 1, EndBid := 5 }, { StartBid := 9, EndBid := 12 }] :
        Except Error (Slice BidScope)) = .ok scopes ∧
      ((mkMgr 10 twoVolHeap twoVolPool 0).allocVid
        { Fsize := 10, CodeMode := 1, BidCount := 2, Excludes := [], Discards := [] }).2 = .ok vid ∧
      ((mkMgr 10 twoVolHeap twoVolPool 0).Alloc
        { Fsize := 10, CodeMode := 1, BidCount := 2, Excludes := [], Discards := [] }
        (.ok [{ StartBid := 1, EndBid := 5 }, { StartBid := 9, EndBid := 12 }])).1 =
      ((mkMgr 10 twoVolHeap twoVolPool 0).allocVid
        { Fsize := 10, CodeMode := 1, BidCount := 2, Excludes := [], Discards := [] }).1 ∧
      [({ BidStart := 1, BidEnd := 5, Vid := 12 } : AllocRet),
        { BidStart := 9, BidEnd := 12, Vid := 12 }].length = scopes.length ∧
      (∀ (i : Nat) (s : BidScope), scopes[i]? = some s →
        [({ BidStart := 1, BidEnd := 5, Vid := 12 } : AllocRet),
          { BidStart := 9, BidEnd := 12, Vid := 12 }][i]? =
          some ({ BidStart := s.StartBid, BidEnd := s.EndBid, Vid := vid } : AllocRet)) ∧
      ∀ r ∈ [({ BidStart := 1, BidEnd := 5, Vid := 12 } : AllocRet),
          { BidStart := 9, BidEnd := 12, Vid := 12 }], r.Vid = vid :=
  ⟨rfl,
   (alloc_records_follow_bid_scopes (mkMgr 10 twoVolHeap twoVolPool 0)
      { Fsize := 10, CodeMode := 1, BidCount := 2, Excludes := [], Discards := [] }
      (.ok [{ StartBid := 1, EndBid := 5 }, { StartBid := 9, EndBid := 12 }])).2 _ rfl⟩

/-- C12 (counterexample): an `Alloc` for mode `2`, which has no pool, fails with
`ErrNoAvaliableVolume`, the very error of an `Alloc` for mode `1` whose candidates
are all excluded. -/
theorem alloc_unknown_mode_same_error :
    mapGet (mkMgr 10 twoVolHeap twoVolPool 0).modeInfos 2 = none ∧
    ((mkMgr 10 twoVolHeap twoVolPool 0).Alloc
        { Fsize := 10, CodeMode := 2, BidCount := 1, Excludes := [], Discards := [] }
        (.ok [{ StartBid := 1, EndBid := 5 }])).2 = .error Error.ErrNoAvaliableVolume ∧
    ((mkMgr 10 twoVolHeap twoVolPool 0).Alloc
        { Fsize := 10, CodeMode := 1, BidCount := 1, Excludes := [11, 12], Discards := [] }
        (.ok [{ StartBid := 1, EndBid := 5 }])).2 = .error Error.ErrNoAvaliableVolume :=
  ⟨by decide, rfl, rfl⟩

/-- C12 (amended): an `Alloc` whose mode has no pool fails and leaves the whole
manager as it was; its error is `ErrNoAvaliableVolume` when the bid allocator
answered, else the error of the bid allocator. -/
theorem alloc_unknown_mode (v : volumeMgr) (args : AllocVolsArgs)
    (bids : Except Error (Slice BidScope))
    (hmode : mapGet v.modeInfos args.CodeMode = none) :
    v.Alloc args bids =
      (v, .error (match bids with
                  | .ok _ => Error.ErrNoAvaliableVolume
                  | .error err => err)) := by
  cases bids with
  | error err => rfl
  | ok scopes =>
    have he : v.allocVid args = (v, .error Error.ErrNoAvaliableVolume) := by
      unfold volumeMgr.allocVid
      rw [hmode]
    rw [alloc_ok_eq, he]

theorem alloc_unknown_mode_witness :
    (mkMgr 10 twoVolHeap twoVolPool 0).Alloc
        { Fsize := 10, CodeMode := 2, BidCount := 1, Excludes := [], Discards := [] }
        (.ok [{ StartBid := 1, EndBid := 5 }]) =
      (mkMgr 10 twoVolHeap twoVolPool 0, .error Error.ErrNoAvaliableVolume) :=
  alloc_unknown_mode (mkMgr 10 twoVolHeap twoVolPool 0)
    { Fsize := 10, CodeMode := 2, BidCount := 1, Excludes := [], Discards := [] }
    (.ok [{ StartBid := 1, EndBid := 5 }]) (by decide)

theorem allocNotify_preIdx (v : volumeMgr) (mode : Nat) (count : Int) (b : Bool) :
    (v.allocNotify mode count b).1.preIdx = v.preIdx := by
  unfold volumeMgr.allocNotify
  split <;> rfl

theorem notifyAndReturn_preIdx (v : volumeMgr) (mode : Nat) (b : Bool)
    (res : Except Error (Slice Ptr)) :
    (v.notifyAndReturn mode b res).1.preIdx = v.preIdx := by
  have hs := allocNotify_preIdx v mode v.DefaultAllocVolsNum b
  unfold volumeMgr.notifyAndReturn
  split
  · exact hs
  · exact hs

theorem getAvailableVolsList_preIdx (v : volumeMgr) (args : AllocVolsArgs)
    (g : modeInfo × Slice Ptr) :
    (v.getAvailableVolsList args g).1.preIdx = v.preIdx := by
  unfold volumeMgr.getAvailableVolsList
  by_cases h0 : g.2.length = 0
  · rw [if_pos h0]
    exact notifyAndReturn_preIdx _ _ _ _
  · rw [if_neg h0]
    by_cases hb : (g.1.List true).length = 0
    · rw [if_pos hb]
      exact notifyAndReturn_preIdx _ _ _ _
    · rw [if_neg hb]

theorem getAvailableVolsSwitch_preIdx (v : volumeMgr) (args : AllocVolsArgs)
    (ns : modeInfo × Bool × Option Error) :
    (v.getAvailableVolsSwitch args ns).1.preIdx = v.preIdx := by
  obtain ⟨m1, flag, oe⟩ := ns
  cases oe with
  | some err =>
    exact notifyAndReturn_preIdx
      { v with modeInfos := mapSet v.modeInfos args.CodeMode m1 } args.CodeMode true (.error err)
  | none =>
    exact getAvailableVolsList_preIdx v args (m1.getAvailableList (int64 args.Fsize) flag)

/-- The candidate lookup leaves `preIdx` as it is. -/
theorem getAvailableVols_preIdx (v : volumeMgr) (args : AllocVolsArgs) :
    (v.getAvailableVols args).1.preIdx = v.preIdx := by
  cases hmode : mapGet v.modeInfos args.CodeMode with
  | none =>
    have he : v.getAvailableVols args = (v, .error Error.panic) := by
      unfold volumeMgr.getAvailableVols
      rw [hmode]
    rw [he]
  | some info =>
    rw [getAvailableVols_eq v args info hmode]
    exact getAvailableVolsSwitch_preIdx
      { v with heap := (info.dealDisCards v.heap args.Discards).1 } args _

theorem modifySpace_preIdx (v : volumeMgr) (p : Ptr) (m : modeInfo) (args : AllocVolsArgs) :
    (v.modifySpace p m args).1.preIdx = v.preIdx := by
  unfold volumeMgr.modifySpace
  simp only
  split
  · rfl
  · split
    · rfl
    · split <;> rfl

theorem getNextVidLoop_preIdx (vols : Slice Ptr) (args : AllocVolsArgs) (n : Nat) :
    ∀ (i : Nat) (v : volumeMgr) (m : modeInfo),
      (volumeMgr.getNextVidLoop vols args i n v m).1.preIdx = v.preIdx := by
  induction n with
  | zero => intro i v m; rfl
  | succ n ih =>
    intro i v m
    have hk := modifySpace_preIdx v (vols.getD (i % vols.length) 0) m args
    unfold volumeMgr.getNextVidLoop
    simp only
    by_cases hs : (v.modifySpace (vols.getD (i % vols.length) 0) m args).2.2 = true
    · rw [if_pos hs]
      exact hk
    · rw [if_neg hs]
      have hfalse := modifySpace_false v _ m args (Bool.eq_false_iff.mpr hs)
      rw [hfalse]
      exact ih (i + 1) v m

/-- The walk adds one to `preIdx`, in `uint64`. -/
theorem getNextVid_preIdx (v : volumeMgr) (vols : Slice Ptr) (m : modeInfo)
    (args : AllocVolsArgs) :
    (v.getNextVid vols m args).1.preIdx = (v.preIdx + 1) % 18446744073709551616 := by
  unfold volumeMgr.getNextVid
  simp only
  split
  · rfl
  · have h := getNextVidLoop_preIdx vols args vols.length
      ((v.preIdx + 1) % 18446744073709551616 % vols.length)
      { v with preIdx := (v.preIdx + 1) % 18446744073709551616 } m
    exact h

/-- The counter after vid selection: as before when the call ends before the walk,
one more (in `uint64`) when it reaches the walk, which every successful call does. -/
theorem allocVid_preIdx (v : volumeMgr) (args : AllocVolsArgs) :
    ((v.allocVid args).1.preIdx = v.preIdx ∨
      (v.allocVid args).1.preIdx = (v.preIdx + 1) % 18446744073709551616) ∧
    ∀ vid, (v.allocVid args).2 = .ok vid →
      (v.allocVid args).1.preIdx = (v.preIdx + 1) % 18446744073709551616 := by
  cases hmode : mapGet v.modeInfos args.CodeMode with
  | none =>
    have he : v.allocVid args = (v, .error Error.ErrNoAvaliableVolume) := by
      unfold volumeMgr.allocVid
      rw [hmode]
    rw [he]
    exact ⟨Or.inl rfl, fun vid h => by simp at h⟩
  | some info =>
    rw [allocVid_eq v args info hmode]
    have hg := getAvailableVols_preIdx v args
    generalize v.getAvailableVols args = g at hg
    obtain ⟨v1, res⟩ := g
    cases res with
    | error err => exact ⟨Or.inl hg, fun vid h => by simp at h⟩
    | ok vols =>
      have hg1 : v1.preIdx = v.preIdx := hg
      cases hm1 : mapGet v1.modeInfos args.CodeMode with
      | none =>
        simp only [hm1]
        exact ⟨Or.inl hg1, fun vid h => by simp at h⟩
      | some info1 =>
        simp only [hm1]
        have hk := getNextVid_preIdx v1 vols info1 args
        rw [hg1] at hk
        exact ⟨Or.inr hk, fun vid _ => hk⟩

/-- C13 (counterexample): an `Alloc` whose bid allocation fails leaves `preIdx` at
5, and a successful `Alloc` at `preIdx = 2^64 - 1` leaves it at 0. -/
theorem alloc_preIdx_not_increasing :
    ((mkMgr 10 twoVolHeap twoVolPool 5).Alloc
        { Fsize := 10, CodeMode := 1, BidCount := 1, Excludes := [], Discards := [] }
        (.error (Error.external 500))).1.preIdx = 5 ∧
    ((mkMgr 10 twoVolHeap twoVolPool 18446744073709551615).Alloc
        { Fsize := 10, CodeMode := 1, BidCount := 1, Excludes := [], Discards := [] }
        (.ok [{ StartBid := 1, EndBid := 5 }])).2 =
      .ok [{ BidStart := 1, BidEnd := 5, Vid := 11 }] ∧
    ((mkMgr 10 twoVolHeap twoVolPool 18446744073709551615).Alloc
        { Fsize := 10, CodeMode := 1, BidCount := 1, Excludes := [], Discards := [] }
        (.ok [{ StartBid := 1, EndBid := 5 }])).1.preIdx = 0 :=
  ⟨rfl, rfl, by decide⟩

/-- C13 (amended): for every manager whose `preIdx` is below `2^64 - 1` and every
`Alloc` call, `preIdx` after the call is `preIdx` or `preIdx + 1`, hence not below
its value before, and it is `preIdx + 1` whenever the call succeeds. -/
theorem alloc_preIdx_advances (v : volumeMgr) (args : AllocVolsArgs)
    (bids : Except Error (Slice BidScope)) (hlt : v.preIdx < 18446744073709551615) :
    v.preIdx ≤ (v.Alloc args bids).1.preIdx ∧
    ((v.Alloc args bids).1.preIdx = v.preIdx ∨ (v.Alloc args bids).1.preIdx = v.preIdx + 1) ∧
    ∀ rets, (v.Alloc args bids).2 = .ok rets → (v.Alloc args bids).1.preIdx = v.preIdx + 1 := by
  have hmod : (v.preIdx + 1) % 18446744073709551616 = v.preIdx + 1 :=
    Nat.mod_eq_of_lt (by omega)
  cases bids with
  | error err =>
    exact ⟨Nat.le_refl _, Or.inl rfl, fun rets h => by simp [volumeMgr.Alloc] at h⟩
  | ok scopes =>
    have ha := allocVid_preIdx v args
    rw [hmod] at ha
    rw [alloc_ok_eq]
    generalize v.allocVid args = g at ha
    obtain ⟨v1, res⟩ := g
    cases res with
    | error err =>
      refine ⟨?_, ha.1, fun rets h => by simp at h⟩
      rcases ha.1 with h | h
      · exact Nat.le_of_eq h.symm
      · show v.preIdx ≤ v1.preIdx
        have h1 : v1.preIdx = v.preIdx + 1 := h
        omega
    | ok vid =>
      have h1 : v1.preIdx = v.preIdx + 1 := ha.2 vid rfl
      exact ⟨by show v.preIdx ≤ v1.preIdx; omega, Or.inr h1, fun rets _ => h1⟩

theorem alloc_preIdx_advances_witness :
    (7 : Nat) < 18446744073709551615 ∧
    ((mkMgr 10 twoVolHeap twoVolPool 7).Alloc
        { Fsize := 10, CodeMode := 1, BidCount := 1, Excludes := [], Discards := [] }
        (.ok [{ StartBid := 1, EndBid := 5 }])).2 =
      .ok [{ BidStart := 1, BidEnd := 5, Vid := 11 }] ∧
    ((mkMgr 10 twoVolHeap twoVolPool 7).Alloc
        { Fsize := 10, CodeMode := 1, BidCount := 1, Excludes := [], Discards := [] }
        (.ok [{ StartBid := 1, EndBid := 5 }])).1.preIdx = 7 + 1 :=
  ⟨by decide, rfl,
   (alloc_preIdx_advances (mkMgr 10 twoVolHeap twoVolPool 7)
      { Fsize := 10, CodeMode := 1, BidCount := 1, Excludes := [], Discards := [] }
      (.ok [{ StartBid := 1, EndBid := 5 }]) (by decide)).2.2 _ rfl⟩

/-! ## Service controller: selection of a host -/

theorem isPunish_iff (h : hostItem) (now : Int) :
    h.isPunish now = true ↔ now < h.punishTimeUnix * 1000000000 := by
  unfold hostItem.isPunish timeSince
  rw [decide_eq_true_iff]
  omega

theorem isPunish_false_iff (h : hostItem) (now : Int) :
    h.isPunish now = false ↔ h.punishTimeUnix * 1000000000 ≤ now := by
  rw [← Bool.not_eq_true, isPunish_iff]
  omega

theorem strGet_strSet {β : Type} (ms : List (String × β)) (k : String) (x y : β)
    (hk : strGet ms k = some x) : strGet (strSet ms k y) k = some y := by
  induction ms with
  | nil => simp [strGet] at hk
  | cons a ms ih =>
    obtain ⟨k1, x1⟩ := a
    unfold strSet
    by_cases hk1 : k1 = k
    · simp [hk1, strGet]
    · simp only [hk1, if_false, strGet] at hk ⊢
      exact ih hk

theorem strGet_strSet_ne {β : Type} (ms : List (String × β)) (k n : String) (y : β)
    (hn : n ≠ k) : strGet (strSet ms k y) n = strGet ms n := by
  induction ms with
  | nil => rfl
  | cons a ms ih =>
    obtain ⟨k1, x1⟩ := a
    by_cases hk1 : k1 = k
    · subst hk1
      have hk2 : ¬ k1 = n := fun h => hn h.symm
      simp [strSet, strGet, hk2, ih]
    · by_cases hk2 : k1 = n
      · subst hk2
        simp [strSet, strGet, hk1]
      · simp [strSet, strGet, hk1, hk2, ih]

theorem length_eraseIdx_lt (l : Slice Ptr) (i : Nat) (hi : i < l.length) :
    (l.eraseIdx i).length + 1 = l.length := by
  induction l generalizing i with
  | nil => simp at hi
  | cons a t ih =>
    cases i with
    | zero => simp
    | succ i =>
      simp only [List.eraseIdx_cons_succ, List.length_cons]
      have := ih i (by simpa using hi)
      omega

theorem filter_eraseIdx (P : Ptr → Bool) (l : Slice Ptr) (i : Nat) (hi : i < l.length)
    (hP : P (l.getD i 0) = false) : (l.eraseIdx i).filter P = l.filter P := by
  induction l generalizing i with
  | nil => simp at hi
  | cons a t ih =>
    cases i with
    | zero =>
      have ha : P a = false := by simpa using hP
      simp [List.filter_cons, ha]
    | succ i =>
      have h1 := ih i (by simpa using hi) (by simpa using hP)
      simp only [List.eraseIdx_cons_succ, List.filter_cons, h1]

theorem getD_mem_of_lt (l : Slice Ptr) (i : Nat) (hi : i < l.length) : l.getD i 0 ∈ l := by
  rw [List.getD_eq_getElem _ _ hi]
  exact List.getElem_mem _

/-- The loop of `GetServiceHost` started on the published roster `l` with more
passes than `l` has entries: it ends; memory, directory and configuration are
untouched; the published roster `l1` is `l` without some entries punished at `now`,
the others in their order; a returned host is the host of an entry of `l1` not
punished at `now`; an error is `no any host of` and `l1` is empty. -/
theorem GetServiceHostLoop_spec (name : String) (now : Int) (rand : Nat → Nat) :
    ∀ (fuel k : Nat) (l : Slice Ptr) (s : serviceControllerImpl),
      l.length < fuel → strGet s.serviceHosts name = some (some l) →
      ∃ s1 res l1,
        serviceControllerImpl.GetServiceHostLoop name now rand fuel k l s = some (s1, res) ∧
        s1.mem = s.mem ∧ s1.allServices = s.allServices ∧ s1.config = s.config ∧
        (∀ n, n ≠ name → strGet s1.serviceHosts n = strGet s.serviceHosts n) ∧
        strGet s1.serviceHosts name = some (some l1) ∧
        l1.Sublist l ∧
        l1.filter (fun p => (derefItem s.mem p).isPunish now = false) =
          l.filter (fun p => (derefItem s.mem p).isPunish now = false) ∧
        (∀ host, res = .ok host →
          ∃ p ∈ l1, (derefItem s.mem p).isPunish now = false ∧ (derefItem s.mem p).host = host) ∧
        (∀ e, res = .error e → e = .noAnyHost name ∧ l1 = []) := by
  intro fuel
  induction fuel with
  | zero => intro k l s h; omega
  | succ fuel ih =>
    intro k l s hlen hl
    unfold serviceControllerImpl.GetServiceHostLoop
    by_cases h0 : l.length = 0
    · rw [if_pos h0]
      have hnil : l = [] := List.length_eq_zero.mp h0
      refine ⟨s, _, l, rfl, rfl, rfl, rfl, fun _ _ => rfl, hl, List.Sublist.refl _, rfl, ?_, ?_⟩
      · intro host h; simp at h
      · intro e h
        simp only [Except.error.injEq] at h
        exact ⟨h.symm, hnil⟩
    · rw [if_neg h0]
      have hpos : 0 < l.length := Nat.pos_of_ne_zero h0
      have hidx : rand k % l.length < l.length := Nat.mod_lt _ hpos
      simp only
      by_cases hp : (derefItem s.mem (l.getD (rand k % l.length) 0)).isPunish now = false
      · rw [if_pos hp]
        refine ⟨s, _, l, rfl, rfl, rfl, rfl, fun _ _ => rfl, hl, List.Sublist.refl _, rfl, ?_, ?_⟩
        · intro host h
          simp only [Except.ok.injEq] at h
          exact ⟨_, getD_mem_of_lt l _ hidx, hp, h⟩
        · intro e h; simp at h
      · rw [if_neg hp]
        have hlen1 := length_eraseIdx_lt l _ hidx
        have hl1 : strGet (strSet s.serviceHosts name (some (l.eraseIdx (rand k % l.length)))) name =
            some (some (l.eraseIdx (rand k % l.length))) := strGet_strSet _ _ _ _ hl
        obtain ⟨s1, res, l1, hrun, hmem, hall, hcfg, hoth, hget, hsub, hfil, hok, herr⟩ :=
          ih (k + 1) (l.eraseIdx (rand k % l.length))
            { s with serviceHosts :=
                strSet s.serviceHosts name (some (l.eraseIdx (rand k % l.length))) }
            (by omega) hl1
        refine ⟨s1, res, l1, hrun, hmem, hall, hcfg, ?_, hget,
          hsub.trans (List.eraseIdx_sublist _ _), ?_, hok, herr⟩
        · intro n hn
          rw [hoth n hn]
          exact strGet_strSet_ne _ _ _ _ hn
        · rw [hfil]
          exact filter_eraseIdx _ l _ hidx (by simpa using hp)

/-- What `GetServiceHost` does on a published roster `l`, from the loop. -/
theorem GetServiceHost_roster (s : serviceControllerImpl) (name : String) (now : Int)
    (rand : Nat → Nat) (l : Slice Ptr) (hl : strGet s.serviceHosts name = some (some l)) :
    ∃ s1 res l1,
      s.GetServiceHost name now rand = some (s1, res) ∧
      s1.mem = s.mem ∧ s1.allServices = s.allServices ∧ s1.config = s.config ∧
      (∀ n, n ≠ name → strGet s1.serviceHosts n = strGet s.serviceHosts n) ∧
      strGet s1.serviceHosts name = some (some l1) ∧
      l1.Sublist l ∧
      l1.filter (fun p => (derefItem s.mem p).isPunish now = false) =
        l.filter (fun p => (derefItem s.mem p).isPunish now = false) ∧
      (∀ host, res = .ok host →
        ∃ p ∈ l1, (derefItem s.mem p).isPunish now = false ∧ (derefItem s.mem p).host = host) ∧
      (∀ e, res = .error e → e = .noAnyHost name ∧ l1 = []) := by
  unfold serviceControllerImpl.GetServiceHost
  rw [hl]
  exact GetServiceHostLoop_spec name now rand (l.length + 1) 0 l s (Nat.lt_succ_self _) hl

/-- A roster with an entry not punished at `now` yields a host. -/
theorem GetServiceHost_healthy (s : serviceControllerImpl) (now : Int) (l l1 : Slice Ptr)
    (name : String) (res : Except ServiceError String)
    (hfil : l1.filter (fun p => (derefItem s.mem p).isPunish now = false) =
      l.filter (fun p => (derefItem s.mem p).isPunish now = false))
    (herr : ∀ e, res = .error e → e = .noAnyHost name ∧ l1 = [])
    (hex : ∃ p ∈ l, (derefItem s.mem p).isPunish now = false) : ∃ host, res = .ok host := by
  cases res with
  | ok host => exact ⟨host, rfl⟩
  | error e =>
    obtain ⟨p, hp, hh⟩ := hex
    have h1 := (herr e rfl).2
    rw [h1] at hfil
    have hmem : p ∈ l.filter (fun p => (derefItem s.mem p).isPunish now = false) :=
      List.mem_filter.mpr ⟨hp, by simpa using hh⟩
    rw [← hfil] at hmem
    simp at hmem

/-- C14 (counterexample): `PunishService(proxy, hA, 60)` at the instant 100.9 s
leaves `rosterABPunished`; a `GetServiceHost` at the instant 160.5 s, 59.6 s after
the punishment, whose draw is 0 returns `hA`. -/
theorem getServiceHost_returns_punished_within_duration :
    rosterAB.PunishService "proxy" "hA" 60 100900000000 = some rosterABPunished ∧
    (160500000000 : Int) - 100900000000 < 60 * 1000000000 ∧
    rosterABPunished.GetServiceHost "proxy" 160500000000 (fun _ => 0) =
      some (rosterABPunished, .ok "hA") :=
  ⟨by decide, by decide, rfl⟩

/-- C14 (amended): on a published roster `l`, at every instant `now` and for every
sequence of draws, `GetServiceHost` ends; memory and directory are untouched; the
roster published after the call is `l` without some entries punished at `now`, the
entries that are not punished all kept, in their order; a returned host is the
host of an entry of `l` not punished at `now`; and when the roster has an entry not
punished at `now` and every such entry has host `hB`, the call returns `hB` (after
`PunishService(name, hA, d)` at the instant `t` on the roster `[hA, hB]` that is so
while `now` is before the Unix second `⌊t⌋ + d`, which can be up to one second
less than `d` seconds after `t`). -/
theorem getServiceHost_selects_unpunished (s : serviceControllerImpl) (name : String)
    (now : Int) (rand : Nat → Nat) (l : Slice Ptr)
    (hl : strGet s.serviceHosts name = some (some l)) :
    ∃ s1 res l1,
      s.GetServiceHost name now rand = some (s1, res) ∧
      s1.mem = s.mem ∧ s1.allServices = s.allServices ∧
      strGet s1.serviceHosts name = some (some l1) ∧
      l1.Sublist l ∧
      l1.filter (fun p => (derefItem s.mem p).isPunish now = false) =
        l.filter (fun p => (derefItem s.mem p).isPunish now = false) ∧
      (∀ host, res = .ok host →
        ∃ p ∈ l, (derefItem s.mem p).isPunish now = false ∧ (derefItem s.mem p).host = host) ∧
      (∀ hB, (∃ p ∈ l, (derefItem s.mem p).isPunish now = false) →
        (∀ p ∈ l, (derefItem s.mem p).isPunish now = false → (derefItem s.mem p).host = hB) →
        res = .ok hB) := by
  obtain ⟨s1, res, l1, hrun, hmem, hall, _, _, hget, hsub, hfil, hok, herr⟩ :=
    GetServiceHost_roster s name now rand l hl
  refine ⟨s1, res, l1, hrun, hmem, hall, hget, hsub, hfil, ?_, ?_⟩
  · intro host h
    obtain ⟨p, hp, hh, hhost⟩ := hok host h
    exact ⟨p, hsub.subset hp, hh, hhost⟩
  · intro hB hex hall
    obtain ⟨host, hres⟩ := GetServiceHost_healthy s now l l1 name res hfil herr hex
    obtain ⟨p, hp, hh, hhost⟩ := hok host hres
    rw [hres, ← hhost, hall p (hsub.subset hp) hh]

theorem getServiceHost_selects_unpunished_witness :
    strGet rosterABPunished.serviceHosts "proxy" = some (some [0, 1]) ∧
    rosterAB.PunishService "proxy" "hA" 60 100900000000 = some rosterABPunished ∧
    ∃ s1, rosterABPunished.GetServiceHost "proxy" 159999999999 (fun k => k) =
      some (s1, .ok "hB") := by
  refine ⟨by decide, by decide, ?_⟩
  obtain ⟨s1, res, l1, hrun, _, _, _, _, _, _, hB⟩ :=
    getServiceHost_selects_unpunished rosterABPunished "proxy" 159999999999 (fun k => k) [0, 1]
      (by decide)
  refine ⟨s1, ?_⟩
  rw [hrun, hB "hB" ⟨1, by decide, by decide⟩ (by decide)]

/-- C15 (counterexample): a name without roster slot makes `GetServiceHost` panic,
and a roster whose two entries are punished yields `no any host of`, the error of an
empty roster. -/
theorem getServiceHost_errors_not_distinct :
    rosterAB.GetServiceHost "scheduler" 100900000000 (fun _ => 0) =
      some (rosterAB, .error .panic) ∧
    (∀ p ∈ [0, 1],
      (derefItem [{ newHostItem "hA" "z0" with punishTimeUnix := 160 },
                  { newHostItem "hB" "z0" with punishTimeUnix := 160 }] p).isPunish 100900000000
        = true) ∧
    (∃ s1, ({ rosterAB with
        mem := [{ newHostItem "hA" "z0" with punishTimeUnix := 160 },
                { newHostItem "hB" "z0" with punishTimeUnix := 160 }] } :
        serviceControllerImpl).GetServiceHost "proxy" 100900000000 (fun _ => 0) =
      some (s1, .error (.noAnyHost "proxy"))) ∧
    ({ rosterAB with serviceHosts := [("proxy", some [])] } :
        serviceControllerImpl).GetServiceHost "proxy" 100900000000 (fun _ => 0) =
      some ({ rosterAB with serviceHosts := [("proxy", some [])] }, .error (.noAnyHost "proxy")) :=
  ⟨rfl, by decide, ⟨_, rfl⟩, rfl⟩

/-- C15 (amended): `GetServiceHost` always ends. It panics when the name has no
roster slot, returns `not found host of` when the slot was never stored to, returns
`no any host of` when the roster is empty or every entry is punished at `now`, and
returns a host in every other case. -/
theorem getServiceHost_outcomes (s : serviceControllerImpl) (name : String) (now : Int)
    (rand : Nat → Nat) :
    ∃ s1 res, s.GetServiceHost name now rand = some (s1, res) ∧
      (strGet s.serviceHosts name = none → res = .error .panic) ∧
      (strGet s.serviceHosts name = some none → res = .error (.notFoundHost name)) ∧
      ∀ l, strGet s.serviceHosts name = some (some l) →
        ((∀ p ∈ l, (derefItem s.mem p).isPunish now = true) → res = .error (.noAnyHost name)) ∧
        ((∃ p ∈ l, (derefItem s.mem p).isPunish now = false) → ∃ host, res = .ok host) := by
  cases hs : strGet s.serviceHosts name with
  | none =>
    refine ⟨s, .error .panic, ?_, fun _ => rfl, fun h => (by cases h), fun l h => (by cases h)⟩
    unfold serviceControllerImpl.GetServiceHost
    rw [hs]
  | some slot =>
    cases slot with
    | none =>
      refine ⟨s, .error (.notFoundHost name), ?_, fun h => (by cases h), fun _ => rfl,
        fun l h => (by cases h)⟩
      unfold serviceControllerImpl.GetServiceHost
      rw [hs]
    | some l0 =>
      obtain ⟨s1, res, l1, hrun, _, _, _, _, _, hsub, hfil, hok, herr⟩ :=
        GetServiceHost_roster s name now rand l0 hs
      refine ⟨s1, res, hrun, fun h => (by cases h), fun h => (by cases h), ?_⟩
      intro l h
      simp only [Option.some.injEq] at h
      subst h
      refine ⟨?_, GetServiceHost_healthy s now l0 l1 name res hfil herr⟩
      intro hall
      cases res with
      | error e => rw [(herr e rfl).1]
      | ok host =>
        obtain ⟨p, hp, hh, _⟩ := hok host rfl
        rw [hall p (hsub.subset hp)] at hh
        exact Bool.noConfusion hh

/-! ## Service controller: the shuffled list of hosts -/

theorem collectHosts_foldl (mem : Slice hostItem) (now : Int) (l : Slice Ptr) :
    ∀ acc : Slice String,
      l.foldl
        (fun hosts item =>
          if (derefItem mem item).isPunish now = false then hosts ++ [(derefItem mem item).host]
          else hosts) acc =
      acc ++ (l.filter (fun p => (derefItem mem p).isPunish now = false)).map
        (fun p => (derefItem mem p).host) := by
  induction l with
  | nil => intro acc; simp
  | cons a t ih =>
    intro acc
    rw [List.foldl_cons, ih]
    by_cases ha : (derefItem mem a).isPunish now = false
    · simp [List.filter_cons, ha]
    · simp [List.filter_cons, ha]

/-- The loop of `GetServiceHosts` collects the hosts of the entries not punished at
`now`, in the order of the roster. -/
theorem collectHosts_eq (mem : Slice hostItem) (now : Int) (l : Slice Ptr) :
    collectHosts mem now l =
      (l.filter (fun p => (derefItem mem p).isPunish now = false)).map
        (fun p => (derefItem mem p).host) := by
  unfold collectHosts
  rw [collectHosts_foldl]
  rfl

theorem cons_set_perm (d a : String) (t : Slice String) :
    ∀ j, j < t.length → (t.getD j d :: t.set j a).Perm (a :: t) := by
  induction t with
  | nil => intro j hj; simp at hj
  | cons b t ih =>
    intro j hj
    cases j with
    | zero =>
      simp only [List.getD_cons_zero, List.set_cons_zero]
      exact List.Perm.swap _ _ _
    | succ j =>
      simp only [List.getD_cons_succ, List.set_cons_succ]
      have h1 := ih j (by simpa using hj)
      exact ((List.Perm.swap b (t.getD j d) (t.set j a)).trans (h1.cons b)).trans
        (List.Perm.swap a b t)

theorem set_set_perm (d : String) (l : Slice String) :
    ∀ i j, i < l.length → j < l.length →
      ((l.set i (l.getD j d)).set j (l.getD i d)).Perm l := by
  induction l with
  | nil => intro i j hi; simp at hi
  | cons a t ih =>
    intro i j hi hj
    cases i with
    | zero =>
      cases j with
      | zero => simp
      | succ j =>
        simp only [List.getD_cons_zero, List.getD_cons_succ, List.set_cons_zero,
          List.set_cons_succ]
        exact cons_set_perm d a t j (by simpa using hj)
    | succ i =>
      cases j with
      | zero =>
        simp only [List.getD_cons_zero, List.getD_cons_succ, List.set_cons_zero,
          List.set_cons_succ]
        exact cons_set_perm d a t i (by simpa using hi)
      | succ j =>
        simp only [List.getD_cons_succ, List.set_cons_succ]
        exact (ih i j (by simpa using hi) (by simpa using hj)).cons a

theorem swapHosts_perm (hosts : Slice String) (i j : Nat) : (swapHosts hosts i j).Perm hosts := by
  unfold swapHosts
  by_cases h : i < hosts.length ∧ j < hosts.length
  · rw [if_pos h]
    exact set_set_perm "" hosts i j h.1 h.2
  · rw [if_neg h]

theorem foldl_swapHosts_perm (swaps : Slice (Nat × Nat)) :
    ∀ hosts : Slice String,
      (swaps.foldl (fun hosts ij => swapHosts hosts ij.1 ij.2) hosts).Perm hosts := by
  induction swaps with
  | nil => intro hosts; exact List.Perm.refl _
  | cons a t ih =>
    intro hosts
    rw [List.foldl_cons]
    exact (ih _).trans (swapHosts_perm hosts a.1 a.2)

/-- C16: `GetServiceHosts` leaves the controller, and so every roster, as it was;
a returned list is a permutation of the hosts of the roster entries not punished at
`now`; the call fails when the name has no roster, and when every entry of the
roster is punished at `now` (an empty roster included); it returns a list when the
roster has an entry not punished at `now`. -/
theorem getServiceHosts_permutation (s : serviceControllerImpl) (name : String) (now : Int)
    (swaps : Slice (Nat × Nat)) :
    (s.GetServiceHosts name now swaps).1 = s ∧
    (∀ hosts, (s.GetServiceHosts name now swaps).2 = .ok hosts →
      ∃ l, strGet s.serviceHosts name = some (some l) ∧
        hosts.Perm ((l.filter (fun p => (derefItem s.mem p).isPunish now = false)).map
          (fun p => (derefItem s.mem p).host))) ∧
    ((strGet s.serviceHosts name = none ∨ strGet s.serviceHosts name = some none) →
      ∃ e, (s.GetServiceHosts name now swaps).2 = .error e) ∧
    (∀ l, strGet s.serviceHosts name = some (some l) →
      ((∀ p ∈ l, (derefItem s.mem p).isPunish now = true) →
        ∃ e, (s.GetServiceHosts name now swaps).2 = .error e) ∧
      ((∃ p ∈ l, (derefItem s.mem p).isPunish now = false) →
        ∃ hosts, (s.GetServiceHosts name now swaps).2 = .ok hosts)) := by
  unfold serviceControllerImpl.GetServiceHosts
  cases hs : strGet s.serviceHosts name with
  | none =>
    exact ⟨rfl, fun hosts h => by simp at h, fun _ => ⟨_, rfl⟩, fun l h => by cases h⟩
  | some slot =>
    cases slot with
    | none =>
      exact ⟨rfl, fun hosts h => by simp at h, fun _ => ⟨_, rfl⟩, fun l h => by cases h⟩
    | some l0 =>
      simp only
      by_cases h0 : l0.length = 0
      · rw [if_pos h0]
        have hnil : l0 = [] := List.length_eq_zero.mp h0
        refine ⟨rfl, fun hosts h => by simp at h, fun h => ?_, fun l h => ?_⟩
        · rcases h with h | h <;> cases h
        · simp only [Option.some.injEq] at h
          subst h
          refine ⟨fun _ => ⟨_, rfl⟩, fun hex => ?_⟩
          obtain ⟨p, hp, _⟩ := hex
          rw [hnil] at hp
          simp at hp
      · rw [if_neg h0]
        by_cases hc : (collectHosts s.mem now l0).length = 0
        · rw [if_pos hc]
          refine ⟨rfl, fun hosts h => by simp at h, fun h => ?_, fun l h => ?_⟩
          · rcases h with h | h <;> cases h
          · simp only [Option.some.injEq] at h
            subst h
            refine ⟨fun _ => ⟨_, rfl⟩, fun hex => ?_⟩
            obtain ⟨p, hp, hh⟩ := hex
            rw [collectHosts_eq, List.length_map] at hc
            have hmem : p ∈ l0.filter (fun p => (derefItem s.mem p).isPunish now = false) :=
              List.mem_filter.mpr ⟨hp, by simpa using hh⟩
            rw [List.length_eq_zero.mp hc] at hmem
            simp at hmem
        · rw [if_neg hc]
          refine ⟨rfl, fun hosts h => ?_, fun h => ?_, fun l h => ?_⟩
          · simp only [Except.ok.injEq] at h
            refine ⟨l0, rfl, ?_⟩
            rw [← h, ← collectHosts_eq]
            exact foldl_swapHosts_perm swaps _
          · rcases h with h | h <;> cases h
          · simp only [Option.some.injEq] at h
            subst h
            refine ⟨fun hall => ?_, fun _ => ⟨_, rfl⟩⟩
            exfalso
            apply hc
            rw [collectHosts_eq, List.length_map, List.length_eq_zero]
            apply List.filter_eq_nil_iff.mpr
            intro p hp
            rw [hall p hp]
            simp

/-! ## Service controller: punishment -/

theorem derefItem_set_self (mem : Slice hostItem) (p : Ptr) (x : hostItem) (hp : p < mem.length) :
    derefItem (mem.set p x) p = x := by
  unfold derefItem
  simp [List.getD, hp]

theorem derefItem_set_ne (mem : Slice hostItem) (p q : Ptr) (x : hostItem) (h : q ≠ p) :
    derefItem (mem.set p x) q = derefItem mem q := by
  unfold derefItem
  simp [List.getD, List.getElem?_set_ne (Ne.symm h)]

/-- What `PunishService` does to a pair of the directory: the host item takes the
new `punishTimeUnix`, nothing else changes. -/
theorem PunishService_eq (s : serviceControllerImpl) (service host : String) (d now : Int)
    (p : Ptr) (hkey : strGet s.allServices (service ++ host) = some p) :
    s.PunishService service host d now =
      some { s with mem := (s.mem.set p
        { derefItem s.mem p with
          punishTimeUnix := (now + int64 (d * 1000000000)) / 1000000000 }) } := by
  unfold serviceControllerImpl.PunishService
  rw [hkey]

/-- C17 (counterexample): `PunishService(proxy, hA, 1)` at the instant 100.9 s
sets `punishTimeUnix` to 101, and at the instant 101.5 s, 0.6 s after the call,
`hA` is not punished. -/
theorem punishService_shorter_than_duration :
    (rosterAB.PunishService "proxy" "hA" 1 100900000000).map
      (fun s1 => (derefItem s1.mem 0).punishTimeUnix) = some 101 ∧
    (100900000000 : Int) ≤ 101500000000 ∧
    (101500000000 : Int) < 100900000000 + 1 * 1000000000 ∧
    (rosterAB.PunishService "proxy" "hA" 1 100900000000).map
      (fun s1 => (derefItem s1.mem 0).isPunish 101500000000) = some false := by
  refine ⟨by decide, by decide, by decide, by decide⟩

/-- C17 (amended): for an entry of the directory and a duration `d ≥ 0` whose
nanoseconds fit an `int64`, `PunishService` at the instant `now` (nanoseconds) sets
`punishTimeUnix` to the Unix second `⌊now⌋ + d`; the entry is punished exactly at
the instants before that second, so at every instant up to `d - 1` seconds after
`now`, and the other entries are as before. -/
theorem punishService_until (s : serviceControllerImpl) (service host : String) (d now : Int)
    (p : Ptr) (hkey : strGet s.allServices (service ++ host) = some p)
    (hp : p < s.mem.length) (hd0 : 0 ≤ d) (hd1 : d * 1000000000 < 9223372036854775808) :
    ∃ s1, s.PunishService service host d now = some s1 ∧
      (derefItem s1.mem p).punishTimeUnix = now / 1000000000 + d ∧
      (∀ t, (derefItem s1.mem p).isPunish t = true ↔ t < (now / 1000000000 + d) * 1000000000) ∧
      (∀ t, t ≤ now + (d - 1) * 1000000000 → (derefItem s1.mem p).isPunish t = true) ∧
      (∀ q, q ≠ p → derefItem s1.mem q = derefItem s.mem q) ∧
      s1.allServices = s.allServices ∧ s1.serviceHosts = s.serviceHosts := by
  have hi : int64 (d * 1000000000) = d * 1000000000 := by unfold int64; omega
  have hu : (now + d * 1000000000) / 1000000000 = now / 1000000000 + d := by omega
  refine ⟨_, PunishService_eq s service host d now p hkey, ?_, ?_, ?_, ?_, rfl, rfl⟩
  · show (derefItem (s.mem.set p _) p).punishTimeUnix = _
    rw [derefItem_set_self _ _ _ hp, hi]
    exact hu
  · intro t
    show (derefItem (s.mem.set p _) p).isPunish t = true ↔ _
    rw [derefItem_set_self _ _ _ hp, isPunish_iff, hi]
    show t < (now + d * 1000000000) / 1000000000 * 1000000000 ↔ _
    rw [hu]
  · intro t ht
    show (derefItem (s.mem.set p _) p).isPunish t = true
    rw [derefItem_set_self _ _ _ hp, isPunish_iff, hi]
    show t < (now + d * 1000000000) / 1000000000 * 1000000000
    rw [hu]
    omega
  · intro q hq
    exact derefItem_set_ne _ _ _ _ hq

theorem punishService_until_witness :
    strGet rosterAB.allServices ("proxy" ++ "hA") = some 0 ∧
    ∃ s1, rosterAB.PunishService "proxy" "hA" 60 100900000000 = some s1 ∧
      (derefItem s1.mem 0).punishTimeUnix = 100900000000 / 1000000000 + 60 ∧
      (∀ t, (derefItem s1.mem 0).isPunish t = true ↔
        t < (100900000000 / 1000000000 + 60) * 1000000000) ∧
      (∀ t, t ≤ 100900000000 + (60 - 1) * 1000000000 → (derefItem s1.mem 0).isPunish t = true) ∧
      (∀ q, q ≠ 0 → derefItem s1.mem q = derefItem rosterAB.mem q) ∧
      s1.allServices = rosterAB.allServices ∧ s1.serviceHosts = rosterAB.serviceHosts :=
  ⟨by decide,
   punishService_until rosterAB "proxy" "hA" 60 100900000000 0 (by decide) (by decide)
     (by decide) (by decide)⟩

theorem uint32_of_lt (n : Nat) (h : n < 4294967296) : uint32 (n : Int) = n := by
  unfold uint32
  omega

theorem uint32_reset (n : Nat) (h : n < 4294967296) :
    uint32 ((n : Int) + (uint32 (-((n : Int) - 1)) : Nat)) = 1 := by
  unfold uint32
  omega

theorem uint32_lt (x : Int) : uint32 x < 4294967296 := by
  unfold uint32
  omega

/-- The host item of a pair after a `PunishServiceWithThreshold` call that stays
below the threshold: one more failure, `lastModifyTime` the Unix second of `now`. -/
theorem PunishServiceWithThreshold_below (s : serviceControllerImpl) (service host : String)
    (d now : Int) (p : Ptr) (hkey : strGet s.allServices (service ++ host) = some p)
    (hp : p < s.mem.length)
    (hlt : uint32 ((derefItem s.mem p).failedTimes + 1) < s.config.ServicePunishThreshold) :
    ∃ s1, s.PunishServiceWithThreshold service host d now = some s1 ∧
      s1.allServices = s.allServices ∧ s1.serviceHosts = s.serviceHosts ∧
      s1.config = s.config ∧ s1.mem.length = s.mem.length ∧
      (∀ q, q ≠ p → derefItem s1.mem q = derefItem s.mem q) ∧
      derefItem s1.mem p =
        { derefItem s.mem p with
          failedTimes := uint32 ((derefItem s.mem p).failedTimes + 1),
          lastModifyTime := now / 1000000000 } := by
  have hnot : ¬ uint32 ((derefItem s.mem p).failedTimes + 1) ≥ s.config.ServicePunishThreshold :=
    Nat.not_le.mpr hlt
  refine ⟨storeLastModifyTime (addFailedTimes s p 1) p now, ?_, rfl, rfl, rfl, ?_, ?_, ?_⟩
  · unfold serviceControllerImpl.PunishServiceWithThreshold
    rw [hkey]
    simp only
    rw [if_neg hnot]
  · simp [storeLastModifyTime, addFailedTimes]
  · intro q hq
    simp only [storeLastModifyTime, addFailedTimes]
    rw [derefItem_set_ne _ _ _ _ hq, derefItem_set_ne _ _ _ _ hq]
  · simp only [storeLastModifyTime, addFailedTimes]
    rw [derefItem_set_self _ _ _ (by simpa using hp), derefItem_set_self _ _ _ hp]
    rfl

/-- The host item of a pair after a `PunishServiceWithThreshold` call that reaches
the threshold within the valid interval: one more failure and the punishment of
`PunishService`; `lastModifyTime` is not touched. -/
theorem PunishServiceWithThreshold_punish (s : serviceControllerImpl) (service host : String)
    (d now : Int) (p : Ptr) (hkey : strGet s.allServices (service ++ host) = some p)
    (hp : p < s.mem.length)
    (hge : s.config.ServicePunishThreshold ≤ uint32 ((derefItem s.mem p).failedTimes + 1))
    (hin : timeSince now (derefItem s.mem p).lastModifyTime <
      int64 (s.config.ServicePunishValidIntervalS * 1000000000)) :
    ∃ s1, s.PunishServiceWithThreshold service host d now = some s1 ∧
      s1.allServices = s.allServices ∧ s1.serviceHosts = s.serviceHosts ∧
      s1.config = s.config ∧ s1.mem.length = s.mem.length ∧
      (∀ q, q ≠ p → derefItem s1.mem q = derefItem s.mem q) ∧
      derefItem s1.mem p =
        { derefItem s.mem p with
          failedTimes := uint32 ((derefItem s.mem p).failedTimes + 1),
          punishTimeUnix := (now + int64 (d * 1000000000)) / 1000000000 } := by
  have hlm : (derefItem (addFailedTimes s p 1).mem p).lastModifyTime =
      (derefItem s.mem p).lastModifyTime := by
    simp only [addFailedTimes]
    rw [derefItem_set_self _ _ _ hp]
  have hrun : s.PunishServiceWithThreshold service host d now =
      (addFailedTimes s p 1).PunishService service host d now := by
    unfold serviceControllerImpl.PunishServiceWithThreshold
    rw [hkey]
    simp only
    rw [if_pos hge, hlm, if_pos hin]
  have hkey1 : strGet (addFailedTimes s p 1).allServices (service ++ host) = some p := hkey
  rw [hrun, PunishService_eq _ service host d now p hkey1]
  refine ⟨_, rfl, rfl, rfl, rfl, ?_, ?_, ?_⟩
  · simp [addFailedTimes]
  · intro q hq
    simp only [addFailedTimes]
    rw [derefItem_set_ne _ _ _ _ hq, derefItem_set_ne _ _ _ _ hq]
  · simp only [addFailedTimes]
    rw [derefItem_set_self _ _ _ (by simpa using hp), derefItem_set_self _ _ _ hp]
    rfl

/-- The host item of a pair after a `PunishServiceWithThreshold` call that reaches
the threshold outside the valid interval: `failedTimes` is 1, `lastModifyTime` the
Unix second of `now`, `punishTimeUnix` as before. -/
theorem PunishServiceWithThreshold_reset (s : serviceControllerImpl) (service host : String)
    (d now : Int) (p : Ptr) (hkey : strGet s.allServices (service ++ host) = some p)
    (hp : p < s.mem.length)
    (hge : s.config.ServicePunishThreshold ≤ uint32 ((derefItem s.mem p).failedTimes + 1))
    (hout : ¬ timeSince now (derefItem s.mem p).lastModifyTime <
      int64 (s.config.ServicePunishValidIntervalS * 1000000000)) :
    ∃ s1, s.PunishServiceWithThreshold service host d now = some s1 ∧
      s1.allServices = s.allServices ∧ s1.serviceHosts = s.serviceHosts ∧
      s1.config = s.config ∧ s1.mem.length = s.mem.length ∧
      (∀ q, q ≠ p → derefItem s1.mem q = derefItem s.mem q) ∧
      derefItem s1.mem p =
        { derefItem s.mem p with failedTimes := 1, lastModifyTime := now / 1000000000 } := by
  have hlm : (derefItem (addFailedTimes s p 1).mem p).lastModifyTime =
      (derefItem s.mem p).lastModifyTime := by
    simp only [addFailedTimes]
    rw [derefItem_set_self _ _ _ hp]
  refine ⟨storeLastModifyTime (addFailedTimes (addFailedTimes s p 1) p
      (uint32 (-((uint32 ((derefItem s.mem p).failedTimes + 1) : Int) - 1)))) p now,
    ?_, rfl, rfl, rfl, ?_, ?_, ?_⟩
  · unfold serviceControllerImpl.PunishServiceWithThreshold
    rw [hkey]
    simp only
    rw [if_pos hge, hlm, if_neg hout]
  · simp [storeLastModifyTime, addFailedTimes]
  · intro q hq
    simp only [storeLastModifyTime, addFailedTimes]
    rw [derefItem_set_ne _ _ _ _ hq, derefItem_set_ne _ _ _ _ hq, derefItem_set_ne _ _ _ _ hq]
  · simp only [storeLastModifyTime, addFailedTimes]
    rw [derefItem_set_self _ _ _ (by simpa using hp), derefItem_set_self _ _ _ (by simpa using hp),
      derefItem_set_self _ _ _ hp]
    have h1 := uint32_reset (uint32 ((derefItem s.mem p).failedTimes + 1)) (uint32_lt _)
    simp only [Nat.cast_one, h1]

/-- C19 (counterexample): the entry `hA` of `rosterABStreak` has failed twice, the
last time at the Unix second 100; with threshold 3 and valid interval 30 s, a
`PunishServiceWithThreshold` call at the instant 200 s reaches the threshold
outside the interval and leaves `failedTimes` at 1, not at 0. -/
theorem threshold_reset_leaves_one :
    rosterABStreak.config.ServicePunishThreshold ≤
      uint32 ((derefItem rosterABStreak.mem 0).failedTimes + 1) ∧
    int64 (rosterABStreak.config.ServicePunishValidIntervalS * 1000000000) <
      timeSince 200000000000 (derefItem rosterABStreak.mem 0).lastModifyTime ∧
    (rosterABStreak.PunishServiceWithThreshold "proxy" "hA" 60 200000000000).map
      (fun s1 => derefItem s1.mem 0) =
      some { newHostItem "hA" "z0" with failedTimes := 1, lastModifyTime := 200 } := by
  refine ⟨by decide, by decide, by decide⟩

/-- C19 (amended): a `PunishServiceWithThreshold` call on an entry of the directory
that does not punish (the incremented `failedTimes` is below the threshold, or the
time since `lastModifyTime` is not below the valid interval) leaves `punishTimeUnix`
as it was and sets `lastModifyTime` to the Unix second of `now`; `failedTimes` is
then 1 when the threshold was reached, else the incremented count. -/
theorem threshold_call_without_punishment (s : serviceControllerImpl) (service host : String)
    (d now : Int) (p : Ptr) (hkey : strGet s.allServices (service ++ host) = some p)
    (hp : p < s.mem.length)
    (hnp : ¬ (s.config.ServicePunishThreshold ≤ uint32 ((derefItem s.mem p).failedTimes + 1) ∧
      timeSince now (derefItem s.mem p).lastModifyTime <
        int64 (s.config.ServicePunishValidIntervalS * 1000000000))) :
    ∃ s1, s.PunishServiceWithThreshold service host d now = some s1 ∧
      (derefItem s1.mem p).punishTimeUnix = (derefItem s.mem p).punishTimeUnix ∧
      (derefItem s1.mem p).lastModifyTime = now / 1000000000 ∧
      (derefItem s1.mem p).failedTimes =
        (if s.config.ServicePunishThreshold ≤ uint32 ((derefItem s.mem p).failedTimes + 1) then 1
         else uint32 ((derefItem s.mem p).failedTimes + 1)) := by
  by_cases hge : s.config.ServicePunishThreshold ≤ uint32 ((derefItem s.mem p).failedTimes + 1)
  · have hout : ¬ timeSince now (derefItem s.mem p).lastModifyTime <
        int64 (s.config.ServicePunishValidIntervalS * 1000000000) := fun h => hnp ⟨hge, h⟩
    obtain ⟨s1, hrun, _, _, _, _, _, hitem⟩ :=
      PunishServiceWithThreshold_reset s service host d now p hkey hp hge hout
    refine ⟨s1, hrun, ?_, ?_, ?_⟩
    · rw [hitem]
    · rw [hitem]
    · rw [hitem, if_pos hge]
  · obtain ⟨s1, hrun, _, _, _, _, _, hitem⟩ :=
      PunishServiceWithThreshold_below s service host d now p hkey hp (Nat.not_le.mp hge)
    refine ⟨s1, hrun, ?_, ?_, ?_⟩
    · rw [hitem]
    · rw [hitem]
    · rw [hitem, if_neg hge]

theorem threshold_call_without_punishment_witness :
    strGet rosterABStreak.allServices ("proxy" ++ "hA") = some 0 ∧
    ∃ s1, rosterABStreak.PunishServiceWithThreshold "proxy" "hA" 60 200000000000 = some s1 ∧
      (derefItem s1.mem 0).punishTimeUnix = (derefItem rosterABStreak.mem 0).punishTimeUnix ∧
      (derefItem s1.mem 0).lastModifyTime = 200000000000 / 1000000000 ∧
      (derefItem s1.mem 0).failedTimes =
        (if rosterABStreak.config.ServicePunishThreshold ≤
            uint32 ((derefItem rosterABStreak.mem 0).failedTimes + 1) then 1
         else uint32 ((derefItem rosterABStreak.mem 0).failedTimes + 1)) :=
  ⟨by decide,
   threshold_call_without_punishment rosterABStreak "proxy" "hA" 60 200000000000 0 (by decide)
     (by decide) (by decide)⟩

theorem punishCalls_append (service host : String) (d : Int) (a b : List Int) :
    ∀ s : serviceControllerImpl,
      punishCalls service host d (a ++ b) s =
        (punishCalls service host d a s).bind (punishCalls service host d b) := by
  induction a with
  | nil => intro s; rfl
  | cons t rest ih =>
    intro s
    simp only [List.cons_append, punishCalls]
    cases s.PunishServiceWithThreshold service host d t with
    | none => rfl
    | some s1 => exact ih s1

/-- Calls that keep `failedTimes` below the threshold: each one counts a failure and
sets `lastModifyTime`; `punishTimeUnix` is not touched. -/
theorem punishCalls_below (service host : String) (d : Int) (p : Ptr) (ts : List Int) :
    ∀ s : serviceControllerImpl, strGet s.allServices (service ++ host) = some p →
      p < s.mem.length →
      (derefItem s.mem p).failedTimes + ts.length < s.config.ServicePunishThreshold →
      s.config.ServicePunishThreshold ≤ 4294967296 →
      ∃ s1, punishCalls service host d ts s = some s1 ∧
        s1.allServices = s.allServices ∧ s1.config = s.config ∧ s1.mem.length = s.mem.length ∧
        (derefItem s1.mem p).failedTimes = (derefItem s.mem p).failedTimes + ts.length ∧
        (derefItem s1.mem p).punishTimeUnix = (derefItem s.mem p).punishTimeUnix ∧
        (∀ tp, ts.getLast? = some tp → (derefItem s1.mem p).lastModifyTime = tp / 1000000000) := by
  induction ts with
  | nil =>
    intro s _ _ _ _
    exact ⟨s, rfl, rfl, rfl, rfl, rfl, rfl, fun tp h => by simp at h⟩
  | cons t rest ih =>
    intro s hkey hp hlt hthr
    have hlen : (t :: rest).length = rest.length + 1 := rfl
    rw [hlen] at hlt
    have hu : uint32 ((derefItem s.mem p).failedTimes + 1) = (derefItem s.mem p).failedTimes + 1 := by
      have := uint32_of_lt ((derefItem s.mem p).failedTimes + 1) (by omega)
      rw [← this]
      rfl
    obtain ⟨s1, hrun, hall, _, hcfg, hmlen, _, hitem⟩ :=
      PunishServiceWithThreshold_below s service host d t p hkey hp (by rw [hu]; omega)
    have hft1 : (derefItem s1.mem p).failedTimes = (derefItem s.mem p).failedTimes + 1 := by
      rw [hitem]; exact hu
    have hpu1 : (derefItem s1.mem p).punishTimeUnix = (derefItem s.mem p).punishTimeUnix := by
      rw [hitem]
    have hlm1 : (derefItem s1.mem p).lastModifyTime = t / 1000000000 := by
      rw [hitem]
    obtain ⟨s2, hrun2, hall2, hcfg2, hmlen2, hft2, hpu2, hlm2⟩ :=
      ih s1 (by rw [hall]; exact hkey) (by rw [hmlen]; exact hp)
        (by rw [hft1, hcfg]; omega) (by rw [hcfg]; exact hthr)
    refine ⟨s2, ?_, hall2.trans hall, hcfg2.trans hcfg, hmlen2.trans hmlen, ?_, hpu2.trans hpu1, ?_⟩
    · simp only [punishCalls, hrun]
      exact hrun2
    · rw [hft2, hft1, hlen]; omega
    · intro tp htp
      cases rest with
      | nil =>
        simp only [List.getLast?_singleton, Option.some.injEq] at htp
        simp only [punishCalls, Option.some.injEq] at hrun2
        rw [← hrun2, hlm1, htp]
      | cons r rest1 =>
        rw [List.getLast?_cons_cons] at htp
        exact hlm2 tp htp

/-- C18 (counterexample): with threshold 1 a single call at the instant 1000 s on
the new entry `hA` does not punish it; with threshold 2 and valid interval 30 s, two
calls at the instants 100.9 s and 130.5 s, 29.6 s apart, do not punish it. -/
theorem threshold_calls_without_punishment :
    (punishCalls "proxy" "hA" 60 [1000000000000] (rosterABThreshold 1)).map
      (fun s1 => (derefItem s1.mem 0).isPunish 1000000000000) = some false ∧
    (130500000000 : Int) - 100900000000 < 30 * 1000000000 ∧
    (punishCalls "proxy" "hA" 60 [100900000000, 130500000000] (rosterABThreshold 2)).map
      (fun s1 => derefItem s1.mem 0) =
      some { newHostItem "hA" "z0" with failedTimes := 1, lastModifyTime := 130 } ∧
    (punishCalls "proxy" "hA" 60 [100900000000, 130500000000] (rosterABThreshold 2)).map
      (fun s1 => (derefItem s1.mem 0).isPunish 130500000000) = some false := by
  refine ⟨by decide, by decide, by decide, by decide⟩

/-- C18 (amended): for a threshold `T ≥ 2` and a valid interval `I ≥ 0` whose
nanoseconds fit an `int64`, take an entry of the directory with `failedTimes = 0`
and `punishTimeUnix = 0` and `T` calls of `PunishServiceWithThreshold`, the last
one at the instant `tl`, the one before at the instant `tp`, with `tl` less than `I`
seconds after the Unix second of `tp`. After each of the first `T - 1` calls the
entry is not punished (at any instant from the epoch on); after the `T`-th call
`punishTimeUnix` is the Unix second `⌊tl⌋ + d`, so the entry is punished exactly at
the instants before that second, in particular up to `d - 1` seconds after `tl`. -/
theorem threshold_punishes_at_last_call (s : serviceControllerImpl) (service host : String)
    (d : Int) (p : Ptr) (ts : List Int) (tp tl : Int)
    (hkey : strGet s.allServices (service ++ host) = some p) (hp : p < s.mem.length)
    (hft : (derefItem s.mem p).failedTimes = 0) (hpu : (derefItem s.mem p).punishTimeUnix = 0)
    (hT : s.config.ServicePunishThreshold = ts.length + 2) (hT32 : ts.length + 2 < 4294967296)
    (hI0 : 0 ≤ s.config.ServicePunishValidIntervalS)
    (hI1 : s.config.ServicePunishValidIntervalS * 1000000000 < 9223372036854775808)
    (hgap : tl - tp / 1000000000 * 1000000000 <
      s.config.ServicePunishValidIntervalS * 1000000000)
    (hd0 : 0 ≤ d) (hd1 : d * 1000000000 < 9223372036854775808) :
    (∀ k, k ≤ ts.length + 1 →
      ∃ sk, punishCalls service host d ((ts ++ [tp]).take k) s = some sk ∧
        (derefItem sk.mem p).punishTimeUnix = 0 ∧
        ∀ t, 0 ≤ t → (derefItem sk.mem p).isPunish t = false) ∧
    ∃ sT, punishCalls service host d (ts ++ [tp, tl]) s = some sT ∧
      (derefItem sT.mem p).punishTimeUnix = tl / 1000000000 + d ∧
      (∀ t, (derefItem sT.mem p).isPunish t = true ↔ t < (tl / 1000000000 + d) * 1000000000) ∧
      (∀ t, t ≤ tl + (d - 1) * 1000000000 → (derefItem sT.mem p).isPunish t = true) := by
  refine ⟨?_, ?_⟩
  · intro k hk
    have hlen : ((ts ++ [tp]).take k).length ≤ ts.length + 1 := by
      rw [List.length_take]
      exact Nat.le_trans (Nat.min_le_left _ _) hk
    obtain ⟨sk, hrun, _, _, _, _, hpuk, _⟩ :=
      punishCalls_below service host d p ((ts ++ [tp]).take k) s hkey hp
        (by rw [hft, hT]; omega) (by rw [hT]; omega)
    refine ⟨sk, hrun, hpuk.trans hpu, ?_⟩
    intro t ht
    rw [isPunish_false_iff, hpuk, hpu]
    omega
  · obtain ⟨s1, hrun1, hall1, hcfg1, hmlen1, hft1, hpu1, hlm1⟩ :=
      punishCalls_below service host d p (ts ++ [tp]) s hkey hp
        (by rw [hft, hT, List.length_append]; simp) (by rw [hT]; omega)
    have hlm : (derefItem s1.mem p).lastModifyTime = tp / 1000000000 :=
      hlm1 tp (by simp)
    have hfts : (derefItem s1.mem p).failedTimes = ts.length + 1 := by
      rw [hft1, hft, List.length_append]; simp
    have hu : uint32 ((derefItem s1.mem p).failedTimes + 1) = ts.length + 2 := by
      have := uint32_of_lt (ts.length + 2) hT32
      rw [hfts, ← this]
      rfl
    have hi : int64 (s1.config.ServicePunishValidIntervalS * 1000000000) =
        s.config.ServicePunishValidIntervalS * 1000000000 := by
      rw [hcfg1]; unfold int64; omega
    have hkey1 : strGet s1.allServices (service ++ host) = some p := by rw [hall1]; exact hkey
    have hp1 : p < s1.mem.length := by rw [hmlen1]; exact hp
    obtain ⟨sT, hrunT, _, _, _, _, _, hitem⟩ :=
      PunishServiceWithThreshold_punish s1 service host d tl p hkey1 hp1
        (by rw [hu, hcfg1, hT])
        (by rw [hi, hlm]; unfold timeSince; omega)
    have hdi : int64 (d * 1000000000) = d * 1000000000 := by unfold int64; omega
    have hun : (tl + d * 1000000000) / 1000000000 = tl / 1000000000 + d := by omega
    have hpuT : (derefItem sT.mem p).punishTimeUnix = tl / 1000000000 + d := by
      rw [hitem]
      show (tl + int64 (d * 1000000000)) / 1000000000 = _
      rw [hdi, hun]
    refine ⟨sT, ?_, hpuT, ?_, ?_⟩
    · have happ : ts ++ [tp, tl] = (ts ++ [tp]) ++ [tl] := by simp
      rw [happ, punishCalls_append, hrun1]
      simp only [Option.bind, punishCalls, hrunT]
    · intro t
      rw [isPunish_iff, hpuT]
    · intro t ht
      rw [isPunish_iff, hpuT]
      omega

theorem threshold_punishes_at_last_call_witness :
    strGet rosterAB.allServices ("proxy" ++ "hA") = some 0 ∧
    (130500000000 : Int) - 101100000000 / 1000000000 * 1000000000 <
      rosterAB.config.ServicePunishValidIntervalS * 1000000000 ∧
    (∀ k, k ≤ [(100900000000 : Int)].length + 1 →
      ∃ sk, punishCalls "proxy" "hA" 60
          (([(100900000000 : Int)] ++ [101100000000]).take k) rosterAB = some sk ∧
        (derefItem sk.mem 0).punishTimeUnix = 0 ∧
        ∀ t, 0 ≤ t → (derefItem sk.mem 0).isPunish t = false) ∧
    ∃ sT, punishCalls "proxy" "hA" 60 ([(100900000000 : Int)] ++ [101100000000, 130500000000])
        rosterAB = some sT ∧
      (derefItem sT.mem 0).punishTimeUnix = 130500000000 / 1000000000 + 60 ∧
      (∀ t, (derefItem sT.mem 0).isPunish t = true ↔
        t < (130500000000 / 1000000000 + 60) * 1000000000) ∧
      (∀ t, t ≤ 130500000000 + (60 - 1) * 1000000000 → (derefItem sT.mem 0).isPunish t = true) :=
  ⟨by decide, by decide,
   threshold_punishes_at_last_call rosterAB "proxy" "hA" 60 0 [100900000000] 101100000000
     130500000000 (by decide) (by decide) (by decide) (by decide) (by decide) (by decide)
     (by decide) (by decide) (by decide) (by decide) (by decide)⟩

/-! ## Service controller: what changes `punishTimeUnix` -/

theorem GetServiceHost_mem (s s1 : serviceControllerImpl) (name : String) (now : Int)
    (rand : Nat → Nat) (res : Except ServiceError String)
    (h : s.GetServiceHost name now rand = some (s1, res)) : s1.mem = s.mem := by
  cases hs : strGet s.serviceHosts name with
  | none =>
    unfold serviceControllerImpl.GetServiceHost at h
    rw [hs] at h
    simp only [Option.some.injEq, Prod.mk.injEq] at h
    rw [← h.1]
  | some slot =>
    cases slot with
    | none =>
      unfold serviceControllerImpl.GetServiceHost at h
      rw [hs] at h
      simp only [Option.some.injEq, Prod.mk.injEq] at h
      rw [← h.1]
    | some l =>
      obtain ⟨s2, res2, l1, hrun, hmem, _⟩ := GetServiceHost_roster s name now rand l hs
      rw [hrun] at h
      simp only [Option.some.injEq, Prod.mk.injEq] at h
      rw [← h.1]
      exact hmem

theorem GetServiceHosts_state (s : serviceControllerImpl) (name : String) (now : Int)
    (swaps : Slice (Nat × Nat)) : (s.GetServiceHosts name now swaps).1 = s := by
  unfold serviceControllerImpl.GetServiceHosts
  cases strGet s.serviceHosts name with
  | none => rfl
  | some slot =>
    cases slot with
    | none => rfl
    | some l =>
      simp only
      split
      · rfl
      · split <;> rfl

theorem derefItem_append (mem : Slice hostItem) (x : hostItem) (q : Ptr) (hq : q < mem.length) :
    derefItem (mem ++ [x]) q = derefItem mem q := by
  unfold derefItem
  simp [List.getD, List.getElem?_append_left hq]

/-- The lookup of a disk leaves every host item of the memory as it was. -/
theorem GetDiskHost_mem (s : serviceControllerImpl) (diskID : Nat) (now : Int)
    (diskInfo : Except ServiceError DiskInfo) (q : Ptr) (hq : q < s.mem.length) :
    derefItem (s.GetDiskHost diskID now diskInfo).1.mem q = derefItem s.mem q := by
  unfold serviceControllerImpl.GetDiskHost
  cases strGet s.allServices ("diskhost" ++ DiskID.ToString diskID) with
  | some v => rfl
  | none =>
    cases diskInfo with
    | error err => rfl
    | ok info => exact derefItem_append _ _ q hq

/-- The host items `PunishServiceWithThreshold` does not name are as before. -/
theorem PunishServiceWithThreshold_frame (s s1 : serviceControllerImpl) (service host : String)
    (d now : Int) (p : Ptr) (hkey : strGet s.allServices (service ++ host) = some p)
    (h : s.PunishServiceWithThreshold service host d now = some s1) (q : Ptr) (hq : q ≠ p) :
    derefItem s1.mem q = derefItem s.mem q := by
  unfold serviceControllerImpl.PunishServiceWithThreshold at h
  rw [hkey] at h
  simp only at h
  by_cases hge : uint32 ((derefItem s.mem p).failedTimes + 1) ≥ s.config.ServicePunishThreshold
  · rw [if_pos hge] at h
    by_cases hin : timeSince now (derefItem (addFailedTimes s p 1).mem p).lastModifyTime <
        int64 (s.config.ServicePunishValidIntervalS * 1000000000)
    · rw [if_pos hin] at h
      have hkey1 : strGet (addFailedTimes s p 1).allServices (service ++ host) = some p := hkey
      rw [PunishService_eq _ service host d now p hkey1] at h
      simp only [Option.some.injEq] at h
      rw [← h]
      simp only [addFailedTimes]
      rw [derefItem_set_ne _ _ _ _ hq, derefItem_set_ne _ _ _ _ hq]
    · rw [if_neg hin] at h
      simp only [Option.some.injEq] at h
      rw [← h]
      simp only [storeLastModifyTime, addFailedTimes]
      rw [derefItem_set_ne _ _ _ _ hq, derefItem_set_ne _ _ _ _ hq, derefItem_set_ne _ _ _ _ hq]
  · rw [if_neg hge] at h
    simp only [Option.some.injEq] at h
    rw [← h]
    simp only [storeLastModifyTime, addFailedTimes]
    rw [derefItem_set_ne _ _ _ _ hq, derefItem_set_ne _ _ _ _ hq]

/-- C20 (counterexample): `PunishService(proxy, hA, 600)` at the instant 0 sets
`punishTimeUnix` of `hA` to 600, and `PunishService(proxy, hA, 10)` one second
later lowers it to 11. -/
theorem punishService_lowers_punishTime :
    (rosterAB.PunishService "proxy" "hA" 600 0).map
      (fun s1 => (derefItem s1.mem 0).punishTimeUnix) = some 600 ∧
    ((rosterAB.PunishService "proxy" "hA" 600 0).bind
      (fun s1 => s1.PunishService "proxy" "hA" 10 1000000000)).map
      (fun s2 => (derefItem s2.mem 0).punishTimeUnix) = some 11 := by
  refine ⟨by decide, by decide⟩

/-- C20 (amended): for every host item of the memory, `GetServiceHost`,
`GetServiceHosts` and `GetDiskHost` leave the item, and so its `punishTimeUnix`, as
it was; `PunishService` leaves the items it does not name as they were and sets
`punishTimeUnix` of the item it names to the Unix second of `now` plus the
duration, whatever the value before; `PunishServiceWithThreshold` leaves the items
it does not name as they were and either leaves `punishTimeUnix` of the item it
names or sets it to that same second; `PunishDisk` and `PunishDiskWithThreshold`
are these two calls on the pair `diskhost`, disk id. -/
theorem punishTime_changed_only_by_punishment (s : serviceControllerImpl) (q : Ptr)
    (hq : q < s.mem.length) :
    (∀ name now rand s1 res, s.GetServiceHost name now rand = some (s1, res) →
      derefItem s1.mem q = derefItem s.mem q) ∧
    (∀ name now swaps, derefItem (s.GetServiceHosts name now swaps).1.mem q = derefItem s.mem q) ∧
    (∀ diskID now diskInfo,
      derefItem (s.GetDiskHost diskID now diskInfo).1.mem q = derefItem s.mem q) ∧
    (∀ service host d now s1, s.PunishService service host d now = some s1 →
      (strGet s.allServices (service ++ host) ≠ some q →
        derefItem s1.mem q = derefItem s.mem q) ∧
      (strGet s.allServices (service ++ host) = some q →
        (derefItem s1.mem q).punishTimeUnix =
          (now + int64 (d * 1000000000)) / 1000000000)) ∧
    (∀ service host d now s1, s.PunishServiceWithThreshold service host d now = some s1 →
      (strGet s.allServices (service ++ host) ≠ some q →
        derefItem s1.mem q = derefItem s.mem q) ∧
      ((derefItem s1.mem q).punishTimeUnix = (derefItem s.mem q).punishTimeUnix ∨
        (derefItem s1.mem q).punishTimeUnix =
          (now + int64 (d * 1000000000)) / 1000000000)) ∧
    (∀ diskID d now,
      s.PunishDisk diskID d now = s.PunishService "diskhost" (DiskID.ToString diskID) d now) ∧
    (∀ diskID d now,
      s.PunishDiskWithThreshold diskID d now =
        s.PunishServiceWithThreshold "diskhost" (DiskID.ToString diskID) d now) := by
  refine ⟨?_, ?_, ?_, ?_, ?_, fun _ _ _ => rfl, fun _ _ _ => rfl⟩
  · intro name now rand s1 res h
    rw [GetServiceHost_mem s s1 name now rand res h]
  · intro name now swaps
    rw [GetServiceHosts_state]
  · intro diskID now diskInfo
    exact GetDiskHost_mem s diskID now diskInfo q hq
  · intro service host d now s1 h
    cases hkey : strGet s.allServices (service ++ host) with
    | none =>
      unfold serviceControllerImpl.PunishService at h
      rw [hkey] at h
      cases h
    | some p =>
      rw [PunishService_eq s service host d now p hkey] at h
      simp only [Option.some.injEq] at h
      rw [← h]
      refine ⟨fun hne => ?_, fun heq => ?_⟩
      · have hqp : q ≠ p := fun e => hne (by rw [e])
        exact derefItem_set_ne _ _ _ _ hqp
      · simp only [Option.some.injEq] at heq
        subst heq
        show (derefItem (s.mem.set p _) p).punishTimeUnix = _
        rw [derefItem_set_self _ _ _ hq]
  · intro service host d now s1 h
    cases hkey : strGet s.allServices (service ++ host) with
    | none =>
      unfold serviceControllerImpl.PunishServiceWithThreshold at h
      rw [hkey] at h
      cases h
    | some p =>
      have hframe := PunishServiceWithThreshold_frame s s1 service host d now p hkey h q
      refine ⟨fun hne => hframe (fun e => hne (by rw [e])), ?_⟩
      by_cases hqp : q = p
      · subst hqp
        by_cases hge : s.config.ServicePunishThreshold ≤
            uint32 ((derefItem s.mem q).failedTimes + 1)
        · by_cases hin : timeSince now (derefItem s.mem q).lastModifyTime <
              int64 (s.config.ServicePunishValidIntervalS * 1000000000)
          · obtain ⟨s2, hrun, _, _, _, _, _, hitem⟩ :=
              PunishServiceWithThreshold_punish s service host d now q hkey hq hge hin
            rw [hrun] at h
            simp only [Option.some.injEq] at h
            subst h
            right
            rw [hitem]
          · obtain ⟨s2, hrun, _, _, _, _, _, hitem⟩ :=
              PunishServiceWithThreshold_reset s service host d now q hkey hq hge hin
            rw [hrun] at h
            simp only [Option.some.injEq] at h
            subst h
            left
            rw [hitem]
        · obtain ⟨s2, hrun, _, _, _, _, _, hitem⟩ :=
            PunishServiceWithThreshold_below s service host d now q hkey hq (Nat.not_le.mp hge)
          rw [hrun] at h
          simp only [Option.some.injEq] at h
          subst h
          left
          rw [hitem]
      · left
        rw [hframe hqp]

theorem punishTime_changed_only_by_punishment_witness :
    0 < rosterABPunished.mem.length ∧
    (∀ s1 res, rosterABPunished.GetServiceHost "proxy" 159999999999 (fun k => k) = some (s1, res) →
      derefItem s1.mem 0 = derefItem rosterABPunished.mem 0) ∧
    (∀ s1, rosterABPunished.PunishService "proxy" "hA" 10 101000000000 = some s1 →
      (derefItem s1.mem 0).punishTimeUnix =
        (101000000000 + int64 (10 * 1000000000)) / 1000000000) ∧
    (derefItem rosterABPunished.mem 0).punishTimeUnix = 160 ∧
    (101000000000 + int64 (10 * 1000000000)) / 1000000000 = 111 :=
  ⟨by decide,
   fun s1 res =>
     (punishTime_changed_only_by_punishment rosterABPunished 0 (by decide)).1
       "proxy" 159999999999 (fun k => k) s1 res,
   fun s1 h =>
     ((punishTime_changed_only_by_punishment rosterABPunished 0 (by decide)).2.2.2.1
       "proxy" "hA" 10 101000000000 s1 h).2 (by decide),
   by decide, by decide⟩

/-! ## Service controller: the directory of disks -/

theorem strGet_strStore {β : Type} (ms : List (String × β)) (k : String) (y : β) :
    strGet (strStore ms k y) k = some y := by
  induction ms with
  | nil => simp [strStore, strGet]
  | cons a ms ih =>
    obtain ⟨k1, x1⟩ := a
    unfold strStore
    by_cases hk1 : k1 = k
    · simp [hk1, strGet]
    · simp only [hk1, if_false, strGet]
      exact ih

theorem derefItem_append_self (mem : Slice hostItem) (x : hostItem) :
    derefItem (mem ++ [x]) mem.length = x := by
  unfold derefItem
  simp [List.getD]

/-- A disk found in the directory is answered from the directory: the controller
is left as it is and the answer of the cluster manager is not read. -/
theorem GetDiskHost_hit (s : serviceControllerImpl) (diskID : Nat) (now : Int)
    (diskInfo : Except ServiceError DiskInfo) (p : Ptr)
    (hkey : strGet s.allServices ("diskhost" ++ DiskID.ToString diskID) = some p) :
    s.GetDiskHost diskID now diskInfo =
      (s, .ok { Host := (derefItem s.mem p).host, IDC := (derefItem s.mem p).idc,
                Punished := (derefItem s.mem p).isPunish now }) := by
  unfold serviceControllerImpl.GetDiskHost
  rw [hkey]

/-- C21 (amended): for a disk id absent from the directory and an answer of the
cluster manager about that disk (the `DiskID` of the answer is the id asked for),
`GetDiskHost` returns the host and idc of the answer and leaves in the directory,
under the key of the disk, an entry with that host and idc; a second `GetDiskHost`
of the disk then returns the same host and idc whatever the cluster manager would
answer and leaves the controller as it is, and `PunishDisk` of the disk finds the
entry and does not panic. -/
theorem getDiskHost_populates_directory (s : serviceControllerImpl) (diskID : Nat) (now : Int)
    (info : DiskInfo)
    (habs : strGet s.allServices ("diskhost" ++ DiskID.ToString diskID) = none)
    (hid : info.DiskID = diskID) :
    (∃ punished, (s.GetDiskHost diskID now (.ok info)).2 =
      .ok { Host := info.Host, IDC := info.Idc, Punished := punished }) ∧
    (∃ p, strGet (s.GetDiskHost diskID now (.ok info)).1.allServices
        ("diskhost" ++ DiskID.ToString diskID) = some p ∧
      (derefItem (s.GetDiskHost diskID now (.ok info)).1.mem p).host = info.Host ∧
      (derefItem (s.GetDiskHost diskID now (.ok info)).1.mem p).idc = info.Idc) ∧
    (∀ now2 answer2, ∃ punished,
      (s.GetDiskHost diskID now (.ok info)).1.GetDiskHost diskID now2 answer2 =
        ((s.GetDiskHost diskID now (.ok info)).1,
          .ok { Host := info.Host, IDC := info.Idc, Punished := punished })) ∧
    (∀ punishTimeSec now2, ∃ s2,
      (s.GetDiskHost diskID now (.ok info)).1.PunishDisk diskID punishTimeSec now2 = some s2) := by
  subst hid
  have hrun : s.GetDiskHost info.DiskID now (.ok info) =
      ({ s with mem := s.mem ++ [newHostItem info.Host info.Idc],
                allServices := strStore s.allServices
                  ("diskhost" ++ DiskID.ToString info.DiskID) s.mem.length },
        .ok { Host := info.Host, IDC := info.Idc,
              Punished := (newHostItem info.Host info.Idc).isPunish now }) := by
    unfold serviceControllerImpl.GetDiskHost
    rw [habs]
    rfl
  rw [hrun]
  have hkey : strGet
      (strStore s.allServices ("diskhost" ++ DiskID.ToString info.DiskID) s.mem.length)
      ("diskhost" ++ DiskID.ToString info.DiskID) = some s.mem.length := strGet_strStore _ _ _
  have hitem : derefItem (s.mem ++ [newHostItem info.Host info.Idc]) s.mem.length =
      newHostItem info.Host info.Idc := derefItem_append_self _ _
  refine ⟨⟨_, rfl⟩, ⟨s.mem.length, hkey, ?_, ?_⟩, ?_, ?_⟩
  · show (derefItem (s.mem ++ [newHostItem info.Host info.Idc]) s.mem.length).host = _
    rw [hitem]; rfl
  · show (derefItem (s.mem ++ [newHostItem info.Host info.Idc]) s.mem.length).idc = _
    rw [hitem]; rfl
  · intro now2 answer2
    refine ⟨(newHostItem info.Host info.Idc).isPunish now2, ?_⟩
    rw [GetDiskHost_hit _ info.DiskID now2 answer2 s.mem.length hkey]
    show ((_ : serviceControllerImpl),
      (Except.ok ({ Host := (derefItem (s.mem ++ [newHostItem info.Host info.Idc])
          s.mem.length).host, IDC := (derefItem (s.mem ++ [newHostItem info.Host info.Idc])
          s.mem.length).idc, Punished := (derefItem (s.mem ++ [newHostItem info.Host info.Idc])
          s.mem.length).isPunish now2 } : HostIDC) : Except ServiceError HostIDC)) = _
    rw [hitem]
    rfl
  · intro punishTimeSec now2
    unfold serviceControllerImpl.PunishDisk
    exact ⟨_, PunishService_eq _ "diskhost" (DiskID.ToString info.DiskID) punishTimeSec now2
      s.mem.length hkey⟩

theorem getDiskHost_populates_directory_witness :
    strGet rosterAB.allServices ("diskhost" ++ DiskID.ToString 7) = none ∧
    (rosterAB.GetDiskHost 7 100900000000
        (.ok { DiskID := 7, Host := "hD", Idc := "z0" })).2 =
      .ok { Host := "hD", IDC := "z0", Punished := false } ∧
    (∃ p, strGet (rosterAB.GetDiskHost 7 100900000000
          (.ok { DiskID := 7, Host := "hD", Idc := "z0" })).1.allServices
        ("diskhost" ++ DiskID.ToString 7) = some p ∧
      (derefItem (rosterAB.GetDiskHost 7 100900000000
          (.ok { DiskID := 7, Host := "hD", Idc := "z0" })).1.mem p).host = "hD" ∧
      (derefItem (rosterAB.GetDiskHost 7 100900000000
          (.ok { DiskID := 7, Host := "hD", Idc := "z0" })).1.mem p).idc = "z0") :=
  ⟨by decide, rfl,
   (getDiskHost_populates_directory rosterAB 7 100900000000
      { DiskID := 7, Host := "hD", Idc := "z0" } (by decide) rfl).2.1⟩

/-! ## Service controller: the refresh of the roster -/

theorem loadHostItems_foldl (idc : String) (nodes : Slice ServiceNode) :
    ∀ acc : Slice hostItem,
      nodes.foldl
        (fun hostItems node =>
          if node.Idc ≠ idc then hostItems
          else hostItems ++ [({ host := node.Host, idc := node.Idc, punishTimeUnix := 0,
                                lastModifyTime := 0, failedTimes := 0 } : hostItem)]) acc =
      acc ++ (nodes.filter (fun node => decide (node.Idc = idc))).map
        (fun node => newHostItem node.Host node.Idc) := by
  induction nodes with
  | nil => intro acc; simp
  | cons a t ih =>
    intro acc
    rw [List.foldl_cons, ih]
    by_cases ha : a.Idc = idc
    · simp [List.filter_cons, ha, newHostItem]
    · simp [List.filter_cons, ha]

/-- The host items built by `load`: one new item per node of the idc, in the order
of the nodes. -/
theorem loadHostItems_eq (idc : String) (nodes : Slice ServiceNode) :
    loadHostItems idc nodes =
      (nodes.filter (fun node => decide (node.Idc = idc))).map
        (fun node => newHostItem node.Host node.Idc) := by
  unfold loadHostItems
  rw [loadHostItems_foldl]
  rfl

theorem derefItem_append_left (mem rest : Slice hostItem) (q : Ptr) (hq : q < mem.length) :
    derefItem (mem ++ rest) q = derefItem mem q := by
  unfold derefItem
  simp [List.getD, List.getElem?_append_left hq]

theorem map_derefItem_range (items : Slice hostItem) :
    ∀ mem : Slice hostItem,
      (List.range' mem.length items.length).map (derefItem (mem ++ items)) = items := by
  induction items with
  | nil => intro mem; rfl
  | cons x rest ih =>
    intro mem
    have h1 : derefItem (mem ++ x :: rest) mem.length = x := by
      have h0 : mem ++ x :: rest = mem ++ [x] ++ rest := by simp
      rw [h0, derefItem_append_left (mem ++ [x]) rest mem.length (by simp)]
      exact derefItem_append_self mem x
    have h2 := ih (mem ++ [x])
    have h3 : mem ++ [x] ++ rest = mem ++ x :: rest := by simp
    have h4 : (mem ++ [x]).length = mem.length + 1 := by simp
    rw [h3, h4] at h2
    simp only [List.length_cons, List.range'_succ, List.map_cons, h1, h2]

/-- C22 (counterexample): the roster of `proxyAB` holds `hA` and `hB` of the idc
`z0`; a refresh for `z0` to which the cluster manager returns the single node `hC`
of the idc `z1` leaves the controller, and so the roster `[hA, hB]`, as it was. -/
theorem load_keeps_roster_without_local_node :
    proxyAB.load "z0" (.ok [{ Host := "hC", Idc := "z1" }]) = some (proxyAB, none) ∧
    strGet proxyAB.serviceHosts ServiceNameProxy = some (some [0, 1]) ∧
    [(0 : Ptr), 1].map (fun p => (derefItem proxyAB.mem p).host) = ["hA", "hB"] := by
  refine ⟨by decide, by decide, by decide⟩

/-- C22 (amended): on a controller with the slot of the proxy service, a refresh
to which the cluster manager returns a membership with at least one node of the
local idc publishes a roster whose entries are exactly the new host items
(`punishTimeUnix`, `lastModifyTime` and `failedTimes` zero), one per returned node
of the local idc, in the returned order; every entry has the local idc, is not
punished at any instant from the epoch on, and was built by this refresh. A
refresh to which the cluster manager returns no node of the local idc leaves the
controller, and so the roster of the earlier membership, as it was. -/
theorem load_publishes_local_nodes (s : serviceControllerImpl) (idc : String)
    (nodes : Slice ServiceNode) (slot : Option (Slice Ptr))
    (hslot : strGet s.serviceHosts ServiceNameProxy = some slot) :
    ((∃ node ∈ nodes, node.Idc = idc) →
      ∃ s1 roster, s.load idc (.ok nodes) = some (s1, none) ∧
        strGet s1.serviceHosts ServiceNameProxy = some (some roster) ∧
        roster.map (derefItem s1.mem) =
          (nodes.filter (fun node => decide (node.Idc = idc))).map
            (fun node => newHostItem node.Host node.Idc) ∧
        ∀ p ∈ roster, (derefItem s1.mem p).idc = idc ∧ s.mem.length ≤ p ∧
          ∀ now, 0 ≤ now → (derefItem s1.mem p).isPunish now = false) ∧
    ((∀ node ∈ nodes, node.Idc ≠ idc) → s.load idc (.ok nodes) = some (s, none)) := by
  refine ⟨?_, ?_⟩
  · rintro ⟨node, hnode, hidc⟩
    have hmem : newHostItem node.Host node.Idc ∈ loadHostItems idc nodes := by
      rw [loadHostItems_eq]
      exact List.mem_map.mpr ⟨node, List.mem_filter.mpr ⟨hnode, by simpa using hidc⟩, rfl⟩
    have hpos : (loadHostItems idc nodes).length > 0 := List.length_pos_of_mem hmem
    have hmap := map_derefItem_range (loadHostItems idc nodes) s.mem
    refine ⟨{ s with
        mem := s.mem ++ loadHostItems idc nodes,
        allServices :=
          storeHostItems ServiceNameProxy (loadHostItems idc nodes) s.mem.length s.allServices,
        serviceHosts :=
          strSet s.serviceHosts ServiceNameProxy
            (some (List.range' s.mem.length (loadHostItems idc nodes).length)) },
      List.range' s.mem.length (loadHostItems idc nodes).length, ?_, ?_, ?_, ?_⟩
    · unfold serviceControllerImpl.load
      simp only
      rw [if_pos hpos, hslot]
    · exact strGet_strSet _ _ _ _ hslot
    · show (List.range' s.mem.length (loadHostItems idc nodes).length).map
        (derefItem (s.mem ++ loadHostItems idc nodes)) = _
      rw [hmap, loadHostItems_eq]
    · intro p hp
      have hin : derefItem (s.mem ++ loadHostItems idc nodes) p ∈ loadHostItems idc nodes := by
        have h1 : derefItem (s.mem ++ loadHostItems idc nodes) p ∈
            (List.range' s.mem.length (loadHostItems idc nodes).length).map
              (derefItem (s.mem ++ loadHostItems idc nodes)) := List.mem_map.mpr ⟨p, hp, rfl⟩
        rw [hmap] at h1
        exact h1
      have hin2 : derefItem (s.mem ++ loadHostItems idc nodes) p ∈
          (nodes.filter (fun node => decide (node.Idc = idc))).map
            (fun node => newHostItem node.Host node.Idc) := by
        rw [← loadHostItems_eq]
        exact hin
      obtain ⟨n, hn, hitem⟩ := List.mem_map.mp hin2
      have hnidc : n.Idc = idc := by simpa using (List.mem_filter.mp hn).2
      show (derefItem (s.mem ++ loadHostItems idc nodes) p).idc = idc ∧ _ ∧
        ∀ now, 0 ≤ now → (derefItem (s.mem ++ loadHostItems idc nodes) p).isPunish now = false
      rw [← hitem]
      refine ⟨hnidc, (List.mem_range'_1.mp hp).1, ?_⟩
      intro now hnow
      rw [isPunish_false_iff]
      show (0 : Int) * 1000000000 ≤ now
      omega
  · intro hall
    have hnil : loadHostItems idc nodes = [] := by
      rw [loadHostItems_eq, List.map_eq_nil_iff, List.filter_eq_nil_iff]
      intro n hn
      simpa using hall n hn
    unfold serviceControllerImpl.load
    simp only
    rw [hnil]
    rfl

theorem load_publishes_local_nodes_witness :
    strGet proxyAB.serviceHosts ServiceNameProxy = some (some [0, 1]) ∧
    ∃ s1 roster,
      proxyAB.load "z0" (.ok [{ Host := "hC", Idc := "z1" }, { Host := "hD", Idc := "z0" }]) =
        some (s1, none) ∧
      strGet s1.serviceHosts ServiceNameProxy = some (some roster) ∧
      roster.map (derefItem s1.mem) =
        (([{ Host := "hC", Idc := "z1" }, { Host := "hD", Idc := "z0" }] :
            Slice ServiceNode).filter (fun node => decide (node.Idc = "z0"))).map
          (fun node => newHostItem node.Host node.Idc) ∧
      ∀ p ∈ roster, (derefItem s1.mem p).idc = "z0" ∧ proxyAB.mem.length ≤ p ∧
        ∀ now, 0 ≤ now → (derefItem s1.mem p).isPunish now = false :=
  ⟨by decide,
   (load_publishes_local_nodes proxyAB "z0"
      [{ Host := "hC", Idc := "z1" }, { Host := "hD", Idc := "z0" }] (some [0, 1])
      (by decide)).1 ⟨{ Host := "hD", Idc := "z0" }, by decide, rfl⟩⟩

/-! ## The walk of `getNextVid` and `modifySpace` -/

theorem modifySpace_heap_frame (v : volumeMgr) (p : Ptr) (m : modeInfo) (args : AllocVolsArgs)
    (q : Ptr) (hq : q ≠ p) : deref (v.modifySpace p m args).1.heap q = deref v.heap q := by
  have hne : ¬ (p = q ∧ p < v.heap.length) := fun h => hq h.1.symm
  unfold volumeMgr.modifySpace
  simp only
  split
  · rfl
  · split
    · rfl
    · split
      · show deref (v.heap.set p _) q = _
        rw [deref_set, if_neg hne]
      · show deref (v.heap.set p _) q = _
        rw [deref_set, if_neg hne]

/-- A walk on which `modifySpace` refuses every candidate ends with
`ErrNoAvaliableVolume` and changes nothing. -/
theorem getNextVidLoop_all_fail (vols : Slice Ptr) (args : AllocVolsArgs) (n : Nat) :
    ∀ (i : Nat) (v : volumeMgr) (m : modeInfo),
      (∀ j, j < n → (v.modifySpace (vols.getD ((i + j) % vols.length) 0) m args).2.2 = false) →
      volumeMgr.getNextVidLoop vols args i n v m = (v, m, .error Error.ErrNoAvaliableVolume) := by
  induction n with
  | zero => intro i v m _; rfl
  | succ n ih =>
    intro i v m hall
    have h0 := hall 0 (Nat.succ_pos n)
    rw [Nat.add_zero] at h0
    unfold volumeMgr.getNextVidLoop
    simp only
    rw [if_neg (by rw [h0]; exact Bool.false_ne_true), modifySpace_false v _ m args h0]
    apply ih (i + 1) v m
    intro j hj
    have := hall (j + 1) (Nat.succ_lt_succ hj)
    rw [show i + (j + 1) = i + 1 + j by omega] at this
    exact this

/-- A walk returns the result of `modifySpace` on the first candidate it accepts:
the refused candidates before it leave no trace. -/
theorem getNextVidLoop_first (vols : Slice Ptr) (args : AllocVolsArgs) (n : Nat) :
    ∀ (i : Nat) (v : volumeMgr) (m : modeInfo) (j : Nat), j < n →
      (∀ k, k < j → (v.modifySpace (vols.getD ((i + k) % vols.length) 0) m args).2.2 = false) →
      (v.modifySpace (vols.getD ((i + j) % vols.length) 0) m args).2.2 = true →
      volumeMgr.getNextVidLoop vols args i n v m =
        ((v.modifySpace (vols.getD ((i + j) % vols.length) 0) m args).1,
         (v.modifySpace (vols.getD ((i + j) % vols.length) 0) m args).2.1,
         .ok (deref v.heap (vols.getD ((i + j) % vols.length) 0)).Vid) := by
  induction n with
  | zero => intro i v m j hj; omega
  | succ n ih =>
    intro i v m j hj hbefore hsucc
    cases j with
    | zero =>
      rw [Nat.add_zero] at hsucc ⊢
      unfold volumeMgr.getNextVidLoop
      simp only
      rw [if_pos hsucc, (modifySpace_true v _ m args hsucc).2.2]
      simp only [Nat.add_zero]
    | succ j =>
      have h0 := hbefore 0 (Nat.succ_pos j)
      rw [Nat.add_zero] at h0
      unfold volumeMgr.getNextVidLoop
      simp only
      rw [if_neg (by rw [h0]; exact Bool.false_ne_true), modifySpace_false v _ m args h0]
      have hidx : i + (j + 1) = i + 1 + j := by omega
      rw [hidx] at hsucc ⊢
      apply ih (i + 1) v m j (Nat.lt_of_succ_lt_succ hj) _ hsucc
      intro k hk
      have := hbefore (k + 1) (Nat.succ_lt_succ hk)
      rw [show i + (k + 1) = i + 1 + k by omega] at this
      exact this

theorem getNextVid_loop_eq (v : volumeMgr) (vols : Slice Ptr) (m : modeInfo)
    (args : AllocVolsArgs) (hne : vols ≠ []) :
    v.getNextVid vols m args =
      volumeMgr.getNextVidLoop vols args ((advancePreIdx v).preIdx % vols.length) vols.length
        (advancePreIdx v) m := by
  unfold volumeMgr.getNextVid
  simp only
  rw [if_neg (by simpa using hne)]
  rfl

theorem walk_index_inj (s n j k : Nat) (hj : j < n) (hk : k < n)
    (h : (s + j) % n = (s + k) % n) : j = k := by
  have h1 : Nat.ModEq n (s + j) (s + k) := h
  have h2 : Nat.ModEq n j k := Nat.ModEq.add_left_cancel' s h1
  unfold Nat.ModEq at h2
  rw [Nat.mod_eq_of_lt hj, Nat.mod_eq_of_lt hk] at h2
  exact h2

/-- C23: for a non-empty candidate list of length `n`, `getNextVid` advances
`preIdx` (in `uint64`) and walks the candidates in the circular order `s`, `s+1`,
…, `s+n-1` (indexes mod `n`) from `s = preIdx mod n`, each index once. On the
first candidate `modifySpace` accepts, the result is the result of that one
`modifySpace` call with the vid of that candidate, so no other volume is changed;
when `modifySpace` accepts none the call returns `ErrNoAvaliableVolume` and changes
nothing but `preIdx`; and `ErrNoAvaliableVolume` is returned exactly in that case. -/
theorem getNextVid_circular_walk (v : volumeMgr) (vols : Slice Ptr) (m : modeInfo)
    (args : AllocVolsArgs) (hne : vols ≠ []) :
    (∀ j, j < vols.length →
      (∀ k, k < j → ((advancePreIdx v).modifySpace (walkAt v vols k) m args).2.2 = false) →
      ((advancePreIdx v).modifySpace (walkAt v vols j) m args).2.2 = true →
      v.getNextVid vols m args =
        (((advancePreIdx v).modifySpace (walkAt v vols j) m args).1,
         ((advancePreIdx v).modifySpace (walkAt v vols j) m args).2.1,
         .ok (deref v.heap (walkAt v vols j)).Vid) ∧
      ∀ q, q ≠ walkAt v vols j → deref (v.getNextVid vols m args).1.heap q = deref v.heap q) ∧
    ((∀ j, j < vols.length →
        ((advancePreIdx v).modifySpace (walkAt v vols j) m args).2.2 = false) →
      v.getNextVid vols m args = (advancePreIdx v, m, .error Error.ErrNoAvaliableVolume)) ∧
    ((v.getNextVid vols m args).2.2 = .error Error.ErrNoAvaliableVolume ↔
      ∀ j, j < vols.length →
        ((advancePreIdx v).modifySpace (walkAt v vols j) m args).2.2 = false) ∧
    (∀ j k, j < vols.length → k < vols.length →
      ((advancePreIdx v).preIdx % vols.length + j) % vols.length =
        ((advancePreIdx v).preIdx % vols.length + k) % vols.length → j = k) := by
  have hloop := getNextVid_loop_eq v vols m args hne
  have hfirst : ∀ j, j < vols.length →
      (∀ k, k < j → ((advancePreIdx v).modifySpace (walkAt v vols k) m args).2.2 = false) →
      ((advancePreIdx v).modifySpace (walkAt v vols j) m args).2.2 = true →
      v.getNextVid vols m args =
        (((advancePreIdx v).modifySpace (walkAt v vols j) m args).1,
         ((advancePreIdx v).modifySpace (walkAt v vols j) m args).2.1,
         .ok (deref v.heap (walkAt v vols j)).Vid) := by
    intro j hj hbefore hsucc
    rw [hloop]
    exact getNextVidLoop_first vols args vols.length _ (advancePreIdx v) m j hj hbefore hsucc
  have hnone : (∀ j, j < vols.length →
        ((advancePreIdx v).modifySpace (walkAt v vols j) m args).2.2 = false) →
      v.getNextVid vols m args = (advancePreIdx v, m, .error Error.ErrNoAvaliableVolume) := by
    intro hall
    rw [hloop]
    exact getNextVidLoop_all_fail vols args vols.length _ (advancePreIdx v) m hall
  refine ⟨?_, hnone, ⟨?_, fun hall => by rw [hnone hall]⟩, ?_⟩
  · intro j hj hbefore hsucc
    refine ⟨hfirst j hj hbefore hsucc, ?_⟩
    intro q hq
    rw [hfirst j hj hbefore hsucc]
    exact modifySpace_heap_frame (advancePreIdx v) (walkAt v vols j) m args q hq
  · intro herr
    by_contra hex
    have hex2 : ∃ j, j < vols.length ∧
        ((advancePreIdx v).modifySpace (walkAt v vols j) m args).2.2 = true := by
      by_contra hno
      apply hex
      intro j hj
      by_contra hjt
      exact hno ⟨j, hj, by simpa using hjt⟩
    have hmin : ∀ k, k < Nat.find hex2 → ¬ (k < vols.length ∧
        ((advancePreIdx v).modifySpace (walkAt v vols k) m args).2.2 = true) :=
      fun k hk => Nat.find_min hex2 hk
    obtain ⟨hj, hsucc⟩ := Nat.find_spec hex2
    have hres := hfirst (Nat.find hex2) hj (fun k hk => by
      have h1 := hmin k hk
      have hk2 : k < vols.length := Nat.lt_trans hk hj
      cases hb : ((advancePreIdx v).modifySpace (walkAt v vols k) m args).2.2 with
      | false => rfl
      | true => exact absurd ⟨hk2, hb⟩ h1) hsucc
    rw [hres] at herr
    simp at herr
  · intro j k hj hk h
    exact walk_index_inj _ vols.length j k hj hk h

theorem getNextVid_circular_walk_witness :
    twoVolPool.current.vols ≠ [] ∧
    walkAt (mkMgr 10 twoVolHeap twoVolPool 0) twoVolPool.current.vols 0 = 1 ∧
    walkAt (mkMgr 10 twoVolHeap twoVolPool 0) twoVolPool.current.vols 1 = 0 ∧
    (mkMgr 10 twoVolHeap twoVolPool 0).getNextVid twoVolPool.current.vols twoVolPool
        { Fsize := 10, CodeMode := 1, BidCount := 1, Excludes := [12], Discards := [] } =
      (((advancePreIdx (mkMgr 10 twoVolHeap twoVolPool 0)).modifySpace
          (walkAt (mkMgr 10 twoVolHeap twoVolPool 0) twoVolPool.current.vols 1) twoVolPool
          { Fsize := 10, CodeMode := 1, BidCount := 1, Excludes := [12], Discards := [] }).1,
       ((advancePreIdx (mkMgr 10 twoVolHeap twoVolPool 0)).modifySpace
          (walkAt (mkMgr 10 twoVolHeap twoVolPool 0) twoVolPool.current.vols 1) twoVolPool
          { Fsize := 10, CodeMode := 1, BidCount := 1, Excludes := [12], Discards := [] }).2.1,
       .ok (deref (mkMgr 10 twoVolHeap twoVolPool 0).heap
          (walkAt (mkMgr 10 twoVolHeap twoVolPool 0) twoVolPool.current.vols 1)).Vid) ∧
    (deref (mkMgr 10 twoVolHeap twoVolPool 0).heap
      (walkAt (mkMgr 10 twoVolHeap twoVolPool 0) twoVolPool.current.vols 1)).Vid = 11 :=
  ⟨by decide, by decide, by decide,
   ((getNextVid_circular_walk (mkMgr 10 twoVolHeap twoVolPool 0) twoVolPool.current.vols twoVolPool
      { Fsize := 10, CodeMode := 1, BidCount := 1, Excludes := [12], Discards := [] }
      (by decide)).1 1 (by decide)
      (fun k hk => by
        have hk0 : k = 0 := by omega
        subst hk0
        decide)
      (by decide)).1,
   by decide⟩

theorem any_excludes_iff (vid : Nat) (excludes : Slice Nat) :
    excludes.any (fun id => vid == id) = true ↔ vid ∈ excludes := by
  simp only [List.any_eq_true, beq_iff_eq]
  constructor
  · rintro ⟨x, hx, rfl⟩; exact hx
  · intro h; exact ⟨vid, h, rfl⟩

/-- The result of `modifySpace` on a volume it accepts. -/
theorem modifySpace_accept (v : volumeMgr) (p : Ptr) (m : modeInfo) (args : AllocVolsArgs)
    (hex : (deref v.heap p).Vid ∉ args.Excludes) (hfree : args.Fsize ≤ (deref v.heap p).Free)
    (hlive : (deref v.heap p).deleted = false) :
    v.modifySpace p m args =
      if uint64 (((deref v.heap p).Free : Int) - args.Fsize) < uint64 v.VolumeReserveSize then
        ({ v with heap := (v.heap.set p
            { Vid := (deref v.heap p).Vid,
              Used := uint64 (((deref v.heap p).Used : Int) + args.Fsize),
              Free := uint64 (((deref v.heap p).Free : Int) - args.Fsize),
              deleted := true }) },
          m.Delete (v.heap.set p
            { Vid := (deref v.heap p).Vid,
              Used := uint64 (((deref v.heap p).Used : Int) + args.Fsize),
              Free := uint64 (((deref v.heap p).Free : Int) - args.Fsize),
              deleted := true }) (deref v.heap p).Vid, true)
      else
        ({ v with heap := (v.heap.set p
            { Vid := (deref v.heap p).Vid,
              Used := uint64 (((deref v.heap p).Used : Int) + args.Fsize),
              Free := uint64 (((deref v.heap p).Free : Int) - args.Fsize),
              deleted := (deref v.heap p).deleted }) }, m, true) := by
  have h1 : ¬ (args.Excludes.any (fun id => (deref v.heap p).Vid == id) = true) :=
    fun h => hex ((any_excludes_iff _ _).mp h)
  have h2 : ¬ ((deref v.heap p).Free < args.Fsize ∨ (deref v.heap p).deleted = true) := by
    intro hc
    rcases hc with hc | hc
    · omega
    · rw [hlive] at hc; exact Bool.noConfusion hc
  unfold volumeMgr.modifySpace
  simp only
  rw [if_neg h1, if_neg h2]

theorem map_vid_set (h : Heap) (p : Ptr) (x : volume) (hx : x.Vid = (deref h p).Vid)
    (l : List Ptr) :
    l.map (fun q => (deref (h.set p x) q).Vid) = l.map (fun q => (deref h q).Vid) := by
  apply List.map_congr_left
  intro q _
  rw [deref_set]
  by_cases hc : p = q ∧ p < h.length
  · rw [if_pos hc, hx, hc.1]
  · rw [if_neg hc]

/-- Deleting the vid of a record of a set whose records carry distinct vids
removes that record. -/
theorem volumes_Delete_removes (s : volumes) (h : Heap) (p : Ptr) (hp : p ∈ s.vols)
    (hd : vidsDistinct h s) :
    (s.Delete h (deref h p).Vid).2 = true ∧ p ∉ (s.Delete h (deref h p).Vid).1.vols := by
  have hf := volumes_Delete_found s h p hp
  refine ⟨hf.1, ?_⟩
  unfold volumes.Delete
  cases hg : s.Get h (deref h p).Vid with
  | none =>
    unfold volumes.Delete at hf
    rw [hg] at hf
    exact absurd hf.1 (by simp)
  | some q =>
    intro hmem
    exact eraseP_no_vid (fun q => (deref h q).Vid) (deref h p).Vid s.vols hd p hmem rfl

theorem volumes_Delete_absent (s : volumes) (h : Heap) (vid : Nat)
    (hno : ∀ q ∈ s.vols, (deref h q).Vid ≠ vid) : s.Delete h vid = (s, false) := by
  unfold volumes.Delete
  have hg : s.Get h vid = none := by
    unfold volumes.Get
    rw [List.find?_eq_none]
    intro q hq
    simpa using hno q hq
  rw [hg]

/-- C24 (amended): for a volume record of the memory whose `Used + Free` is a
`uint64` value, `modifySpace` succeeds exactly when the vid is not in `Excludes`,
`deleted` is false and `Free ≥ Fsize`. On success `Free` has decreased by `Fsize`
(no underflow), `Used` has increased by `Fsize`, `Free + Used` and the vid are as
before, `deleted` is set exactly when the new `Free` is below
`uint64(VolumeReserveSize)`; the pool is then `modeInfo.Delete` of the vid, which,
when the records of the set holding the volume carry distinct vids, removes the
record from current when current holds it, and from backup when backup holds it
and current holds no record of the vid, the other set being untouched; else the
pool is as before. On failure the manager and the pool are as before. -/
theorem modifySpace_contract (v : volumeMgr) (p : Ptr) (m : modeInfo) (args : AllocVolsArgs)
    (hp : p < v.heap.length)
    (hcap : (deref v.heap p).Used + (deref v.heap p).Free < 18446744073709551616) :
    ((v.modifySpace p m args).2.2 = true ↔
      (deref v.heap p).Vid ∉ args.Excludes ∧ (deref v.heap p).deleted = false ∧
        args.Fsize ≤ (deref v.heap p).Free) ∧
    ((v.modifySpace p m args).2.2 = true →
      (deref (v.modifySpace p m args).1.heap p).Free + args.Fsize = (deref v.heap p).Free ∧
      (deref (v.modifySpace p m args).1.heap p).Used = (deref v.heap p).Used + args.Fsize ∧
      (deref (v.modifySpace p m args).1.heap p).Free +
          (deref (v.modifySpace p m args).1.heap p).Used =
        (deref v.heap p).Free + (deref v.heap p).Used ∧
      (deref (v.modifySpace p m args).1.heap p).Vid = (deref v.heap p).Vid ∧
      ((deref (v.modifySpace p m args).1.heap p).deleted = true ↔
        (deref (v.modifySpace p m args).1.heap p).Free < uint64 v.VolumeReserveSize) ∧
      ((deref (v.modifySpace p m args).1.heap p).deleted = false →
        (v.modifySpace p m args).2.1 = m) ∧
      ((deref (v.modifySpace p m args).1.heap p).deleted = true →
        (p ∈ m.current.vols → vidsDistinct v.heap m.current →
          p ∉ (v.modifySpace p m args).2.1.current.vols ∧
          (v.modifySpace p m args).2.1.backup = m.backup) ∧
        (p ∈ m.backup.vols → vidsDistinct v.heap m.backup →
          (∀ q ∈ m.current.vols, (deref v.heap q).Vid ≠ (deref v.heap p).Vid) →
          p ∉ (v.modifySpace p m args).2.1.backup.vols ∧
          (v.modifySpace p m args).2.1.current = m.current))) ∧
    ((v.modifySpace p m args).2.2 = false → v.modifySpace p m args = (v, m, false)) := by
  refine ⟨⟨fun h => ?_, fun h => modifySpace_succeeds v p m args h.1 h.2.2 h.2.1⟩, ?_,
    modifySpace_false v p m args⟩
  · have ht := modifySpace_true v p m args h
    refine ⟨ht.1, ht.2.1, ?_⟩
    by_contra hlt
    have hfalse : (v.modifySpace p m args).2.2 = false := by
      unfold volumeMgr.modifySpace
      simp only
      split
      · rfl
      · rw [if_pos (Or.inl (Nat.lt_of_not_le hlt))]
    rw [hfalse] at h
    exact Bool.noConfusion h
  · intro h
    have ht := modifySpace_true v p m args h
    have hfree : args.Fsize ≤ (deref v.heap p).Free := by
      by_contra hlt
      have hfalse : (v.modifySpace p m args).2.2 = false := by
        unfold volumeMgr.modifySpace
        simp only
        split
        · rfl
        · rw [if_pos (Or.inl (Nat.lt_of_not_le hlt))]
      rw [hfalse] at h
      exact Bool.noConfusion h
    have hF : uint64 (((deref v.heap p).Free : Int) - args.Fsize) + args.Fsize =
        (deref v.heap p).Free := by unfold uint64; omega
    have hU : uint64 (((deref v.heap p).Used : Int) + args.Fsize) =
        (deref v.heap p).Used + args.Fsize := by unfold uint64; omega
    rw [modifySpace_accept v p m args ht.1 hfree ht.2.1]
    by_cases hr : uint64 (((deref v.heap p).Free : Int) - args.Fsize) < uint64 v.VolumeReserveSize
    · rw [if_pos hr]
      have hd : deref (v.heap.set p
          { Vid := (deref v.heap p).Vid,
            Used := uint64 (((deref v.heap p).Used : Int) + args.Fsize),
            Free := uint64 (((deref v.heap p).Free : Int) - args.Fsize),
            deleted := true }) p =
          { Vid := (deref v.heap p).Vid,
            Used := uint64 (((deref v.heap p).Used : Int) + args.Fsize),
            Free := uint64 (((deref v.heap p).Free : Int) - args.Fsize),
            deleted := true } := by
        rw [deref_set, if_pos ⟨rfl, hp⟩]
      have hvid : (deref v.heap p).Vid = (deref (v.heap.set p
          { Vid := (deref v.heap p).Vid,
            Used := uint64 (((deref v.heap p).Used : Int) + args.Fsize),
            Free := uint64 (((deref v.heap p).Free : Int) - args.Fsize),
            deleted := true }) p).Vid := by rw [hd]
      have hmv : ∀ l : List Ptr, l.map (fun q => (deref (v.heap.set p
          { Vid := (deref v.heap p).Vid,
            Used := uint64 (((deref v.heap p).Used : Int) + args.Fsize),
            Free := uint64 (((deref v.heap p).Free : Int) - args.Fsize),
            deleted := true }) q).Vid) = l.map (fun q => (deref v.heap q).Vid) :=
        map_vid_set v.heap p _ rfl
      simp only [hd]
      refine ⟨hF, hU, by omega, trivial, ⟨fun _ => hr, fun _ => trivial⟩,
        fun hc => absurd hc (by simp), fun _ => ⟨?_, ?_⟩⟩
      · intro hpc hdist
        have hdist2 : vidsDistinct (v.heap.set p
            { Vid := (deref v.heap p).Vid,
              Used := uint64 (((deref v.heap p).Used : Int) + args.Fsize),
              Free := uint64 (((deref v.heap p).Free : Int) - args.Fsize),
              deleted := true }) m.current := by
          unfold vidsDistinct at hdist ⊢
          rw [hmv]
          exact hdist
        have hrem := volumes_Delete_removes m.current _ p hpc hdist2
        rw [← hvid] at hrem
        unfold modeInfo.Delete
        rw [if_pos hrem.1]
        exact ⟨hrem.2, rfl⟩
      · intro hpb hdist hno
        have hdist2 : vidsDistinct (v.heap.set p
            { Vid := (deref v.heap p).Vid,
              Used := uint64 (((deref v.heap p).Used : Int) + args.Fsize),
              Free := uint64 (((deref v.heap p).Free : Int) - args.Fsize),
              deleted := true }) m.backup := by
          unfold vidsDistinct at hdist ⊢
          rw [hmv]
          exact hdist
        have hrem := volumes_Delete_removes m.backup _ p hpb hdist2
        rw [← hvid] at hrem
        have habs := volumes_Delete_absent m.current (v.heap.set p
            { Vid := (deref v.heap p).Vid,
              Used := uint64 (((deref v.heap p).Used : Int) + args.Fsize),
              Free := uint64 (((deref v.heap p).Free : Int) - args.Fsize),
              deleted := true }) (deref v.heap p).Vid (by
            intro q hq
            have hq2 := hno q hq
            rw [deref_set]
            by_cases hc : p = q ∧ p < v.heap.length
            · exact absurd (by rw [hc.1]) hq2
            · rw [if_neg hc]; exact hq2)
        unfold modeInfo.Delete
        rw [habs]
        simp only [Bool.false_eq_true, if_false]
        exact ⟨hrem.2, trivial⟩
    · rw [if_neg hr]
      have hd : deref (v.heap.set p
          { Vid := (deref v.heap p).Vid,
            Used := uint64 (((deref v.heap p).Used : Int) + args.Fsize),
            Free := uint64 (((deref v.heap p).Free : Int) - args.Fsize),
            deleted := (deref v.heap p).deleted }) p =
          { Vid := (deref v.heap p).Vid,
            Used := uint64 (((deref v.heap p).Used : Int) + args.Fsize),
            Free := uint64 (((deref v.heap p).Free : Int) - args.Fsize),
            deleted := (deref v.heap p).deleted } := by
        rw [deref_set, if_pos ⟨rfl, hp⟩]
      simp only [hd]
      refine ⟨hF, hU, by omega, trivial, ⟨fun hc => ?_, fun hc => absurd hc hr⟩,
        fun _ => trivial, fun hc => ?_⟩
      · rw [ht.2.1] at hc; exact Bool.noConfusion hc
      · rw [ht.2.1] at hc; exact Bool.noConfusion hc

theorem modifySpace_contract_witness :
    (0 : Nat) < (mkMgr 995 twoVolHeap twoVolPool 0).heap.length ∧
    (deref (mkMgr 995 twoVolHeap twoVolPool 0).heap 0).Used +
      (deref (mkMgr 995 twoVolHeap twoVolPool 0).heap 0).Free < 18446744073709551616 ∧
    ((mkMgr 995 twoVolHeap twoVolPool 0).modifySpace 0 twoVolPool
      { Fsize := 10, CodeMode := 1, BidCount := 1, Excludes := [], Discards := [] }).2.2 = true ∧
    (deref ((mkMgr 995 twoVolHeap twoVolPool 0).modifySpace 0 twoVolPool
      { Fsize := 10, CodeMode := 1, BidCount := 1, Excludes := [], Discards := [] }).1.heap 0) =
      { Vid := 11, Used := 10, Free := 990, deleted := true } ∧
    ((mkMgr 995 twoVolHeap twoVolPool 0).modifySpace 0 twoVolPool
      { Fsize := 10, CodeMode := 1, BidCount := 1, Excludes := [], Discards := [] }).2.1.current.vols
      = [1] ∧
    (((mkMgr 995 twoVolHeap twoVolPool 0).modifySpace 0 twoVolPool
      { Fsize := 10, CodeMode := 1, BidCount := 1, Excludes := [], Discards := [] }).2.2 = true ↔
      (deref (mkMgr 995 twoVolHeap twoVolPool 0).heap 0).Vid ∉ ([] : Slice Nat) ∧
        (deref (mkMgr 995 twoVolHeap twoVolPool 0).heap 0).deleted = false ∧
        10 ≤ (deref (mkMgr 995 twoVolHeap twoVolPool 0).heap 0).Free) ∧
    (0 : Ptr) ∈ twoVolPool.current.vols ∧
    vidsDistinct (mkMgr 995 twoVolHeap twoVolPool 0).heap twoVolPool.current ∧
    ((0 : Ptr) ∉ ((mkMgr 995 twoVolHeap twoVolPool 0).modifySpace 0 twoVolPool
      { Fsize := 10, CodeMode := 1, BidCount := 1, Excludes := [], Discards := [] }).2.1.current.vols ∧
     ((mkMgr 995 twoVolHeap twoVolPool 0).modifySpace 0 twoVolPool
      { Fsize := 10, CodeMode := 1, BidCount := 1, Excludes := [], Discards := [] }).2.1.backup =
      twoVolPool.backup) :=
  ⟨by decide, by decide, by decide, by decide, by decide,
   (modifySpace_contract (mkMgr 995 twoVolHeap twoVolPool 0) 0 twoVolPool
      { Fsize := 10, CodeMode := 1, BidCount := 1, Excludes := [], Discards := [] }
      (by decide) (by decide)).1,
   by decide, by unfold vidsDistinct; decide,
   ((((modifySpace_contract (mkMgr 995 twoVolHeap twoVolPool 0) 0 twoVolPool
      { Fsize := 10, CodeMode := 1, BidCount := 1, Excludes := [], Discards := [] }
      (by decide) (by decide)).2.1 (by decide)).2.2.2.2.2.2 (by decide)).1 (by decide)
      (by unfold vidsDistinct; decide))⟩

/-! ## Promotion of the backup and the candidate list -/

/-- The two sets of the pool `getAvailableList` leaves when it promotes the backup:
current holds the records of the former backup and backup is empty. -/
theorem getAvailableList_promoted_vols (m : modeInfo) (fsize : Int)
    (hprom : m.current.totalFree < max (int64 m.totalThreshold) fsize) :
    (m.getAvailableList fsize true).1.current.vols = m.backup.vols ∧
    (m.getAvailableList fsize true).1.backup.vols = [] := by
  rw [(getAvailableList_spec m fsize).1 hprom]
  by_cases h : (promoted m).current.totalFree < fsize
  · rw [if_pos h]
    exact ⟨rfl, rfl⟩
  · rw [if_neg h]
    exact ⟨rfl, rfl⟩

theorem getAvailableVolsSwitch_none (v : volumeMgr) (args : AllocVolsArgs) (m1 : modeInfo)
    (needSwitch : Bool) :
    v.getAvailableVolsSwitch args (m1, needSwitch, none) =
      v.getAvailableVolsList args (m1.getAvailableList (int64 args.Fsize) needSwitch) := by
  unfold volumeMgr.getAvailableVolsSwitch
  rfl

/-- C25: when `getAvailableList` promotes the backup (it is called with
`switchable` and `current.totalFree < max(threshold, fsize)`), the pool it leaves
has the records of the former backup as current and an empty backup; a volume that
was a member of current and not of backup is then a member of neither set, so
`List` and `ListAll` do not report it; and the step of `getAvailableVols` that makes
this call writes back that pool and leaves the memory as it was, so the `Free`,
`Used` and `deleted` fields of the volume are unchanged. -/
theorem promotion_abandons_current (v : volumeMgr) (args : AllocVolsArgs) (m1 info : modeInfo)
    (p : Ptr) (hmode : mapGet v.modeInfos args.CodeMode = some info)
    (hprom : m1.current.totalFree < max (int64 m1.totalThreshold) (int64 args.Fsize))
    (hp : p ∈ m1.current.vols) (hown : p ∉ m1.backup.vols) :
    (m1.getAvailableList (int64 args.Fsize) true).1.current.vols = m1.backup.vols ∧
    (m1.getAvailableList (int64 args.Fsize) true).1.backup.vols = [] ∧
    p ∉ (m1.getAvailableList (int64 args.Fsize) true).1.List false ∧
    p ∉ (m1.getAvailableList (int64 args.Fsize) true).1.List true ∧
    p ∉ (m1.getAvailableList (int64 args.Fsize) true).1.ListAll ∧
    mapGet (v.getAvailableVolsSwitch args (m1, true, none)).1.modeInfos args.CodeMode =
      some (m1.getAvailableList (int64 args.Fsize) true).1 ∧
    deref (v.getAvailableVolsSwitch args (m1, true, none)).1.heap p = deref v.heap p := by
  have hv := getAvailableList_promoted_vols m1 (int64 args.Fsize) hprom
  have hs := getAvailableVolsList_state v args (m1.getAvailableList (int64 args.Fsize) true)
  rw [getAvailableVolsSwitch_none]
  generalize m1.getAvailableList (int64 args.Fsize) true = g at hv hs ⊢
  obtain ⟨x, l⟩ := g
  have hc : x.current.vols = m1.backup.vols := hv.1
  have hb : x.backup.vols = [] := hv.2
  refine ⟨hc, hb, ?_, ?_, ?_, ?_, ?_⟩
  · show p ∉ x.current.vols
    rw [hc]; exact hown
  · show p ∉ x.backup.vols
    rw [hb]; simp
  · show p ∉ x.current.vols ++ x.backup.vols
    rw [hc, hb]; simpa using hown
  · rw [hs.2.1]
    exact mapGet_mapSet _ _ _ _ hmode
  · rw [hs.1]

theorem promotion_abandons_current_witness :
    mapGet (mkMgr 10 twoVolHeap switchPool 0).modeInfos 1 = some switchPool ∧
    switchPool.current.totalFree < max (int64 switchPool.totalThreshold) (int64 (200 : Nat)) ∧
    (0 : Ptr) ∈ switchPool.current.vols ∧ (0 : Ptr) ∉ switchPool.backup.vols ∧
    (switchPool.getAvailableList (int64 (200 : Nat)) true).1.current.vols = [1] ∧
    (0 : Ptr) ∉ (switchPool.getAvailableList (int64 (200 : Nat)) true).1.ListAll ∧
    deref ((mkMgr 10 twoVolHeap switchPool 0).getAvailableVolsSwitch
        { Fsize := 200, CodeMode := 1, BidCount := 1, Excludes := [], Discards := [] }
        (switchPool, true, none)).1.heap 0 =
      deref (mkMgr 10 twoVolHeap switchPool 0).heap 0 :=
  ⟨by decide, by decide, by decide, by decide, by decide,
   (promotion_abandons_current (mkMgr 10 twoVolHeap switchPool 0)
      { Fsize := 200, CodeMode := 1, BidCount := 1, Excludes := [], Discards := [] }
      switchPool switchPool 0 (by decide) (by decide) (by decide) (by decide)).2.2.2.2.1,
   (promotion_abandons_current (mkMgr 10 twoVolHeap switchPool 0)
      { Fsize := 200, CodeMode := 1, BidCount := 1, Excludes := [], Discards := [] }
      switchPool switchPool 0 (by decide) (by decide) (by decide) (by decide)).2.2.2.2.2.2⟩

theorem getNextVidLoop_no_panic (vols : Slice Ptr) (args : AllocVolsArgs) (n : Nat) :
    ∀ (i : Nat) (v : volumeMgr) (m : modeInfo),
      (volumeMgr.getNextVidLoop vols args i n v m).2.2 ≠ .error Error.panic := by
  induction n with
  | zero =>
    intro i v m h
    simp [volumeMgr.getNextVidLoop] at h
  | succ n ih =>
    intro i v m
    unfold volumeMgr.getNextVidLoop
    simp only
    by_cases hs : (v.modifySpace (vols.getD (i % vols.length) 0) m args).2.2 = true
    · rw [if_pos hs]
      intro h
      simp at h
    · rw [if_neg hs]
      have hfalse := modifySpace_false v _ m args (Bool.eq_false_iff.mpr hs)
      rw [hfalse]
      exact ih (i + 1) v m

/-- C26: a candidate list returned by `getAvailableVols` has at least one entry, so
the modulo by its length in `getNextVid` is defined, every index the walk reads is
within the list, and `getNextVid` on it does not panic; `allocVid` calls
`getNextVid` with exactly that list and returns its result. -/
theorem candidate_list_nonempty (v : volumeMgr) (args : AllocVolsArgs) (vols : Slice Ptr)
    (h : (v.getAvailableVols args).2 = .ok vols) :
    1 ≤ vols.length ∧
    (∀ i, i % vols.length < vols.length ∧ vols.getD (i % vols.length) 0 ∈ vols) ∧
    (∀ (v1 : volumeMgr) (m : modeInfo), (v1.getNextVid vols m args).2.2 ≠ .error Error.panic) ∧
    ∃ info1, mapGet (v.getAvailableVols args).1.modeInfos args.CodeMode = some info1 ∧
      (v.allocVid args).2 = ((v.getAvailableVols args).1.getNextVid vols info1 args).2.2 := by
  cases hmode : mapGet v.modeInfos args.CodeMode with
  | none =>
    have he : v.getAvailableVols args = (v, .error Error.panic) := by
      unfold volumeMgr.getAvailableVols
      rw [hmode]
    rw [he] at h
    simp at h
  | some info =>
    obtain ⟨hne, info1, hinfo1, _⟩ := (getAvailableVols_pool 0 v args info hmode).2 vols h
    have hpos : 0 < vols.length := List.length_pos.mpr hne
    refine ⟨hpos, fun i => ⟨Nat.mod_lt _ hpos, getD_mem_of_pos vols i hne⟩, ?_, info1, hinfo1, ?_⟩
    · intro v1 m
      unfold volumeMgr.getNextVid
      simp only
      rw [if_neg (Nat.pos_iff_ne_zero.mp hpos)]
      exact getNextVidLoop_no_panic vols args _ _ _ m
    · rw [allocVid_eq v args info hmode]
      generalize v.getAvailableVols args = g at h hinfo1 ⊢
      obtain ⟨v1, res⟩ := g
      simp only at h
      subst h
      have hinfo1b : mapGet v1.modeInfos args.CodeMode = some info1 := hinfo1
      simp only [hinfo1b]

theorem candidate_list_nonempty_witness :
    ((mkMgr 10 twoVolHeap twoVolPool 0).getAvailableVols
      { Fsize := 10, CodeMode := 1, BidCount := 1, Excludes := [], Discards := [] }).2 =
      .ok [0, 1] ∧
    1 ≤ [(0 : Ptr), 1].length ∧
    (∀ i, i % [(0 : Ptr), 1].length < [(0 : Ptr), 1].length ∧
      [(0 : Ptr), 1].getD (i % [(0 : Ptr), 1].length) 0 ∈ [(0 : Ptr), 1]) :=
  ⟨rfl,
   (candidate_list_nonempty (mkMgr 10 twoVolHeap twoVolPool 0)
      { Fsize := 10, CodeMode := 1, BidCount := 1, Excludes := [], Discards := [] } [0, 1] rfl).1,
   (candidate_list_nonempty (mkMgr 10 twoVolHeap twoVolPool 0)
      { Fsize := 10, CodeMode := 1, BidCount := 1, Excludes := [], Discards := [] } [0, 1] rfl).2.1⟩

/-! ## The requests of the allocation workers -/

theorem initModeInfo_applyArg_built (v : volumeMgr) (mode : Nat) :
    (initModeInfo.applyArg v mode).built := fun _ => rfl

theorem requestsBuilt_congr (v v1 : volumeMgr) (h : v1.allocChs = v.allocChs)
    (hb : v.requestsBuilt) : v1.requestsBuilt := by
  unfold volumeMgr.requestsBuilt
  rw [h]
  exact hb

theorem requestsBuilt_served (v : volumeMgr) (mode : Nat) (w : worker) (hb : v.requestsBuilt)
    (hch : mapGet v.allocChs mode = some (some w)) : w.args.built :=
  hb (mode, some w) (mapGet_mem _ _ _ hch) w rfl

theorem requestsBuilt_mapSet (v v1 : volumeMgr) (mode : Nat) (ch : Option worker)
    (h : v1.allocChs = mapSet v.allocChs mode ch) (hch : ∀ w, ch = some w → w.args.built)
    (hb : v.requestsBuilt) : v1.requestsBuilt := by
  intro entry he w hw
  rw [h] at he
  rcases mem_mapSet _ _ _ _ he with h1 | h1
  · exact hb entry h1 w hw
  · rw [h1] at hw
    exact hch w hw

theorem allocNotify_requestsBuilt (v : volumeMgr) (mode : Nat) (count : Int) (b : Bool)
    (hb : v.requestsBuilt) : (v.allocNotify mode count b).1.requestsBuilt := by
  unfold volumeMgr.allocNotify
  simp only
  split
  · refine requestsBuilt_mapSet v _ mode _ rfl ?_ hb
    intro w hw
    simp only [Option.some.injEq] at hw
    rw [← hw]
    intro h
    exact Bool.noConfusion h
  · exact requestsBuilt_congr v _ rfl hb
  · exact hb

theorem notifyAndReturn_requestsBuilt (v : volumeMgr) (mode : Nat) (b : Bool)
    (res : Except Error (Slice Ptr)) (hb : v.requestsBuilt) :
    (v.notifyAndReturn mode b res).1.requestsBuilt := by
  have hs := allocNotify_requestsBuilt v mode v.DefaultAllocVolsNum b hb
  unfold volumeMgr.notifyAndReturn
  split
  · exact hs
  · exact hs

theorem getAvailableVolsList_requestsBuilt (v : volumeMgr) (args : AllocVolsArgs)
    (g : modeInfo × Slice Ptr) (hb : v.requestsBuilt) :
    (v.getAvailableVolsList args g).1.requestsBuilt := by
  have hb1 : volumeMgr.requestsBuilt { v with modeInfos := mapSet v.modeInfos args.CodeMode g.1 } :=
    requestsBuilt_congr v _ rfl hb
  unfold volumeMgr.getAvailableVolsList
  by_cases h0 : g.2.length = 0
  · rw [if_pos h0]
    exact notifyAndReturn_requestsBuilt _ _ _ _ hb1
  · rw [if_neg h0]
    by_cases hbk : (g.1.List true).length = 0
    · rw [if_pos hbk]
      exact notifyAndReturn_requestsBuilt _ _ _ _ hb1
    · rw [if_neg hbk]
      exact hb1

theorem getAvailableVolsSwitch_requestsBuilt (v : volumeMgr) (args : AllocVolsArgs)
    (ns : modeInfo × Bool × Option Error) (hb : v.requestsBuilt) :
    (v.getAvailableVolsSwitch args ns).1.requestsBuilt := by
  obtain ⟨m1, flag, oe⟩ := ns
  cases oe with
  | some err =>
    exact notifyAndReturn_requestsBuilt
      { v with modeInfos := mapSet v.modeInfos args.CodeMode m1 } args.CodeMode true (.error err)
      (requestsBuilt_congr v _ rfl hb)
  | none =>
    exact getAvailableVolsList_requestsBuilt v args (m1.getAvailableList (int64 args.Fsize) flag) hb

theorem getAvailableVols_requestsBuilt (v : volumeMgr) (args : AllocVolsArgs)
    (hb : v.requestsBuilt) : (v.getAvailableVols args).1.requestsBuilt := by
  cases hmode : mapGet v.modeInfos args.CodeMode with
  | none =>
    have he : v.getAvailableVols args = (v, .error Error.panic) := by
      unfold volumeMgr.getAvailableVols
      rw [hmode]
    rw [he]
    exact hb
  | some info =>
    rw [getAvailableVols_eq v args info hmode]
    exact getAvailableVolsSwitch_requestsBuilt
      { v with heap := (info.dealDisCards v.heap args.Discards).1 } args _
      (requestsBuilt_congr v _ rfl hb)

theorem modifySpace_allocChs (v : volumeMgr) (p : Ptr) (m : modeInfo) (args : AllocVolsArgs) :
    (v.modifySpace p m args).1.allocChs = v.allocChs := by
  unfold volumeMgr.modifySpace
  simp only
  split
  · rfl
  · split
    · rfl
    · split <;> rfl

theorem getNextVidLoop_allocChs (vols : Slice Ptr) (args : AllocVolsArgs) (n : Nat) :
    ∀ (i : Nat) (v : volumeMgr) (m : modeInfo),
      (volumeMgr.getNextVidLoop vols args i n v m).1.allocChs = v.allocChs := by
  induction n with
  | zero => intro i v m; rfl
  | succ n ih =>
    intro i v m
    have hk := modifySpace_allocChs v (vols.getD (i % vols.length) 0) m args
    unfold volumeMgr.getNextVidLoop
    simp only
    by_cases hs : (v.modifySpace (vols.getD (i % vols.length) 0) m args).2.2 = true
    · rw [if_pos hs]
      exact hk
    · rw [if_neg hs]
      have hfalse := modifySpace_false v _ m args (Bool.eq_false_iff.mpr hs)
      rw [hfalse]
      exact ih (i + 1) v m

theorem getNextVid_allocChs (v : volumeMgr) (vols : Slice Ptr) (m : modeInfo)
    (args : AllocVolsArgs) : (v.getNextVid vols m args).1.allocChs = v.allocChs := by
  unfold volumeMgr.getNextVid
  simp only
  split
  · rfl
  · have h := getNextVidLoop_allocChs vols args vols.length
      ((v.preIdx + 1) % 18446744073709551616 % vols.length)
      { v with preIdx := (v.preIdx + 1) % 18446744073709551616 } m
    exact h

theorem allocVid_requestsBuilt (v : volumeMgr) (args : AllocVolsArgs) (hb : v.requestsBuilt) :
    (v.allocVid args).1.requestsBuilt := by
  cases hmode : mapGet v.modeInfos args.CodeMode with
  | none =>
    have he : v.allocVid args = (v, .error Error.ErrNoAvaliableVolume) := by
      unfold volumeMgr.allocVid
      rw [hmode]
    rw [he]
    exact hb
  | some info =>
    rw [allocVid_eq v args info hmode]
    have hg := getAvailableVols_requestsBuilt v args hb
    generalize v.getAvailableVols args = g at hg
    obtain ⟨v1, res⟩ := g
    cases res with
    | error err => exact hg
    | ok vols =>
      have hg1 : v1.requestsBuilt := hg
      cases hm1 : mapGet v1.modeInfos args.CodeMode with
      | none =>
        simp only [hm1]
        exact hg1
      | some info1 =>
        simp only [hm1]
        exact requestsBuilt_congr v1 _ (getNextVid_allocChs v1 vols info1 args) hg1

theorem alloc_requestsBuilt (v : volumeMgr) (args : AllocVolsArgs)
    (bids : Except Error (Slice BidScope)) (hb : v.requestsBuilt) :
    (v.Alloc args bids).1.requestsBuilt := by
  cases bids with
  | error err => exact hb
  | ok scopes =>
    rw [alloc_fst]
    exact allocVid_requestsBuilt v args hb

theorem putVolumeRets_allocChs (isInit isBackup : Bool) (codeMode len : Nat) :
    ∀ (rets : Slice AllocVolumeInfo) (index : Nat) (v v1 : volumeMgr),
      volumeMgr.putVolumeRets isInit isBackup codeMode len index rets v = some v1 →
      v1.allocChs = v.allocChs := by
  intro rets
  induction rets with
  | nil =>
    intro index v v1 h
    simp only [volumeMgr.putVolumeRets, Option.some.injEq] at h
    rw [← h]
  | cons vol rest ih =>
    intro index v v1 h
    unfold volumeMgr.putVolumeRets at h
    cases hm : mapGet v.modeInfos codeMode with
    | none => rw [hm] at h; simp at h
    | some info =>
      rw [hm] at h
      simp only at h
      have h2 := ih (index + 1) _ v1 h
      exact h2

/-- The worker only clears `isInit` of the request it serves, so the requests of
the workers stay requests this code builds. -/
theorem allocVolumeLoop_requestsBuilt (v : volumeMgr) (mode : Nat)
    (volumeRets : Except Error (Slice AllocVolumeInfo)) (hb : v.requestsBuilt) :
    ((v.allocVolumeLoop mode volumeRets).getD v).requestsBuilt := by
  have hclear : ∀ (a : allocArgs) (w : worker),
      w.args = { a with isInit := false } → w.args.built := by
    intro a w hw h
    rw [hw] at h
    exact Bool.noConfusion h
  unfold volumeMgr.allocVolumeLoop
  cases hch : mapGet v.allocChs mode with
  | none => exact hb
  | some ch =>
    cases ch with
    | none => exact hb
    | some wk =>
      cases volumeRets with
      | error err =>
        refine requestsBuilt_mapSet v _ mode _ rfl ?_ hb
        intro w hw
        simp only [Option.some.injEq] at hw
        exact hclear wk.args w (by rw [← hw])
      | ok rets =>
        simp only
        cases hp : volumeMgr.putVolumeRets wk.args.isInit wk.args.isBackup wk.args.codeMode
            rets.length 0 rets v with
        | none => exact hb
        | some v1 =>
          have h1 : v1.requestsBuilt :=
            requestsBuilt_congr v v1 (putVolumeRets_allocChs _ _ _ _ rets 0 v v1 hp) hb
          simp only
          split
          · refine requestsBuilt_mapSet v1 _ mode _ rfl ?_ h1
            intro w hw
            simp only [Option.some.injEq] at hw
            exact hclear wk.args w (by rw [← hw])
          · refine requestsBuilt_mapSet v1 _ mode _ rfl ?_ h1
            intro w hw
            exact absurd hw (by simp)

theorem step_requestsBuilt (v : volumeMgr) (e : Event) (hb : v.requestsBuilt) :
    (step v e).requestsBuilt := by
  cases e with
  | alloc args bids => exact alloc_requestsBuilt v args bids hb
  | discard args =>
    show (v.Discard args).1.requestsBuilt
    unfold volumeMgr.Discard
    split
    · exact requestsBuilt_congr v _ rfl hb
    · exact hb
  | replenish mode volumeRets => exact allocVolumeLoop_requestsBuilt v mode volumeRets hb

/-- Every sequence of `Alloc`, `Discard` and replenishment steps keeps the requests
of the workers requests this code builds: `isInit` and `isBackup` are never both
set. -/
theorem run_requestsBuilt (events : List Event) :
    ∀ (v : volumeMgr), v.requestsBuilt → (run v events).requestsBuilt := by
  induction events with
  | nil => intro v hb; exact hb
  | cons e rest ih =>
    intro v hb
    exact ih (step v e) (step_requestsBuilt v e hb)

/-! ## The split of a batch in `allocVolumeLoop` -/

theorem putIsBackup_built (init : Int) (isInit isBackup : Bool) (n j : Nat)
    (hb : isInit = true → isBackup = false) (hj : j < n) :
    putIsBackup init isInit isBackup n j =
      decide (0 + (if isInit = true ∧ (n : Int) ≥ int64 (2 * init) then min init.toNat n
                   else if isBackup = true then 0 else n) ≤ j) := by
  unfold putIsBackup
  generalize int64 (2 * init) = t
  by_cases hs : isInit = true ∧ (n : Int) ≥ t
  · have hbk := hb hs.1
    rw [if_pos hs]
    subst hbk
    by_cases hji : (j : Int) ≥ init
    · rw [if_pos ⟨hs.1, hs.2, hji⟩]
      symm
      simp only [decide_eq_true_eq]
      omega
    · rw [if_neg (fun h => hji h.2.2)]
      symm
      simp only [decide_eq_false_iff_not]
      omega
  · rw [if_neg hs, if_neg (fun h => hs ⟨h.1, h.2.1⟩)]
    cases isBackup with
    | true => simp
    | false =>
      simp only [Bool.false_eq_true, if_false]
      symm
      simp only [decide_eq_false_iff_not]
      omega

/-- While `2 × InitVolumeNum` does not overflow Go `int`, the product the code
computes is the mathematical product, and a batch of `n ≥ 2 × InitVolumeNum`
volumes has at least `InitVolumeNum` volumes. -/
theorem split_guard_in_range (init : Int) (n : Nat) (hinit : isInt64 (2 * init)) :
    int64 (2 * init) = 2 * init ∧
    ((n : Int) ≥ 2 * init → min init.toNat n = init.toNat) := by
  refine ⟨int64_of_isInt64 _ hinit, fun h => ?_⟩
  omega

/-- C8: for every batch of `n` volumes the cluster manager returns to the worker of
a mode, the worker serving a request this code builds (`isInit` and `isBackup` not
both set) for a mode that has a pool: the records of the volumes are appended to
the memory in the returned order; if the request is an `isInit` request and
`n ≥ 2 × InitVolumeNum` (the product as the code computes it, in Go `int`), the
first `InitVolumeNum` volumes (`min(InitVolumeNum, n)` of them, which is
`InitVolumeNum` while the product does not overflow) are put into current and the
remaining ones into backup; in every other case all `n` volumes are put into
backup when `isBackup` is true and into current when it is false. -/
theorem allocVolumeLoop_split_rule (v : volumeMgr) (mode : Nat) (w : worker) (info : modeInfo)
    (rets : Slice AllocVolumeInfo)
    (hch : mapGet v.allocChs mode = some (some w))
    (hmode : mapGet v.modeInfos w.args.codeMode = some info)
    (hbuilt : w.args.built) :
    ∃ v1 info1, v.allocVolumeLoop mode (.ok rets) = some v1 ∧
      mapGet v1.modeInfos w.args.codeMode = some info1 ∧
      v1.heap = v.heap ++ rets.map newVolume ∧
      ((w.args.isInit = true ∧ (rets.length : Int) ≥ int64 (2 * v.InitVolumeNum)) →
        info1.current.vols = info.current.vols ++
          List.range' v.heap.length (min v.InitVolumeNum.toNat rets.length) ∧
        info1.backup.vols = info.backup.vols ++
          List.range' (v.heap.length + min v.InitVolumeNum.toNat rets.length)
            (rets.length - min v.InitVolumeNum.toNat rets.length)) ∧
      (¬ (w.args.isInit = true ∧ (rets.length : Int) ≥ int64 (2 * v.InitVolumeNum)) →
        (w.args.isBackup = true →
          info1.current.vols = info.current.vols ∧
          info1.backup.vols = info.backup.vols ++ List.range' v.heap.length rets.length) ∧
        (w.args.isBackup = false →
          info1.current.vols = info.current.vols ++ List.range' v.heap.length rets.length ∧
          info1.backup.vols = info.backup.vols)) := by
  obtain ⟨v1, info1, h1, h2, h3, _, h5, h6⟩ :=
    putVolumeRets_prefix w.args.isInit w.args.isBackup w.args.codeMode rets.length rets 0
      (if w.args.isInit = true ∧ (rets.length : Int) ≥ int64 (2 * v.InitVolumeNum)
        then min v.InitVolumeNum.toNat rets.length
        else if w.args.isBackup = true then 0 else rets.length) v info hmode
      (fun j _ hj => putIsBackup_built _ _ _ _ j hbuilt (by omega))
      (by
        split
        · exact Nat.min_le_right _ _
        · split
          · exact Nat.zero_le _
          · exact Nat.le_refl _)
  have hrule :
      ((w.args.isInit = true ∧ (rets.length : Int) ≥ int64 (2 * v.InitVolumeNum)) →
        info1.current.vols = info.current.vols ++
          List.range' v.heap.length (min v.InitVolumeNum.toNat rets.length) ∧
        info1.backup.vols = info.backup.vols ++
          List.range' (v.heap.length + min v.InitVolumeNum.toNat rets.length)
            (rets.length - min v.InitVolumeNum.toNat rets.length)) ∧
      (¬ (w.args.isInit = true ∧ (rets.length : Int) ≥ int64 (2 * v.InitVolumeNum)) →
        (w.args.isBackup = true →
          info1.current.vols = info.current.vols ∧
          info1.backup.vols = info.backup.vols ++ List.range' v.heap.length rets.length) ∧
        (w.args.isBackup = false →
          info1.current.vols = info.current.vols ++ List.range' v.heap.length rets.length ∧
          info1.backup.vols = info.backup.vols)) := by
    refine ⟨fun hs => ?_, fun hs => ⟨fun hbk => ?_, fun hbk => ?_⟩⟩
    · rw [if_pos hs] at h5 h6
      exact ⟨h5, h6⟩
    · rw [if_neg hs, if_pos hbk] at h5 h6
      refine ⟨?_, ?_⟩
      · rw [h5]; simp
      · rw [h6]; simp
    · rw [if_neg hs, if_neg (by rw [hbk]; decide)] at h5 h6
      refine ⟨h5, ?_⟩
      rw [h6]; simp
  unfold volumeMgr.allocVolumeLoop
  rw [hch]
  simp only [h1]
  by_cases hlt : (rets.length : Int) < w.requireCount
  · rw [if_pos hlt]
    exact ⟨_, info1, rfl, h2, h3, hrule⟩
  · rw [if_neg hlt]
    exact ⟨_, info1, rfl, h2, h3, hrule⟩

theorem allocVolumeLoop_split_rule_witness :
    initModeInfo.applyArg (bootMgr { isInit := true, isBackup := false, codeMode := 1, count := 4 }) 1 =
      { isInit := true, isBackup := false, codeMode := 1, count := 4 } ∧
    ((bootMgr { isInit := true, isBackup := false, codeMode := 1, count := 4 }).allocVolumeLoop 1
        (.ok (batch 4))).map (fun s => mapGet s.modeInfos 1) =
      some (some { current := { vols := [0, 1, 2, 3], totalFree := 4000 },
                   backup := { vols := [], totalFree := 0 }, totalThreshold := 100 }) ∧
    ((bootMgr { isInit := true, isBackup := false, codeMode := 1, count := 4 }).allocVolumeLoop 1
        (.ok (batch 8))).map (fun s => mapGet s.modeInfos 1) =
      some (some { current := { vols := [0, 1, 2, 3], totalFree := 4000 },
                   backup := { vols := [4, 5, 6, 7], totalFree := 4000 }, totalThreshold := 100 }) ∧
    ((bootMgr { isInit := false, isBackup := true, codeMode := 1, count := 2 }).allocVolumeLoop 1
        (.ok (batch 2))).map (fun s => mapGet s.modeInfos 1) =
      some (some { current := { vols := [], totalFree := 0 },
                   backup := { vols := [0, 1], totalFree := 2000 }, totalThreshold := 100 }) ∧
    ∃ v1 info1,
      (bootMgr { isInit := true, isBackup := false, codeMode := 1, count := 4 }).allocVolumeLoop 1
        (.ok (batch 8)) = some v1 ∧
      mapGet v1.modeInfos 1 = some info1 ∧
      v1.heap = [] ++ (batch 8).map newVolume ∧
      info1.current.vols = [] ++ List.range' 0 (min (4 : Int).toNat (batch 8).length) ∧
      info1.backup.vols = [] ++
        List.range' (0 + min (4 : Int).toNat (batch 8).length)
          ((batch 8).length - min (4 : Int).toNat (batch 8).length) := by
  obtain ⟨v1, info1, h1, h2, h3, h4, _⟩ :=
    allocVolumeLoop_split_rule
      (bootMgr { isInit := true, isBackup := false, codeMode := 1, count := 4 })
      1 { args := { isInit := true, isBackup := false, codeMode := 1, count := 4 }, requireCount := 4 }
      { current := { vols := [], totalFree := 0 }, backup := { vols := [], totalFree := 0 },
        totalThreshold := 100 }
      (batch 8) rfl rfl (fun _ => rfl)
  exact ⟨by decide, by decide, by decide, by decide, v1, info1, h1, h2, h3, h4 ⟨rfl, by decide⟩⟩

/-! ## States with two records of one vid, and answers about another disk -/

/-- C9 (counterexample): in `duplicateVidMgr`, a state reached from `redeliverMgr`
by one replenishment, `current` holds the records 0, 1 and 3 and the records 1 and
3 both carry vid 12. `Discard(1, [12])` flags and removes the record 1 and leaves
`current = [0, 3]`; running it a second time flags and removes the record 3 and
leaves `current = [0]`: the state after two calls is not the state after one. -/
theorem discard_twice_differs :
    mapGet duplicateVidMgr.modeInfos 1 = some duplicateVidPool ∧
    (deref duplicateVidMgr.heap 1).Vid = 12 ∧ (deref duplicateVidMgr.heap 3).Vid = 12 ∧
    mapGet (duplicateVidMgr.Discard { CodeMode := 1, Discards := [12] }).1.modeInfos 1 =
      some { duplicateVidPool with current := { vols := [0, 3], totalFree := 1500 } } ∧
    (deref (duplicateVidMgr.Discard { CodeMode := 1, Discards := [12] }).1.heap 3).deleted = false ∧
    mapGet ((duplicateVidMgr.Discard { CodeMode := 1, Discards := [12] }).1.Discard
        { CodeMode := 1, Discards := [12] }).1.modeInfos 1 =
      some { duplicateVidPool with current := { vols := [0], totalFree := 1000 } } ∧
    (deref ((duplicateVidMgr.Discard { CodeMode := 1, Discards := [12] }).1.Discard
        { CodeMode := 1, Discards := [12] }).1.heap 3).deleted = true ∧
    (duplicateVidMgr.Discard { CodeMode := 1, Discards := [12] }).1.Discard
        { CodeMode := 1, Discards := [12] } ≠
      duplicateVidMgr.Discard { CodeMode := 1, Discards := [12] } := by
  refine ⟨by decide, by decide, by decide, by decide, by decide, by decide, by decide, by decide⟩

/-- C24 (counterexample): in `duplicateVidMgr` the records 1 and 3 of `current`
both carry vid 12 and the record 3 has 500 bytes free. `modifySpace` on the record
3 with `Fsize = 495` succeeds, leaves it 5 bytes free, below the reserve 10, and
sets its `deleted` flag; the removal `modeInfo.Delete(12)` takes the record 1 out
of `current`, so the flagged record 3 is still held by `current` and the record 1,
which is not flagged, is held by no set. -/
theorem modifySpace_removes_other_record :
    mapGet duplicateVidMgr.modeInfos 1 = some duplicateVidPool ∧
    (deref duplicateVidMgr.heap 1).Vid = 12 ∧ (deref duplicateVidMgr.heap 3).Vid = 12 ∧
    (duplicateVidMgr.modifySpace 3 duplicateVidPool
        { Fsize := 495, CodeMode := 1, BidCount := 1, Excludes := [], Discards := [] }).2.2 = true ∧
    deref (duplicateVidMgr.modifySpace 3 duplicateVidPool
        { Fsize := 495, CodeMode := 1, BidCount := 1, Excludes := [], Discards := [] }).1.heap 3 =
      { Vid := 12, Used := 495, Free := 5, deleted := true } ∧
    deref (duplicateVidMgr.modifySpace 3 duplicateVidPool
        { Fsize := 495, CodeMode := 1, BidCount := 1, Excludes := [], Discards := [] }).1.heap 1 =
      { Vid := 12, Used := 0, Free := 1000, deleted := false } ∧
    (duplicateVidMgr.modifySpace 3 duplicateVidPool
        { Fsize := 495, CodeMode := 1, BidCount := 1, Excludes := [], Discards := [] }).2.1.current.vols =
      [0, 3] ∧
    (duplicateVidMgr.modifySpace 3 duplicateVidPool
        { Fsize := 495, CodeMode := 1, BidCount := 1, Excludes := [], Discards := [] }).2.1.backup.vols =
      [2] := by
  refine ⟨by decide, by decide, by decide, by decide, by decide, by decide, by decide, by decide⟩

/-- C21 (counterexample): the directory of `rosterAB` has no entry for the disk 7.
`GetDiskHost(7)`, to which the cluster manager answers with the record of the disk
8, returns the host and idc of that answer and stores the entry under the key of
the disk 8: the key of the disk 7 is still absent, a second `GetDiskHost(7)` asks
the cluster manager again (it returns the error of that call), and
`PunishDisk(7, 60)` finds no entry and panics. -/
theorem getDiskHost_stores_under_answered_id :
    strGet rosterAB.allServices ("diskhost" ++ DiskID.ToString 7) = none ∧
    (rosterAB.GetDiskHost 7 100900000000 (.ok { DiskID := 8, Host := "hD", Idc := "z0" })).2 =
      .ok { Host := "hD", IDC := "z0", Punished := false } ∧
    strGet (rosterAB.GetDiskHost 7 100900000000
        (.ok { DiskID := 8, Host := "hD", Idc := "z0" })).1.allServices
      ("diskhost" ++ DiskID.ToString 7) = none ∧
    strGet (rosterAB.GetDiskHost 7 100900000000
        (.ok { DiskID := 8, Host := "hD", Idc := "z0" })).1.allServices
      ("diskhost" ++ DiskID.ToString 8) = some 2 ∧
    ((rosterAB.GetDiskHost 7 100900000000
        (.ok { DiskID := 8, Host := "hD", Idc := "z0" })).1.GetDiskHost 7 100900000000
        (.error (.external 500))).2 = .error (.base (.external 500) 7) ∧
    (rosterAB.GetDiskHost 7 100900000000
        (.ok { DiskID := 8, Host := "hD", Idc := "z0" })).1.PunishDisk 7 60 100900000000 = none := by
  refine ⟨by decide, rfl, by decide, by decide, rfl, by decide⟩
